import Mathlib

/-!
# Verification of the tremor-runtime core against its specification

Shallow embedding of three components of the repository:

* `src/codec/dogstatsd.rs` — the DogStatsD v1.2 text codec (decode/encode),
  modelled byte-for-byte on `List Nat` (each entry one byte).
* `src/pipeline.rs` — the buffered non-blocking sender (`TrySender`), the
  polymorphic destination (`Dest`), the fan-out helpers `send_events` /
  `send_signal`, and the management-message handling of `pipeline_task`.
* `src/connectors/impls/gbq/sink.rs` — the schema-driven record-to-protobuf
  mapper (`map_field`, `encode_field`, `JsonToProtobufMapping::map`).

Rust computations that can fail are modelled with the four-valued result
`DRes`: `ok`, `err` (a returned `Err(...)`, any error kind), `panic`
(a Rust panic: `unwrap`, out-of-bounds slice/index, arithmetic underflow,
or undefined behaviour from `get_unchecked`), and `diverge` (an infinite
loop).
-/

namespace TremorSpec

/-- Result type for embedded Rust computations (see module docstring). -/
inductive DRes (α : Type) where
  | ok (a : α)
  | err
  | panic
  | diverge
deriving DecidableEq, Repr

namespace DRes

def bind {α β : Type} : DRes α → (α → DRes β) → DRes β
  | .ok a, f => f a
  | .err, _ => .err
  | .panic, _ => .panic
  | .diverge, _ => .diverge

def map {α β : Type} (f : α → β) : DRes α → DRes β
  | .ok a => .ok (f a)
  | .err => .err
  | .panic => .panic
  | .diverge => .diverge

@[simp] theorem bind_ok {α β : Type} (a : α) (f : α → DRes β) :
    (DRes.ok a).bind f = f a := rfl

@[simp] theorem err_bind {α β : Type} (f : α → DRes β) :
    (DRes.err : DRes α).bind f = .err := rfl

@[simp] theorem map_ok {α β : Type} (a : α) (f : α → β) :
    (DRes.ok a).map f = .ok (f a) := rfl

end DRes

/-- A byte string: each entry is one byte (0–255 where it matters). -/
abbrev Bytes := List Nat

/-- Bytes of a Lean string literal (used for the fixed ASCII protocol
keywords, whose UTF-8 bytes are their code points). -/
def litBytes (s : String) : Bytes := s.data.map Char.toNat

/-- Is `b` a UTF-8 continuation byte (`0x80`–`0xBF`)? -/
def isCont (b : Nat) : Bool := 128 ≤ b && b ≤ 191

/-- Lower bound for the first continuation byte after lead byte `b`
(rules out overlong forms and surrogates). -/
def lowLo (b : Nat) : Nat := if b = 224 then 160 else if b = 240 then 144 else 128

/-- Upper bound for the first continuation byte after lead byte `b`
(rules out surrogates and code points above U+10FFFF). -/
def lowHi (b : Nat) : Nat := if b = 237 then 159 else if b = 244 then 143 else 191

/-- State machine for strict UTF-8: `p` pending continuation bytes, the next
one restricted to `lo..hi` (subsequent ones to `128..191`). -/
def utf8Run : Bytes → Nat → Nat → Nat → Bool
  | [], p, _, _ => p == 0
  | b :: r, 0, _, _ =>
    if b ≤ 127 then utf8Run r 0 0 0
    else if b < 194 || 244 < b then false
    else if b ≤ 223 then utf8Run r 1 (lowLo b) (lowHi b)
    else if b ≤ 239 then utf8Run r 2 (lowLo b) (lowHi b)
    else utf8Run r 3 (lowLo b) (lowHi b)
  | b :: r, p + 1, lo, hi =>
    (lo ≤ b && b ≤ hi) && utf8Run r p 128 191

/-- Strict UTF-8 validity, as checked by Rust's `str::from_utf8`:
continuation-byte counts, no overlong forms, no surrogates, max U+10FFFF. -/
def utf8Valid (s : Bytes) : Bool := utf8Run s 0 0 0

theorem utf8Run_state0 (b : Bytes) (lo hi : Nat) :
    utf8Run b 0 lo hi = utf8Run b 0 0 0 := by
  cases b <;> rfl

theorem utf8Run_append : ∀ (a : Bytes) (p lo hi : Nat) (b : Bytes),
    utf8Run a p lo hi = true → utf8Valid b = true → utf8Run (a ++ b) p lo hi = true := by
  intro a
  induction a with
  | nil =>
    intro p lo hi b ha hb
    have hp : p = 0 := by
      rw [show utf8Run [] p lo hi = (p == 0) from rfl] at ha
      simpa using ha
    subst hp
    rw [List.nil_append, utf8Run_state0]
    exact hb
  | cons x r ih =>
    intro p lo hi b ha hb
    cases p with
    | zero =>
      rw [List.cons_append]
      rw [show utf8Run (x :: r) 0 lo hi
        = (if x ≤ 127 then utf8Run r 0 0 0
          else if x < 194 || 244 < x then false
          else if x ≤ 223 then utf8Run r 1 (lowLo x) (lowHi x)
          else if x ≤ 239 then utf8Run r 2 (lowLo x) (lowHi x)
          else utf8Run r 3 (lowLo x) (lowHi x)) from rfl] at ha
      rw [show utf8Run (x :: (r ++ b)) 0 lo hi
        = (if x ≤ 127 then utf8Run (r ++ b) 0 0 0
          else if x < 194 || 244 < x then false
          else if x ≤ 223 then utf8Run (r ++ b) 1 (lowLo x) (lowHi x)
          else if x ≤ 239 then utf8Run (r ++ b) 2 (lowLo x) (lowHi x)
          else utf8Run (r ++ b) 3 (lowLo x) (lowHi x)) from rfl]
      split at ha
      · rw [if_pos (by assumption)]
        exact ih 0 0 0 b ha hb
      · split at ha
        · exact absurd ha (by simp)
        · rw [if_neg (by assumption), if_neg (by assumption)]
          split at ha
          · rw [if_pos (by assumption)]
            exact ih 1 _ _ b ha hb
          · rw [if_neg (by assumption)]
            split at ha
            · rw [if_pos (by assumption)]
              exact ih 2 _ _ b ha hb
            · rw [if_neg (by assumption)]
              exact ih 3 _ _ b ha hb
    | succ q =>
      rw [List.cons_append]
      rw [show utf8Run (x :: r) (q + 1) lo hi
        = ((lo ≤ x && x ≤ hi) && utf8Run r q 128 191) from rfl] at ha
      rw [show utf8Run (x :: (r ++ b)) (q + 1) lo hi
        = ((lo ≤ x && x ≤ hi) && utf8Run (r ++ b) q 128 191) from rfl]
      rw [Bool.and_eq_true] at ha
      rw [Bool.and_eq_true]
      exact ⟨ha.1, ih q 128 191 b ha.2 hb⟩

theorem utf8Valid_append (a b : Bytes)
    (ha : utf8Valid a = true) (hb : utf8Valid b = true) :
    utf8Valid (a ++ b) = true :=
  utf8Run_append a 0 0 0 b ha hb

/-- Every all-ASCII byte string is valid UTF-8. -/
theorem utf8Valid_of_ascii : ∀ a : Bytes, (∀ b ∈ a, b ≤ 127) → utf8Valid a = true := by
  intro a ha
  induction a with
  | nil => rfl
  | cons b r ih =>
    have hb : b ≤ 127 := ha b (by simp)
    rw [show utf8Valid (b :: r)
      = (if b ≤ 127 then utf8Run r 0 0 0
        else if b < 194 || 244 < b then false
        else if b ≤ 223 then utf8Run r 1 (lowLo b) (lowHi b)
        else if b ≤ 239 then utf8Run r 2 (lowLo b) (lowHi b)
        else utf8Run r 3 (lowLo b) (lowHi b)) from rfl]
    rw [if_pos hb]
    exact ih fun x hx => ha x (by simp [hx])

/-- In a valid UTF-8 string the first byte is never a continuation byte. -/
theorem utf8Valid_head_not_cont (b : Nat) (r : Bytes)
    (h : utf8Valid (b :: r) = true) : isCont b = false := by
  by_contra hc
  have hc' : isCont b = true := by
    cases h' : isCont b
    · exact absurd h' hc
    · rfl
  simp only [isCont, Bool.and_eq_true, decide_eq_true_eq] at hc'
  rw [show utf8Valid (b :: r)
    = (if b ≤ 127 then utf8Run r 0 0 0
      else if b < 194 || 244 < b then false
      else if b ≤ 223 then utf8Run r 1 (lowLo b) (lowHi b)
      else if b ≤ 239 then utf8Run r 2 (lowLo b) (lowHi b)
      else utf8Run r 3 (lowLo b) (lowHi b)) from rfl] at h
  rw [if_neg (by omega)] at h
  rw [if_pos (by simp only [Bool.or_eq_true, decide_eq_true_eq]; omega)] at h
  exact absurd h (by simp)

/-! ## Decimal integers -/

/-- Is `b` an ASCII digit byte? -/
def isDigit (b : Nat) : Bool := 48 ≤ b && b ≤ 57

/-- Numeric value of a big-endian list of ASCII digit bytes. -/
def natOfDigits (l : Bytes) : Nat := l.foldl (fun a b => 10 * a + (b - 48)) 0

/-- ASCII decimal rendering of a natural number (Rust `u32`/`usize` `to_string`). -/
def natDigits (n : Nat) : Bytes :=
  if n < 10 then [48 + n] else natDigits (n / 10) ++ [48 + n % 10]

/-- ASCII decimal rendering of a signed integer (Rust `i32::to_string`). -/
def intRender (i : Int) : Bytes :=
  if i < 0 then 45 :: natDigits (-i).toNat else natDigits i.toNat

/-- Digit-run acceptance shared by the integer parsers: nonempty, all
digits, value within `bound`. -/
def digitRunVal (t : Bytes) (bound : Nat) : Option Nat :=
  if !t.isEmpty && t.all isDigit && decide (natOfDigits t < bound) then
    some (natOfDigits t)
  else none

/-- Rust `str::parse::<u32>`: optional `+`, at least one digit, value below `2^32`. -/
def parseU32 (s : Bytes) : Option Nat :=
  digitRunVal (if s.head? == some 43 then s.drop 1 else s) (2 ^ 32)

/-- Rust `str::parse::<i32>`: optional sign, at least one digit, `i32` range. -/
def parseI32 (s : Bytes) : Option Int :=
  if s.head? == some 45 then
    (digitRunVal (s.drop 1) (2 ^ 31 + 1)).map (fun n => -(n : Int))
  else
    (digitRunVal (if s.head? == some 43 then s.drop 1 else s) (2 ^ 31)).map
      (fun n => (n : Int))

theorem natOfDigits_append (a b : Bytes) :
    natOfDigits (a ++ b) = b.foldl (fun x c => 10 * x + (c - 48)) (natOfDigits a) := by
  simp [natOfDigits, List.foldl_append]

theorem natDigits_all_digit (n : Nat) : (natDigits n).all isDigit = true := by
  induction n using natDigits.induct with
  | case1 n h =>
    rw [natDigits, if_pos h]
    simp [isDigit]
    omega
  | case2 n h ih =>
    rw [natDigits, if_neg h]
    simp only [List.all_append, ih, Bool.true_and, List.all_cons, List.all_nil,
      Bool.and_true]
    simp [isDigit]
    omega

theorem natDigits_ne_nil (n : Nat) : natDigits n ≠ [] := by
  rw [natDigits]
  split <;> simp

theorem natOfDigits_natDigits (n : Nat) : natOfDigits (natDigits n) = n := by
  induction n using natDigits.induct with
  | case1 n h =>
    rw [natDigits, if_pos h]
    show 10 * 0 + (48 + n - 48) = n
    omega
  | case2 n h ih =>
    rw [natDigits, if_neg h]
    rw [natOfDigits_append, ih]
    show 10 * (n / 10) + (48 + n % 10 - 48) = n
    omega

theorem natDigits_head_ne_zero (n : Nat) (h : n ≠ 0) :
    (natDigits n).head? ≠ some 48 := by
  induction n using natDigits.induct with
  | case1 n hlt =>
    rw [natDigits, if_pos hlt]
    simp
    omega
  | case2 n hlt ih =>
    rw [natDigits, if_neg hlt]
    have h10 : n / 10 ≠ 0 := by omega
    have := ih h10
    rwa [List.head?_append_of_ne_nil _ (natDigits_ne_nil _)]

theorem natDigits_le_57 (n : Nat) : ∀ b ∈ natDigits n, 48 ≤ b ∧ b ≤ 57 := by
  have h := natDigits_all_digit n
  simp only [List.all_eq_true, isDigit, Bool.and_eq_true, decide_eq_true_eq] at h
  exact h

/-! ## The float model

`decode_metric` parses values with Rust's `str::parse::<f64>` and the encoder
renders them with `f64`'s `Display` (`n.to_string()`); the sample-rate is
rendered with the value serializer (`val.encode()`).  These live in the Rust
standard library / external crates, not in the repository, so they are
modelled from the spec, which requires: "Values are parsed as 64-bit floats"
and "any floating value whose textual representation was integral decodes
back to the same integral text" (bit-exact round-trip for the canonical
form).  The model represents a parsed float by its canonical decimal
rendering: sign, integer digits without leading zeros, fraction digits
without trailing zeros.  Plain decimal literals (no exponent, no `inf`/`nan`)
are in the modelled domain; on canonical literals (which is what the
round-trip law quantifies over, and covers all spec scenarios) parsing
followed by rendering is the identity, exactly as Rust's shortest-round-trip
`Display` behaves. -/

/-- A parsed 64-bit float, represented by its canonical decimal rendering. -/
structure Flt where
  neg : Bool
  ip : Bytes
  fp : Bytes
deriving DecidableEq, Repr

/-- Strip trailing `0` digit bytes. -/
def dropTrailZeros (l : Bytes) : Bytes := (l.reverse.dropWhile (· == 48)).reverse

/-- Normalise sign/integer-digits/fraction-digits into canonical form. -/
def mkFlt (neg : Bool) (ip fp : Bytes) : Flt :=
  let ip2 := ip.dropWhile (· == 48)
  ⟨neg, if ip2.isEmpty then [48] else ip2, dropTrailZeros fp⟩

/-- Modelled from the spec: Rust `str::parse::<f64>` restricted to plain
decimal literals `[sign] digits [. digits]` (exponent/`inf`/`nan` forms are
outside the modelled domain). -/
def parseF64 (s : Bytes) : Option Flt :=
  let neg : Bool := s.head? == some 45
  let t := if s.head? == some 45 || s.head? == some 43 then s.drop 1 else s
  let ipart := t.takeWhile isDigit
  let rest := t.dropWhile isDigit
  if rest.isEmpty then
    if ipart.isEmpty then none else some (mkFlt neg ipart [])
  else if rest.head? == some 46 then
    let fr := rest.drop 1
    if fr.all isDigit && !(ipart.isEmpty && fr.isEmpty) then some (mkFlt neg ipart fr)
    else none
  else none

/-- Modelled from the spec: Rust `f64` `Display` (shortest decimal,
no trailing `.0` on integral values, e.g. `111.0` renders as `111`). -/
def fltRender (f : Flt) : Bytes :=
  (if f.neg then [45] else []) ++ f.ip ++ (if f.fp.isEmpty then [] else 46 :: f.fp)

/-- Canonical floats: the exact decimal strings `Display` produces. -/
def Flt.canonical (f : Flt) : Bool :=
  !f.ip.isEmpty && f.ip.all isDigit && (f.ip.head? != some 48 || f.ip.length == 1)
    && f.fp.all isDigit && (f.fp.isEmpty || f.fp.getLast? != some 48)

theorem digitRunVal_natDigits (n : Nat) (bound : Nat) (h : n < bound) :
    digitRunVal (natDigits n) bound = some n := by
  have hne : (natDigits n).isEmpty = false := by
    cases hd : natDigits n
    · exact absurd hd (natDigits_ne_nil n)
    · rfl
  have hall := natDigits_all_digit n
  have hval := natOfDigits_natDigits n
  have hdec : decide (natOfDigits (natDigits n) < bound) = true := by
    rw [hval]
    exact decide_eq_true h
  unfold digitRunVal
  rw [hne, hall, hdec]
  simp [hval]

theorem natDigits_head_not_sign (n : Nat) (c : Nat) (hc : c < 48) :
    (natDigits n).head? ≠ some c := by
  cases hd : natDigits n with
  | nil => simp
  | cons b r =>
    have := natDigits_le_57 n b (by rw [hd]; simp)
    simp only [List.head?_cons, ne_eq, Option.some.injEq]
    omega

theorem parseU32_natDigits (n : Nat) (h : n < 2 ^ 32) :
    parseU32 (natDigits n) = some n := by
  unfold parseU32
  have h43 : ((natDigits n).head? == some 43) = false := by
    simp only [beq_eq_false_iff_ne, ne_eq]
    exact natDigits_head_not_sign n 43 (by omega)
  rw [h43]
  simp only [Bool.false_eq_true, if_false]
  exact digitRunVal_natDigits n _ h

theorem intRender_parseI32 (i : Int) (hlo : -(2 ^ 31) ≤ i) (hhi : i < 2 ^ 31) :
    parseI32 (intRender i) = some i := by
  by_cases hneg : i < 0
  · have h1 : intRender i = 45 :: natDigits (-i).toNat := by rw [intRender, if_pos hneg]
    rw [h1]
    unfold parseI32
    simp only [List.head?_cons, beq_self_eq_true, if_true, List.drop_succ_cons,
      List.drop_zero]
    rw [digitRunVal_natDigits _ _ (by omega)]
    show some (-(((-i).toNat : Nat) : Int)) = some i
    congr 1
    omega
  · have h1 : intRender i = natDigits i.toNat := by rw [intRender, if_neg hneg]
    rw [h1]
    unfold parseI32
    have h45 : ((natDigits i.toNat).head? == some 45) = false := by
      simp only [beq_eq_false_iff_ne, ne_eq]
      exact natDigits_head_not_sign _ 45 (by omega)
    have h43 : ((natDigits i.toNat).head? == some 43) = false := by
      simp only [beq_eq_false_iff_ne, ne_eq]
      exact natDigits_head_not_sign _ 43 (by omega)
    rw [h45, h43]
    simp only [Bool.false_eq_true, if_false]
    rw [digitRunVal_natDigits _ _ (by omega)]
    show some ((i.toNat : Nat) : Int) = some i
    congr 1
    omega

theorem takeWhile_append_all {p : Nat → Bool} (a b : Bytes)
    (h : ∀ x ∈ a, p x = true) :
    (a ++ b).takeWhile p = a ++ b.takeWhile p := by
  induction a with
  | nil => simp
  | cons x r ih =>
    have hx : p x = true := h x (by simp)
    simp only [List.cons_append, List.takeWhile_cons, hx, if_true]
    rw [ih fun y hy => h y (by simp [hy])]

theorem dropWhile_append_all {p : Nat → Bool} (a b : Bytes)
    (h : ∀ x ∈ a, p x = true) :
    (a ++ b).dropWhile p = b.dropWhile p := by
  induction a with
  | nil => simp
  | cons x r ih =>
    have hx : p x = true := h x (by simp)
    simp only [List.cons_append, List.dropWhile_cons, hx, if_true]
    exact ih fun y hy => h y (by simp [hy])

theorem takeWhile_all {p : Nat → Bool} (a : Bytes) (h : ∀ x ∈ a, p x = true) :
    a.takeWhile p = a := by
  have := takeWhile_append_all a [] h
  simpa using this

theorem dropWhile_all {p : Nat → Bool} (a : Bytes) (h : ∀ x ∈ a, p x = true) :
    a.dropWhile p = [] := by
  have := dropWhile_append_all a [] h
  simpa using this

theorem dropTrailZeros_id (l : Bytes) (h : l.getLast? ≠ some 48) :
    dropTrailZeros l = l := by
  unfold dropTrailZeros
  cases hl : l.reverse with
  | nil =>
    have : l = [] := by simpa using congrArg List.reverse hl
    simp [this]
  | cons b r =>
    have hb : l.getLast? = some b := by
      rw [← List.head?_reverse, hl]
      rfl
    have hb48 : (b == 48) = false := by
      simp only [beq_eq_false_iff_ne, ne_eq]
      intro hx
      exact h (by rw [hb, hx])
    rw [List.dropWhile_cons, hb48]
    simp only [Bool.false_eq_true, if_false]
    rw [← hl, List.reverse_reverse]

/-- Parsing the canonical rendering of a float returns the same float. -/
theorem parseF64_fltRender (f : Flt) (h : f.canonical = true) :
    parseF64 (fltRender f) = some f := by
  obtain ⟨neg, ip, fp⟩ := f
  simp only [Flt.canonical, Bool.and_eq_true, Bool.or_eq_true, beq_iff_eq,
    bne_iff_ne, ne_eq, Bool.not_eq_true', List.isEmpty_eq_false,
    List.isEmpty_iff, decide_eq_true_eq] at h
  obtain ⟨⟨⟨⟨hipne, hipd⟩, hhead⟩, hfpd⟩, hlast⟩ := h
  have hipd' : ∀ x ∈ ip, isDigit x = true := by
    intro x hx
    exact List.all_eq_true.mp hipd x hx
  have hfpd' : ∀ x ∈ fp, isDigit x = true := by
    intro x hx
    exact List.all_eq_true.mp hfpd x hx
  have hmk : mkFlt neg ip fp = ⟨neg, ip, fp⟩ := by
    have hkeep : (if (ip.dropWhile (· == 48)).isEmpty then ([48] : Bytes)
        else ip.dropWhile (· == 48)) = ip := by
      cases hi : ip with
      | nil => exact absurd hi hipne
      | cons b r =>
        rcases hhead with hh | hh
        · have hb : (b == 48) = false := by
            simp only [beq_eq_false_iff_ne, ne_eq]
            intro hx
            exact hh (by rw [hi, hx]; rfl)
          rw [List.dropWhile_cons, hb]
          simp
        · have hr0 : r = [] := by
            rw [hi] at hh
            simpa using hh
          subst hr0
          by_cases hb : b = 48
          · subst hb
            simp
          · rw [List.dropWhile_cons]
            simp [hb]
    have hfp : dropTrailZeros fp = fp := by
      rcases hlast with hl | hl
      · simp [hl, dropTrailZeros]
      · exact dropTrailZeros_id fp hl
    show Flt.mk neg (if (ip.dropWhile (· == 48)).isEmpty then [48]
      else ip.dropWhile (· == 48)) (dropTrailZeros fp) = ⟨neg, ip, fp⟩
    rw [hkeep, hfp]
  -- the body after the sign has been handled
  have hbody : ∀ t : Bytes, t = ip ++ (if fp.isEmpty then [] else 46 :: fp) →
      ∀ ng : Bool, ng = neg →
      (if (t.dropWhile isDigit).isEmpty then
        if (t.takeWhile isDigit).isEmpty then none
        else some (mkFlt ng (t.takeWhile isDigit) [])
      else if (t.dropWhile isDigit).head? == some 46 then
        if ((t.dropWhile isDigit).drop 1).all isDigit
            && !((t.takeWhile isDigit).isEmpty && ((t.dropWhile isDigit).drop 1).isEmpty)
          then some (mkFlt ng (t.takeWhile isDigit) ((t.dropWhile isDigit).drop 1))
        else none
      else none) = some ⟨neg, ip, fp⟩ := by
    intro t ht ng hng
    subst ht hng
    cases hfp : fp with
    | nil =>
      simp only [hfp, List.isEmpty_nil, if_true, List.append_nil]
      rw [takeWhile_all ip hipd', dropWhile_all ip hipd']
      simp only [List.isEmpty_nil, if_true]
      have hie : ip.isEmpty = false := by
        cases hi : ip
        · exact absurd hi hipne
        · rfl
      rw [hie]
      simp only [Bool.false_eq_true, if_false]
      rw [show mkFlt ng ip [] = mkFlt ng ip fp by rw [hfp]]
      rw [hmk, hfp]
    | cons b r =>
      simp only [hfp, List.isEmpty_cons, Bool.false_eq_true, if_false]
      rw [takeWhile_append_all ip _ hipd', dropWhile_append_all ip _ hipd']
      have h46 : isDigit 46 = false := by simp [isDigit]
      simp only [List.takeWhile_cons, List.dropWhile_cons, h46, Bool.false_eq_true,
        if_false, List.append_nil, List.isEmpty_cons, List.head?_cons,
        beq_self_eq_true, if_true, List.drop_succ_cons, List.drop_zero]
      have hie : ip.isEmpty = false := by
        cases hi : ip
        · exact absurd hi hipne
        · rfl
      have hfall : (b :: r).all isDigit = true := by rw [← hfp]; exact hfpd
      rw [hfall, hie]
      simp only [Bool.false_and, Bool.not_false, Bool.and_true, if_true]
      rw [show mkFlt ng ip (b :: r) = mkFlt ng ip fp by rw [hfp]]
      rw [hmk, hfp]
  have hiphd : ∀ b, ip.head? = some b → 48 ≤ b ∧ b ≤ 57 := by
    intro b hb
    have hm : b ∈ ip := by
      cases hi : ip with
      | nil => rw [hi] at hb; simp at hb
      | cons x r =>
        rw [hi] at hb
        simp only [List.head?_cons, Option.some.injEq] at hb
        simp [hi, hb]
    have := hipd' b hm
    simp only [isDigit, Bool.and_eq_true, decide_eq_true_eq] at this
    exact this
  by_cases hn : neg = true
  · have hr : fltRender ⟨neg, ip, fp⟩
        = 45 :: (ip ++ (if fp.isEmpty then [] else 46 :: fp)) := by
      simp [fltRender, hn]
    rw [hr]
    unfold parseF64
    simp only [List.head?_cons, beq_self_eq_true, Bool.true_or, if_true,
      List.drop_succ_cons, List.drop_zero]
    exact hbody _ rfl true hn.symm
  · have hn : neg = false := by
      cases hb : neg
      · rfl
      · exact absurd hb hn
    have hr : fltRender ⟨neg, ip, fp⟩
        = ip ++ (if fp.isEmpty then [] else 46 :: fp) := by
      simp [fltRender, hn]
    rw [hr]
    unfold parseF64
    have hhd : (ip ++ (if fp.isEmpty then [] else 46 :: fp)).head? = ip.head? :=
      List.head?_append_of_ne_nil _ hipne
    have h45 : ((ip ++ (if fp.isEmpty then [] else 46 :: fp)).head? == some 45) = false := by
      rw [hhd]
      cases hi : ip.head? with
      | none => rfl
      | some b =>
        have := hiphd b hi
        simp only [beq_eq_false_iff_ne, ne_eq, Option.some.injEq]
        omega
    have h43 : ((ip ++ (if fp.isEmpty then [] else 46 :: fp)).head? == some 43) = false := by
      rw [hhd]
      cases hi : ip.head? with
      | none => rfl
      | some b =>
        have := hiphd b hi
        simp only [beq_eq_false_iff_ne, ne_eq, Option.some.injEq]
        omega
    rw [h45, h43]
    simp only [Bool.or_self, Bool.false_eq_true, if_false]
    exact hbody _ rfl false hn.symm

/-- All bytes of a canonical float rendering lie in `45..57` (`-`, `.`, digits). -/
theorem fltRender_bytes (f : Flt) (h : f.canonical = true) :
    ∀ b ∈ fltRender f, 45 ≤ b ∧ b ≤ 57 := by
  obtain ⟨neg, ip, fp⟩ := f
  simp only [Flt.canonical, Bool.and_eq_true] at h
  obtain ⟨⟨⟨⟨_, hipd⟩, _⟩, hfpd⟩, _⟩ := h
  intro b hb
  simp only [fltRender, List.mem_append] at hb
  rcases hb with (hb | hb) | hb
  · rcases neg with _ | _
    · simp at hb
    · simp at hb
      omega
  · have := List.all_eq_true.mp hipd b hb
    simp only [isDigit, Bool.and_eq_true, decide_eq_true_eq] at this
    omega
  · rcases hfp : fp with _ | ⟨c, r⟩
    · rw [hfp] at hb
      simp at hb
    · rw [hfp] at hb
      simp only [List.isEmpty_cons, Bool.false_eq_true, if_false] at hb
      rcases List.mem_cons.mp hb with hb | hb
      · omega
      · have := List.all_eq_true.mp hfpd b (by rw [hfp]; simp [hb])
        simp only [isDigit, Bool.and_eq_true, decide_eq_true_eq] at this
        omega

/-- All bytes of an integer rendering lie in `45..57`. -/
theorem intRender_bytes (i : Int) : ∀ b ∈ intRender i, 45 ≤ b ∧ b ≤ 57 := by
  intro b hb
  unfold intRender at hb
  split at hb
  · rcases List.mem_cons.mp hb with hb | hb
    · omega
    · exact ⟨by have := natDigits_le_57 _ b hb; omega, (natDigits_le_57 _ b hb).2⟩
  · exact ⟨by have := natDigits_le_57 _ b hb; omega, (natDigits_le_57 _ b hb).2⟩

/-! ## The tremor `Value` model (as used by the DogStatsD codec)

`tremor_value::Value` is a dynamic JSON-like value; the codec uses strings,
f64 numbers, i32/u32 numbers, arrays and objects, with `get_str`, `get_i32`,
`get_u32`, `get_array`, `get`, `is_number`, `as_f64`, `as_str` accessors and
insertion-ordered `Object::insert` (replace an existing key in place,
otherwise append). -/

inductive DVal where
  | vstr (s : Bytes)
  | vf64 (x : Flt)
  | vi32 (n : Int)
  | vu32 (n : Nat)
  | varr (xs : List DVal)
  | vobj (fields : List (String × DVal))

abbrev Obj := List (String × DVal)

def objGet : Obj → String → Option DVal
  | [], _ => none
  | (k', v) :: r, k => if k' = k then some v else objGet r k

/-- `halfbrown`/`simd-json` object insert: replace in place or append. -/
def objInsert (fs : Obj) (k : String) (v : DVal) : Obj :=
  if fs.any (fun p => p.1 == k) then
    fs.map (fun p => if p.1 == k then (k, v) else p)
  else fs ++ [(k, v)]

namespace DVal

def get : DVal → String → Option DVal
  | .vobj fs, k => objGet fs k
  | _, _ => none

def getStr (v : DVal) (k : String) : Option Bytes :=
  match v.get k with
  | some (.vstr s) => some s
  | _ => none

def getArr (v : DVal) (k : String) : Option (List DVal) :=
  match v.get k with
  | some (.varr xs) => some xs
  | _ => none

def getI32 (v : DVal) (k : String) : Option Int :=
  match v.get k with
  | some (.vi32 n) => some n
  | _ => none

def getU32 (v : DVal) (k : String) : Option Nat :=
  match v.get k with
  | some (.vu32 n) => some n
  | _ => none

def isNumber : DVal → Bool
  | .vf64 _ => true
  | .vi32 _ => true
  | .vu32 _ => true
  | _ => false

def asF64 : DVal → Option Flt
  | .vf64 x => some x
  | _ => none

def asStr : DVal → Option Bytes
  | .vstr s => some s
  | _ => none

end DVal

/-- Modelled from the spec: `val.encode()` (the external value serializer)
on a number renders its decimal form. -/
def numEncode : DVal → Bytes
  | .vf64 x => fltRender x
  | .vi32 n => intRender n
  | .vu32 n => natDigits n
  | _ => []

/-! ## Byte-slice helpers mirroring the Rust primitives -/

/-- Rust `data.get(a..b)`. -/
def getRange (data : Bytes) (a b : Nat) : Option Bytes :=
  if a ≤ b ∧ b ≤ data.length then some ((data.drop a).take (b - a)) else none

/-- The codec's `substr(data, a..b)`: slice, then `str::from_utf8`; both
failure modes return an error. -/
def substr (data : Bytes) (a b : Nat) : DRes Bytes :=
  match getRange data a b with
  | none => .err
  | some s => if utf8Valid s then .ok s else .err

/-- Is byte offset `n` a char boundary of the (valid UTF-8) string `s`? -/
def charBoundary (s : Bytes) (n : Nat) : Bool :=
  decide (n ≤ s.length) && !isCont ((s.drop n).headD 0)

/-- Rust `&s[n..]` on a `str`: panics when out of range or not a boundary. -/
def sliceFrom (s : Bytes) (n : Nat) : DRes Bytes :=
  if charBoundary s n then .ok (s.drop n) else .panic

/-- Rust `&s[0..n]` on a `str`: panics when out of range or not a boundary. -/
def slicePre (s : Bytes) (n : Nat) : DRes Bytes :=
  if charBoundary s n then .ok (s.take n) else .panic

/-- Rust `Vec` indexing `v[i]`: panics out of bounds. -/
def vecIndex {α : Type} (l : List α) (i : Nat) : DRes α :=
  match l.get? i with
  | some x => .ok x
  | none => .panic

/-- Rust `.unwrap()` on an option/parse result: panics on `None`/`Err`. -/
def unwrapRes {α : Type} (o : Option α) : DRes α :=
  match o with
  | some x => .ok x
  | none => .panic

/-- First index at which `p` holds (the `loop { match d.next() ... }` scans). -/
def scanIdx (p : Nat → Bool) : Bytes → Option Nat
  | [] => none
  | b :: r => if p b then some 0 else (scanIdx p r).map (· + 1)

/-- First index `≥ j` at which `p` holds. -/
def findFrom (p : Nat → Bool) (data : Bytes) (j : Nat) : Option Nat :=
  (scanIdx p (data.drop j)).map (j + ·)

theorem scanIdx_lt_length {p : Nat → Bool} :
    ∀ l : Bytes, ∀ i, scanIdx p l = some i → i < l.length := by
  intro l
  induction l with
  | nil => intro i h; simp [scanIdx] at h
  | cons b r ih =>
    intro i h
    rw [scanIdx] at h
    split at h
    · simp at h
      rw [List.length_cons]
      omega
    · cases hs : scanIdx p r with
      | none => rw [hs] at h; simp at h
      | some k =>
        rw [hs] at h
        simp at h
        have := ih k hs
        rw [List.length_cons]
        omega

theorem findFrom_bounds {p : Nat → Bool} (data : Bytes) (j q : Nat)
    (h : findFrom p data j = some q) : j ≤ q ∧ q < data.length := by
  unfold findFrom at h
  cases hs : scanIdx p (data.drop j) with
  | none => rw [hs] at h; simp at h
  | some k =>
    rw [hs] at h
    simp at h
    have hk := scanIdx_lt_length _ _ hs
    rw [List.length_drop] at hk
    omega

/-- Rust `str::split(sep)` on byte strings (`"".split` gives `[""]`,
adjacent separators give empty pieces). -/
def splitByte (sep : Nat) : Bytes → List Bytes
  | [] => [[]]
  | b :: r =>
    if b == sep then [] :: splitByte sep r
    else
      match splitByte sep r with
      | [] => [[b]]
      | x :: xs => (b :: x) :: xs

/-! ## DogStatsD decode (`src/codec/dogstatsd.rs`) -/

/-- The section fold shared by the three decoders. -/
def runSections (step : Obj → Bytes → DRes Obj) : Obj → List Bytes → DRes Obj
  | m, [] => .ok m
  | m, s :: r => (step m s).bind fun m' => runSections step m' r

/-- One optional section of a metric datagram (`@`, `#`, `c:`). -/
def metricSection (m : Obj) (sec : Bytes) : DRes Obj :=
  if sec.head? == some 64 then
    (sliceFrom sec 1).bind fun sr =>
    match parseF64 sr with
    | some v => .ok (objInsert m "sample_rate" (.vf64 v))
    | none => .err
  else if sec.head? == some 35 then
    (sliceFrom sec 1).bind fun t =>
    .ok (objInsert m "tags" (.varr ((splitByte 44 t).map .vstr)))
  else if sec.head? == some 99 then
    (sliceFrom sec 2).bind fun cid =>
    .ok (objInsert m "container_id" (.vstr cid))
  else .ok m

/-- The `<VALUE1>:<VALUE2>...` scan of `decode_metric`: pieces split at `:`
or `|`, each parsed as `f64`; ends after the `|` piece; hitting the end of
input without `|` is an error. -/
def scanValues (data : Bytes) (j : Nat) : DRes (List Flt × Nat) :=
  match h : findFrom (fun b => b == 58 || b == 124) data j with
  | none => .err
  | some q =>
    (substr data j q).bind fun piece =>
    match parseF64 piece with
    | none => .err
    | some v =>
      if data.getD q 0 == 124 then .ok ([v], q + 1)
      else (scanValues data (q + 1)).bind fun pr => .ok (v :: pr.1, pr.2)
  termination_by data.length - j
  decreasing_by
    have := findFrom_bounds data j q h
    omega

/-- The `<TYPE>` step of `decode_metric`: one of `c d g h s` or `ms`;
`section_start` becomes `i + 1` in both arms. -/
def readType (data : Bytes) (s : Nat) : DRes (Bytes × Nat) :=
  match (data.drop s).head? with
  | some b =>
    if b == 99 || b == 100 || b == 103 || b == 104 || b == 115 then
      (substr data s (s + 1)).bind fun t => .ok (t, s + 1)
    else if b == 109 then
      match (data.drop (s + 1)).head? with
      | some b2 =>
        if b2 == 115 then (substr data s (s + 2)).bind fun t => .ok (t, s + 1)
        else .err
      | none => .err
    else .err
  | none => .err

def decode_metric (data : Bytes) : DRes DVal :=
  match scanIdx (fun b => b == 58) data with
  | none => .err
  | some i1 =>
    (substr data 0 i1).bind fun name =>
    let m1 := objInsert (objInsert [] "dogstatsd_type" (DVal.vstr (litBytes "metric")))
      "metric" (.vstr name)
    (scanValues data (i1 + 1)).bind fun vs =>
    let m2 := objInsert m1 "values" (.varr (vs.1.map .vf64))
    (readType data vs.2).bind fun tp =>
    let m3 := objInsert m2 "type" (.vstr tp.1)
    (substr data tp.2 data.length).bind fun suffix =>
    (runSections metricSection m3 (splitByte 124 suffix)).bind fun m4 =>
    .ok (.vobj m4)

/-- One optional section of an event datagram (checked in source order
`d h p s t k # c`). -/
def eventSection (m : Obj) (sec : Bytes) : DRes Obj :=
  if sec.head? == some 100 then
    (sliceFrom sec 2).bind fun ts =>
    match parseU32 ts with
    | some t => .ok (objInsert m "timestamp" (.vu32 t))
    | none => .err
  else if sec.head? == some 104 then
    (sliceFrom sec 2).bind fun v => .ok (objInsert m "hostname" (.vstr v))
  else if sec.head? == some 112 then
    (sliceFrom sec 2).bind fun v => .ok (objInsert m "priority" (.vstr v))
  else if sec.head? == some 115 then
    (sliceFrom sec 2).bind fun v => .ok (objInsert m "source" (.vstr v))
  else if sec.head? == some 116 then
    (sliceFrom sec 2).bind fun v => .ok (objInsert m "type" (.vstr v))
  else if sec.head? == some 107 then
    (sliceFrom sec 2).bind fun v => .ok (objInsert m "aggregation_key" (.vstr v))
  else if sec.head? == some 35 then
    (sliceFrom sec 1).bind fun t =>
    .ok (objInsert m "tags" (.varr ((splitByte 44 t).map .vstr)))
  else if sec.head? == some 99 then
    (sliceFrom sec 2).bind fun v => .ok (objInsert m "container_id" (.vstr v))
  else .ok m

/-- The text loop of `decode_event`: scan from `j`; at the last index take
`..=idx`; at every other index the byte is first sliced and UTF-8 checked
with `substr(data, idx..=idx)?` — a single byte is valid UTF-8 exactly when
it is ASCII, so a non-ASCII text byte fails the whole decode — and the
one-byte string is compared with `"|"`: at a `|` take `..=idx-1` and
remember the section start; only break when the computed text end is
positive. -/
def textScan (data : Bytes) (ss j : Nat) : DRes (Bytes × Option Nat) :=
  if h : j < data.length then
    if j == data.length - 1 then
      if 0 < j then (substr data ss (j + 1)).bind fun t => .ok (t, none)
      else textScan data ss (j + 1)
    else
      (substr data j (j + 1)).bind fun c =>
      if c == [124] then
        if j == 0 then .panic
        else if 0 < j - 1 then (substr data ss j).bind fun t => .ok (t, some (j + 1))
        else textScan data ss (j + 1)
      else textScan data ss (j + 1)
  else .err
  termination_by data.length - j

def decode_event (data : Bytes) : DRes DVal :=
  match scanIdx (fun b => b == 124) data with
  | none => .err
  | some idx =>
    (substr data 2 idx).bind fun pre =>
    let v := splitByte 58 pre
    (vecIndex v 0).bind fun lens =>
    let lenVec := splitByte 44 lens
    (vecIndex lenVec 0).bind fun l0 =>
    (sliceFrom l0 1).bind fun tls =>
    (unwrapRes (parseI32 tls)).bind fun titleLen =>
    (vecIndex lenVec 1).bind fun l1 =>
    (if l1.isEmpty then DRes.panic else slicePre l1 (l1.length - 1)).bind fun xls =>
    (unwrapRes (parseI32 xls)).bind fun textLen =>
    (vecIndex v 1).bind fun title =>
    let m1 := objInsert (objInsert (objInsert (objInsert []
      "dogstatsd_type" (DVal.vstr (litBytes "event")))
      "title_length" (.vi32 titleLen))
      "text_length" (.vi32 textLen))
      "title" (.vstr title)
    (textScan data (idx + 1) (idx + 1)).bind fun tr =>
    let m2 := objInsert m1 "text" (.vstr tr.1)
    match tr.2 with
    | none => .ok (.vobj m2)
    | some k =>
      (substr data k data.length).bind fun suffix =>
      (runSections eventSection m2 (splitByte 124 suffix)).bind fun m3 =>
      .ok (.vobj m3)

/-- One optional section of a service check (source order `d h # m c`). -/
def scSection (m : Obj) (sec : Bytes) : DRes Obj :=
  if sec.head? == some 100 then
    (sliceFrom sec 2).bind fun ts =>
    match parseU32 ts with
    | some t => .ok (objInsert m "timestamp" (.vu32 t))
    | none => .err
  else if sec.head? == some 104 then
    (sliceFrom sec 2).bind fun v => .ok (objInsert m "hostname" (.vstr v))
  else if sec.head? == some 35 then
    (sliceFrom sec 1).bind fun t =>
    .ok (objInsert m "tags" (.varr ((splitByte 44 t).map .vstr)))
  else if sec.head? == some 109 then
    (sliceFrom sec 2).bind fun v => .ok (objInsert m "message" (.vstr v))
  else if sec.head? == some 99 then
    (sliceFrom sec 2).bind fun v => .ok (objInsert m "container_id" (.vstr v))
  else .ok m

/-- `decode_service_check`.  Its first loop (skip the `_sc` prefix up to the
first `|`) matches `Some((idx, b'|')) => break` against `_ => ()`: with no
`|` in the input, `d.next()` keeps returning `None` and the loop never
terminates, which the model records as `diverge`. -/
def decode_service_check (data : Bytes) : DRes DVal :=
  let m0 := objInsert [] "dogstatsd_type" (DVal.vstr (litBytes "service_check"))
  match scanIdx (fun b => b == 124) data with
  | none => .diverge
  | some p0 =>
    match findFrom (fun b => b == 124) data (p0 + 1) with
    | none => .err
    | some p1 =>
      (substr data (p0 + 1) p1).bind fun name =>
      let m1 := objInsert m0 "name" (.vstr name)
      match (data.drop (p1 + 1)).head? with
      | none => .err
      | some b =>
        if b == 48 || b == 49 || b == 50 || b == 51 then
          (substr data (p1 + 1) (p1 + 2)).bind fun ss =>
          match parseI32 ss with
          | none => .err
          | some st =>
            let m2 := objInsert m1 "status" (.vi32 st)
            match (data.drop (p1 + 2)).head? with
            | none => .ok (.vobj m2)
            | some c =>
              if c == 124 then
                (substr data (p1 + 3) data.length).bind fun suffix =>
                (runSections scSection m2 (splitByte 124 suffix)).bind fun m3 =>
                .ok (.vobj m3)
              else .err
        else .err

/-- Top-level `decode`: dispatch on the first two bytes (`_e` event,
`_s` service check, otherwise metric). -/
def dogstatsdDecode (data : Bytes) : DRes DVal :=
  match getRange data 0 2 with
  | none => .err
  | some fb =>
    if utf8Valid fb then
      if fb = [95, 101] then decode_event data
      else if fb = [95, 115] then decode_service_check data
      else decode_metric data
    else .err

/-! ## DogStatsD encode (`src/codec/dogstatsd.rs`)

The Rust encoders build one output string by successive `push_str` calls;
the model renders each optional `if let Some(..)` block as an appended
segment (`optSeg`, empty when the field is absent). -/

/-- The bytes contributed by one optional field. -/
def optSeg {α : Type} (o : Option α) (f : α → Bytes) : Bytes :=
  match o with
  | none => []
  | some x => f x

/-- `values.iter().map(|x| ...)` of `encode_metric`: `as_f64().unwrap()`
then `n.to_string()`.  (The source also computes `i.to_string()` for
integral values inside the closure but discards that string, so it has no
effect on the result.) -/
def renderVals : List DVal → DRes (List Bytes)
  | [] => .ok []
  | x :: r =>
    match x.asF64 with
    | some n => (renderVals r).bind fun t => .ok (fltRender n :: t)
    | none => .panic

/-- `tags.iter().map(|tag| tag.as_str().unwrap())`. -/
def tagStrs : List DVal → DRes (List Bytes)
  | [] => .ok []
  | x :: r =>
    match x.asStr with
    | some s => (tagStrs r).bind fun t => .ok (s :: t)
    | none => .panic

/-- Rust `Vec::join` on byte strings. -/
def joinSep (sep : Nat) : List Bytes → Bytes
  | [] => []
  | [x] => x
  | x :: r => x ++ sep :: joinSep sep r

/-- The `|#tag1,tag2` segment (shared by all three encoders). -/
def tagsSegRes (v : DVal) : DRes Bytes :=
  match v.getArr "tags" with
  | none => .ok []
  | some tags => (tagStrs tags).bind fun ts => .ok ([124, 35] ++ joinSep 44 ts)

/-- The `|@rate` segment of `encode_metric` (an error when `sample_rate`
is present but not a number). -/
def sampleSegRes (v : DVal) : DRes Bytes :=
  match v.get "sample_rate" with
  | none => .ok []
  | some sv => if sv.isNumber then .ok ([124, 64] ++ numEncode sv) else .err

def encode_metric (v : DVal) : DRes Bytes :=
  match v.getStr "metric" with
  | none => .err
  | some name =>
  match v.getStr "type" with
  | none => .err
  | some t =>
  match v.getArr "values" with
  | none => .err
  | some values =>
  (renderVals values).bind fun va =>
  (sampleSegRes v).bind fun sseg =>
  (tagsSegRes v).bind fun tseg =>
  .ok (name ++ [58] ++ joinSep 58 va ++ [124] ++ t ++ sseg ++ tseg
    ++ optSeg (v.getStr "container_id") (fun cid => [124, 99, 58] ++ cid))

def encode_event (v : DVal) : DRes Bytes :=
  match v.getStr "title" with
  | none => .err
  | some title =>
  match v.getI32 "title_length" with
  | none => .err
  | some tl =>
  match v.getStr "text" with
  | none => .err
  | some text =>
  match v.getI32 "text_length" with
  | none => .err
  | some xl =>
  (tagsSegRes v).bind fun tseg =>
  .ok ([95, 101, 123] ++ intRender tl ++ [44] ++ intRender xl ++ [125, 58]
    ++ title ++ [124] ++ text
    ++ optSeg (v.getU32 "timestamp") (fun ts => [124, 100, 58] ++ natDigits ts)
    ++ optSeg (v.getStr "hostname") (fun s => [124, 104, 58] ++ s)
    ++ optSeg (v.getStr "aggregation_key") (fun s => [124, 107, 58] ++ s)
    ++ optSeg (v.getStr "priority") (fun s => [124, 112, 58] ++ s)
    ++ optSeg (v.getStr "source") (fun s => [124, 115, 58] ++ s)
    ++ optSeg (v.getStr "type") (fun s => [124, 116, 58] ++ s)
    ++ tseg
    ++ optSeg (v.getStr "container_id") (fun cid => [124, 99, 58] ++ cid))

def encode_service_check (v : DVal) : DRes Bytes :=
  match v.getStr "name" with
  | none => .err
  | some name =>
  match v.getI32 "status" with
  | none => .err
  | some st =>
  (tagsSegRes v).bind fun tseg =>
  .ok ([95, 115, 99, 124] ++ name ++ [124] ++ intRender st
    ++ optSeg (v.getU32 "timestamp") (fun ts => [124, 100, 58] ++ natDigits ts)
    ++ optSeg (v.getStr "hostname") (fun s => [124, 104, 58] ++ s)
    ++ tseg
    ++ optSeg (v.getStr "message") (fun s => [124, 109, 58] ++ s)
    ++ optSeg (v.getStr "container_id") (fun cid => [124, 99, 58] ++ cid))

/-- Top-level `Codec::encode`: dispatch on the `dogstatsd_type` field. -/
def dogstatsdEncode (v : DVal) : DRes Bytes :=
  match v.getStr "dogstatsd_type" with
  | none => .err
  | some t =>
    if t = litBytes "metric" then encode_metric v
    else if t = litBytes "event" then encode_event v
    else if t = litBytes "service_check" then encode_service_check v
    else .err

/-! ## Canonical datagrams

The spec's round-trip law quantifies over legal canonical datagrams: the
grammar of §4.A with each optional section present at most once, emitted in
the codec's own order, and every float in canonical (`Display`) form.  A
canonical datagram is the rendering of one of the structures below. -/

/-- A byte string usable as a free-text field: valid UTF-8 without `|`. -/
def strNoPipe (s : Bytes) : Bool :=
  utf8Valid s && s.all (fun b => !(b == 124))

/-- A single tag: valid UTF-8 without `,` or `|`. -/
def tagOk (t : Bytes) : Bool :=
  utf8Valid t && t.all (fun b => !(b == 44) && !(b == 124))

def tagsOk (o : Option (List Bytes)) : Bool :=
  match o with
  | none => true
  | some ts => !ts.isEmpty && ts.all tagOk

structure CanonMetric where
  name : Bytes
  values : List Flt
  mtype : Bytes
  sampleRate : Option Flt
  tags : Option (List Bytes)
  containerId : Option Bytes

def renderMetric (m : CanonMetric) : Bytes :=
  m.name ++ [58] ++ joinSep 58 (m.values.map fltRender) ++ [124] ++ m.mtype
    ++ optSeg m.sampleRate (fun sr => [124, 64] ++ fltRender sr)
    ++ optSeg m.tags (fun ts => [124, 35] ++ joinSep 44 ts)
    ++ optSeg m.containerId (fun cid => [124, 99, 58] ++ cid)

def WfMetric (m : CanonMetric) : Bool :=
  utf8Valid m.name && !m.name.isEmpty
    && m.name.all (fun b => !(b == 58) && !(b == 124))
    && !((renderMetric m).take 2 == [95, 101])
    && !((renderMetric m).take 2 == [95, 115])
    && utf8Valid ((renderMetric m).take 2)
    && !m.values.isEmpty && m.values.all Flt.canonical
    && (m.mtype == [99] || m.mtype == [100] || m.mtype == [103]
        || m.mtype == [104] || m.mtype == [115] || m.mtype == [109, 115])
    && (match m.sampleRate with
        | none => true
        | some sr => sr.canonical && !sr.fp.isEmpty)
    && tagsOk m.tags
    && (match m.containerId with
        | none => true
        | some c => strNoPipe c)

structure CanonEvent where
  tlen : Int
  xlen : Int
  title : Bytes
  text : Bytes
  timestamp : Option Nat
  hostname : Option Bytes
  aggKey : Option Bytes
  priority : Option Bytes
  source : Option Bytes
  etype : Option Bytes
  tags : Option (List Bytes)
  containerId : Option Bytes

def renderEvent (e : CanonEvent) : Bytes :=
  [95, 101, 123] ++ intRender e.tlen ++ [44] ++ intRender e.xlen ++ [125, 58]
    ++ e.title ++ [124] ++ e.text
    ++ optSeg e.timestamp (fun ts => [124, 100, 58] ++ natDigits ts)
    ++ optSeg e.hostname (fun s => [124, 104, 58] ++ s)
    ++ optSeg e.aggKey (fun s => [124, 107, 58] ++ s)
    ++ optSeg e.priority (fun s => [124, 112, 58] ++ s)
    ++ optSeg e.source (fun s => [124, 115, 58] ++ s)
    ++ optSeg e.etype (fun s => [124, 116, 58] ++ s)
    ++ optSeg e.tags (fun ts => [124, 35] ++ joinSep 44 ts)
    ++ optSeg e.containerId (fun cid => [124, 99, 58] ++ cid)

def optStrOk (o : Option Bytes) : Bool :=
  match o with
  | none => true
  | some s => strNoPipe s

def WfEvent (e : CanonEvent) : Bool :=
  decide (-(2 ^ 31) ≤ e.tlen) && decide (e.tlen < 2 ^ 31)
    && decide (-(2 ^ 31) ≤ e.xlen) && decide (e.xlen < 2 ^ 31)
    && utf8Valid e.title && e.title.all (fun b => !(b == 58) && !(b == 124))
    && utf8Valid e.text && !e.text.isEmpty && e.text.all (fun b => !(b == 124))
    && (match e.timestamp with
        | none => true
        | some t => decide (t < 2 ^ 32))
    && optStrOk e.hostname && optStrOk e.aggKey && optStrOk e.priority
    && optStrOk e.source && optStrOk e.etype
    && tagsOk e.tags && optStrOk e.containerId

structure CanonSC where
  name : Bytes
  status : Nat
  timestamp : Option Nat
  hostname : Option Bytes
  tags : Option (List Bytes)
  message : Option Bytes
  containerId : Option Bytes

def renderSC (s : CanonSC) : Bytes :=
  [95, 115, 99, 124] ++ s.name ++ [124] ++ [48 + s.status]
    ++ optSeg s.timestamp (fun ts => [124, 100, 58] ++ natDigits ts)
    ++ optSeg s.hostname (fun h => [124, 104, 58] ++ h)
    ++ optSeg s.tags (fun ts => [124, 35] ++ joinSep 44 ts)
    ++ optSeg s.message (fun msg => [124, 109, 58] ++ msg)
    ++ optSeg s.containerId (fun cid => [124, 99, 58] ++ cid)

def WfSC (s : CanonSC) : Bool :=
  strNoPipe s.name && decide (s.status ≤ 3)
    && (match s.timestamp with
        | none => true
        | some t => decide (t < 2 ^ 32))
    && optStrOk s.hostname && tagsOk s.tags && optStrOk s.message
    && optStrOk s.containerId

/-- A legal canonical text-protocol datagram, as one of the three shapes. -/
inductive CanonMsg where
  | metric (m : CanonMetric)
  | event (e : CanonEvent)
  | svcCheck (s : CanonSC)

def renderMsg : CanonMsg → Bytes
  | .metric m => renderMetric m
  | .event e => renderEvent e
  | .svcCheck s => renderSC s

def WfMsg : CanonMsg → Bool
  | .metric m => WfMetric m
  | .event e => WfEvent e
  | .svcCheck s => WfSC s

/-! ## Expected decoded objects for canonical datagrams

`xxxSecTriples` lists, for each optional section present, the rendered
section bytes together with the key/value the decoder inserts for it. -/

abbrev SecTriple := Bytes × String × DVal

def optPart {α : Type} (o : Option α) (f : α → SecTriple) : List SecTriple :=
  match o with
  | none => []
  | some x => [f x]

def metricSecTriples (m : CanonMetric) : List SecTriple :=
  optPart m.sampleRate (fun sr => ([64] ++ fltRender sr, ("sample_rate", DVal.vf64 sr)))
    ++ optPart m.tags (fun ts =>
        ([35] ++ joinSep 44 ts, ("tags", DVal.varr (ts.map .vstr))))
    ++ optPart m.containerId (fun cid => ([99, 58] ++ cid, ("container_id", DVal.vstr cid)))

def eventSecTriples (e : CanonEvent) : List SecTriple :=
  optPart e.timestamp (fun ts => ([100, 58] ++ natDigits ts, ("timestamp", DVal.vu32 ts)))
    ++ optPart e.hostname (fun s => ([104, 58] ++ s, ("hostname", DVal.vstr s)))
    ++ optPart e.aggKey (fun s => ([107, 58] ++ s, ("aggregation_key", DVal.vstr s)))
    ++ optPart e.priority (fun s => ([112, 58] ++ s, ("priority", DVal.vstr s)))
    ++ optPart e.source (fun s => ([115, 58] ++ s, ("source", DVal.vstr s)))
    ++ optPart e.etype (fun s => ([116, 58] ++ s, ("type", DVal.vstr s)))
    ++ optPart e.tags (fun ts =>
        ([35] ++ joinSep 44 ts, ("tags", DVal.varr (ts.map .vstr))))
    ++ optPart e.containerId (fun cid => ([99, 58] ++ cid, ("container_id", DVal.vstr cid)))

def scSecTriples (s : CanonSC) : List SecTriple :=
  optPart s.timestamp (fun ts => ([100, 58] ++ natDigits ts, ("timestamp", DVal.vu32 ts)))
    ++ optPart s.hostname (fun h => ([104, 58] ++ h, ("hostname", DVal.vstr h)))
    ++ optPart s.tags (fun ts =>
        ([35] ++ joinSep 44 ts, ("tags", DVal.varr (ts.map .vstr))))
    ++ optPart s.message (fun msg => ([109, 58] ++ msg, ("message", DVal.vstr msg)))
    ++ optPart s.containerId (fun cid => ([99, 58] ++ cid, ("container_id", DVal.vstr cid)))

/-- Insert a list of key/value pairs in order. -/
def insKVs (m : Obj) (kvs : List (String × DVal)) : Obj :=
  kvs.foldl (fun a p => objInsert a p.1 p.2) m

def metricValue (m : CanonMetric) : Obj :=
  insKVs [("dogstatsd_type", .vstr (litBytes "metric")), ("metric", .vstr m.name),
      ("values", .varr (m.values.map .vf64)), ("type", .vstr m.mtype)]
    ((metricSecTriples m).map (·.2))

def eventValue (e : CanonEvent) : Obj :=
  insKVs [("dogstatsd_type", .vstr (litBytes "event")), ("title_length", .vi32 e.tlen),
      ("text_length", .vi32 e.xlen), ("title", .vstr e.title), ("text", .vstr e.text)]
    ((eventSecTriples e).map (·.2))

def scValue (s : CanonSC) : Obj :=
  insKVs [("dogstatsd_type", .vstr (litBytes "service_check")), ("name", .vstr s.name),
      ("status", .vi32 (s.status : Int))]
    ((scSecTriples s).map (·.2))

/-- The concatenated `|sec1|sec2...` suffix for a list of section bodies. -/
def sectionsFlat : List Bytes → Bytes
  | [] => []
  | s :: r => 124 :: s ++ sectionsFlat r

/-! ## List helper lemmas for the round-trip proofs -/

theorem scanIdx_append_none {p : Nat → Bool} (a b : Bytes)
    (h : ∀ x ∈ a, p x = false) :
    scanIdx p (a ++ b) = (scanIdx p b).map (a.length + ·) := by
  induction a with
  | nil => simp
  | cons x r ih =>
    have hx : p x = false := h x (by simp)
    rw [List.cons_append, scanIdx, hx]
    simp only [Bool.false_eq_true, if_false]
    rw [ih fun y hy => h y (by simp [hy])]
    cases scanIdx p b <;> simp <;> omega

theorem scanIdx_first {p : Nat → Bool} (a : Bytes) (s : Nat) (r : Bytes)
    (ha : ∀ x ∈ a, p x = false) (hs : p s = true) :
    scanIdx p (a ++ s :: r) = some a.length := by
  rw [scanIdx_append_none a _ ha, scanIdx, hs]
  simp

theorem scanIdx_none {p : Nat → Bool} (a : Bytes) (h : ∀ x ∈ a, p x = false) :
    scanIdx p a = none := by
  have := scanIdx_append_none a [] h
  simpa [scanIdx] using this

theorem getD_at_append (a : Bytes) (b : Nat) (c : Bytes) :
    (a ++ b :: c).getD a.length 0 = b := by
  induction a with
  | nil => rfl
  | cons x r ih => simpa using ih

theorem substr_exact (data pre piece suf : Bytes) (hd : data = pre ++ piece ++ suf)
    (hu : utf8Valid piece = true) :
    substr data pre.length (pre.length + piece.length) = .ok piece := by
  subst hd
  have hle : pre.length ≤ pre.length + piece.length := by omega
  have hlen : pre.length + piece.length ≤ (pre ++ piece ++ suf).length := by
    simp [List.length_append]
  have hdrop : (pre ++ piece ++ suf).drop pre.length = piece ++ suf := by
    rw [List.append_assoc, List.drop_left]
  have htake : (piece ++ suf).take (pre.length + piece.length - pre.length) = piece := by
    have h2 : pre.length + piece.length - pre.length = piece.length := by omega
    rw [h2, List.take_left]
  have hg : getRange (pre ++ piece ++ suf) pre.length (pre.length + piece.length)
      = some piece := by
    unfold getRange
    rw [if_pos ⟨hle, hlen⟩, hdrop, htake]
  unfold substr
  rw [hg]
  show (if utf8Valid piece = true then DRes.ok piece else DRes.err) = DRes.ok piece
  rw [hu]
  simp

theorem substr_suffix (data pre suf : Bytes) (hd : data = pre ++ suf)
    (hu : utf8Valid suf = true) :
    substr data pre.length data.length = .ok suf := by
  have h1 : data = pre ++ suf ++ [] := by simp [hd]
  have h2 := substr_exact data pre suf [] h1 hu
  have h3 : data.length = pre.length + suf.length := by
    rw [hd, List.length_append]
  rw [h3]
  exact h2

theorem splitByte_no_sep (sep : Nat) (a : Bytes)
    (h : ∀ x ∈ a, (x == sep) = false) : splitByte sep a = [a] := by
  induction a with
  | nil => rfl
  | cons b r ih =>
    rw [splitByte, h b (by simp)]
    simp only [Bool.false_eq_true, if_false]
    rw [ih fun y hy => h y (by simp [hy])]

theorem splitByte_sep_append (sep : Nat) (a rest : Bytes)
    (h : ∀ x ∈ a, (x == sep) = false) :
    splitByte sep (a ++ sep :: rest) = a :: splitByte sep rest := by
  induction a with
  | nil =>
    simp only [List.nil_append]
    rw [splitByte]
    simp
  | cons b r ih =>
    rw [List.cons_append, splitByte, h b (by simp)]
    simp only [Bool.false_eq_true, if_false]
    rw [ih fun y hy => h y (by simp [hy])]

theorem splitByte_ne_nil (sep : Nat) (a : Bytes) : splitByte sep a ≠ [] := by
  cases a with
  | nil => simp [splitByte]
  | cons b r =>
    rw [splitByte]
    split
    · simp
    · split <;> simp

theorem splitByte_flat (a : Bytes) (secs : List Bytes)
    (ha : ∀ x ∈ a, (x == 124) = false)
    (hs : ∀ s ∈ secs, ∀ x ∈ s, (x == 124) = false) :
    splitByte 124 (a ++ sectionsFlat secs) = a :: secs := by
  induction secs generalizing a with
  | nil =>
    rw [sectionsFlat, List.append_nil, splitByte_no_sep 124 a ha]
  | cons s r ih =>
    rw [sectionsFlat]
    have : a ++ (124 :: s ++ sectionsFlat r) = a ++ 124 :: (s ++ sectionsFlat r) := by
      simp
    rw [this, splitByte_sep_append 124 a _ ha]
    rw [ih s (hs s (by simp)) fun t ht x hx => hs t (by simp [ht]) x hx]

theorem joinSep_cons2 (sep : Nat) (p q : Bytes) (t : List Bytes) :
    joinSep sep (p :: q :: t) = p ++ sep :: joinSep sep (q :: t) := rfl

theorem splitByte_joinSep (sep : Nat) (parts : List Bytes) (hne : parts ≠ [])
    (h : ∀ p ∈ parts, ∀ x ∈ p, (x == sep) = false) :
    splitByte sep (joinSep sep parts) = parts := by
  induction parts with
  | nil => exact absurd rfl hne
  | cons p r ih =>
    cases r with
    | nil =>
      rw [joinSep, splitByte_no_sep sep p (h p (by simp))]
    | cons q t =>
      rw [joinSep_cons2, splitByte_sep_append sep p _ (h p (by simp))]
      rw [ih (by simp) fun y hy x hx => h y (by simp [hy]) x hx]

theorem sectionsFlat_append (a b : List Bytes) :
    sectionsFlat (a ++ b) = sectionsFlat a ++ sectionsFlat b := by
  induction a with
  | nil => rfl
  | cons s r ih => rw [List.cons_append, sectionsFlat, sectionsFlat, ih]; simp

theorem sectionsFlat_utf8 (secs : List Bytes)
    (h : ∀ s ∈ secs, utf8Valid s = true) : utf8Valid (sectionsFlat secs) = true := by
  induction secs with
  | nil => rfl
  | cons s r ih =>
    rw [sectionsFlat]
    have h124 : utf8Valid [124] = true := rfl
    have hs := h s (by simp)
    have hr := ih fun t ht => h t (by simp [ht])
    have := utf8Valid_append [124] (s ++ sectionsFlat r) h124
      (utf8Valid_append s _ hs hr)
    simpa using this

theorem mem_joinSep (sep : Nat) (parts : List Bytes) (x : Nat)
    (hx : x ∈ joinSep sep parts) : x = sep ∨ ∃ p ∈ parts, x ∈ p := by
  induction parts with
  | nil => simp [joinSep] at hx
  | cons p r ih =>
    cases r with
    | nil =>
      rw [joinSep] at hx
      right
      exact ⟨p, by simp, hx⟩
    | cons q t =>
      rw [joinSep_cons2] at hx
      rcases List.mem_append.mp hx with h1 | h1
      · right
        exact ⟨p, by simp, h1⟩
      · rcases List.mem_cons.mp h1 with h2 | h2
        · left
          exact h2
        · rcases ih h2 with h3 | ⟨y, hy, hxy⟩
          · left
            exact h3
          · right
            exact ⟨y, by simp [hy], hxy⟩

theorem mem_sectionsFlat (secs : List Bytes) (x : Nat)
    (hx : x ∈ sectionsFlat secs) : x = 124 ∨ ∃ s ∈ secs, x ∈ s := by
  induction secs with
  | nil => simp [sectionsFlat] at hx
  | cons s r ih =>
    rw [sectionsFlat] at hx
    rcases List.mem_cons.mp hx with h1 | h1
    · left
      exact h1
    · rcases List.mem_append.mp h1 with h2 | h2
      · right
        exact ⟨s, by simp, h2⟩
      · rcases ih h2 with h3 | ⟨y, hy, hxy⟩
        · left
          exact h3
        · right
          exact ⟨y, by simp [hy], hxy⟩

/-! ## Object lookup/insert lemmas -/

theorem objGet_none_of (m : Obj) (k : String) (h : ∀ p ∈ m, p.1 ≠ k) :
    objGet m k = none := by
  induction m with
  | nil => rfl
  | cons p r ih =>
    rw [show objGet (p :: r) k = if p.1 = k then some p.2 else objGet r k from rfl]
    rw [if_neg (h p (by simp))]
    exact ih fun q hq => h q (by simp [hq])

theorem objGet_append_right (m1 m2 : Obj) (k : String)
    (h : ∀ p ∈ m1, p.1 ≠ k) : objGet (m1 ++ m2) k = objGet m2 k := by
  induction m1 with
  | nil => rfl
  | cons p r ih =>
    rw [List.cons_append]
    rw [show objGet ((p :: (r ++ m2))) k
      = if p.1 = k then some p.2 else objGet (r ++ m2) k from rfl]
    rw [if_neg (h p (by simp))]
    exact ih fun q hq => h q (by simp [hq])

theorem objGet_objInsert_self (m : Obj) (k : String) (v : DVal) :
    objGet (objInsert m k v) k = some v := by
  unfold objInsert
  cases ha : m.any (fun p => p.1 == k) with
  | false =>
    simp only [Bool.false_eq_true, if_false]
    have hnone : ∀ p ∈ m, p.1 ≠ k := by
      intro p hp he
      have : m.any (fun p => p.1 == k) = true :=
        List.any_eq_true.mpr ⟨p, hp, by simp [he]⟩
      rw [ha] at this
      exact absurd this (by simp)
    rw [objGet_append_right m _ k hnone]
    simp [objGet]
  | true =>
    simp only [if_true]
    induction m with
    | nil => simp at ha
    | cons p r ih =>
      rcases List.any_eq_true.mp ha with ⟨q, hq, hqk⟩
      simp only [beq_iff_eq] at hqk
      by_cases hpk : p.1 = k
      · rw [show (p :: r).map (fun p => if p.1 == k then (k, v) else p)
          = (k, v) :: r.map (fun p => if p.1 == k then (k, v) else p) by
            simp [hpk]]
        simp [objGet]
      · have hq' : q ∈ r := by
          rcases List.mem_cons.mp hq with h1 | h1
          · exact absurd (h1 ▸ hqk) hpk
          · exact h1
        have har : r.any (fun p => p.1 == k) = true :=
          List.any_eq_true.mpr ⟨q, hq', by simp [hqk]⟩
        rw [show (p :: r).map (fun p => if p.1 == k then (k, v) else p)
          = p :: r.map (fun p => if p.1 == k then (k, v) else p) by
            simp [hpk]]
        rw [show objGet (p :: r.map (fun p => if p.1 == k then (k, v) else p)) k
          = if p.1 = k then some p.2
            else objGet (r.map (fun p => if p.1 == k then (k, v) else p)) k from rfl]
        rw [if_neg hpk]
        exact ih har

theorem objGet_map_replace (m : Obj) (k k' : String) (v : DVal) (h : k ≠ k') :
    objGet (m.map (fun p => if p.1 == k then (k, v) else p)) k' = objGet m k' := by
  induction m with
  | nil => rfl
  | cons p r ih =>
    by_cases hpk : p.1 = k
    · rw [show ((p :: r).map (fun p => if p.1 == k then (k, v) else p))
        = (k, v) :: r.map (fun p => if p.1 == k then (k, v) else p) by simp [hpk]]
      rw [show objGet ((k, v) :: r.map (fun p => if p.1 == k then (k, v) else p)) k'
        = if k = k' then some v
          else objGet (r.map (fun p => if p.1 == k then (k, v) else p)) k' from rfl]
      rw [show objGet (p :: r) k' = if p.1 = k' then some p.2 else objGet r k' from rfl]
      rw [if_neg h, if_neg (by rw [hpk]; exact h)]
      exact ih
    · rw [show ((p :: r).map (fun p => if p.1 == k then (k, v) else p))
        = p :: r.map (fun p => if p.1 == k then (k, v) else p) by simp [hpk]]
      rw [show objGet (p :: r.map (fun p => if p.1 == k then (k, v) else p)) k'
        = if p.1 = k' then some p.2
          else objGet (r.map (fun p => if p.1 == k then (k, v) else p)) k' from rfl]
      rw [show objGet (p :: r) k' = if p.1 = k' then some p.2 else objGet r k' from rfl]
      by_cases hpk' : p.1 = k'
      · rw [if_pos hpk', if_pos hpk']
      · rw [if_neg hpk', if_neg hpk']
        exact ih

theorem objGet_append_single_ne (m : Obj) (k k' : String) (v : DVal) (h : k ≠ k') :
    objGet (m ++ [(k, v)]) k' = objGet m k' := by
  induction m with
  | nil =>
    rw [List.nil_append]
    rw [show objGet [(k, v)] k' = if k = k' then some v else objGet [] k' from rfl]
    rw [if_neg h]
  | cons p r ih =>
    rw [List.cons_append]
    rw [show objGet (p :: (r ++ [(k, v)])) k'
      = if p.1 = k' then some p.2 else objGet (r ++ [(k, v)]) k' from rfl]
    rw [show objGet (p :: r) k' = if p.1 = k' then some p.2 else objGet r k' from rfl]
    by_cases hpk' : p.1 = k'
    · rw [if_pos hpk', if_pos hpk']
    · rw [if_neg hpk', if_neg hpk']
      exact ih

theorem objGet_objInsert_ne (m : Obj) (k k' : String) (v : DVal) (h : k ≠ k') :
    objGet (objInsert m k v) k' = objGet m k' := by
  unfold objInsert
  split
  · exact objGet_map_replace m k k' v h
  · exact objGet_append_single_ne m k k' v h

theorem insKVs_append (m : Obj) (a b : List (String × DVal)) :
    insKVs m (a ++ b) = insKVs (insKVs m a) b := by
  unfold insKVs
  rw [List.foldl_append]

theorem objGet_insKVs_ne (m : Obj) (kvs : List (String × DVal)) (k : String)
    (h : ∀ p ∈ kvs, p.1 ≠ k) : objGet (insKVs m kvs) k = objGet m k := by
  induction kvs generalizing m with
  | nil => rfl
  | cons p r ih =>
    rw [show insKVs m (p :: r) = insKVs (objInsert m p.1 p.2) r from rfl]
    rw [ih _ fun q hq => h q (by simp [hq])]
    exact objGet_objInsert_ne _ _ _ _ (h p (by simp))

/-! ## Section-step machinery -/

/-- `step` decodes the section bytes `sec` into exactly one insertion. -/
def SecStep (step : Obj → Bytes → DRes Obj) (sec : Bytes) (kv : String × DVal) : Prop :=
  ∀ m : Obj, step m sec = .ok (objInsert m kv.1 kv.2)

/-- `step` ignores the section bytes `sec`. -/
def SecSkip (step : Obj → Bytes → DRes Obj) (sec : Bytes) : Prop :=
  ∀ m : Obj, step m sec = .ok m

theorem runSections_steps (step : Obj → Bytes → DRes Obj) (tris : List SecTriple)
    (h : ∀ t ∈ tris, SecStep step t.1 t.2) (m : Obj) :
    runSections step m (tris.map (·.1)) = .ok (insKVs m (tris.map (·.2))) := by
  induction tris generalizing m with
  | nil => rfl
  | cons t r ih =>
    rw [List.map_cons, runSections, h t (by simp) m]
    rw [DRes.bind_ok]
    rw [List.map_cons]
    exact ih (fun q hq => h q (by simp [hq])) _

theorem runSections_skip_cons (step : Obj → Bytes → DRes Obj) (sec : Bytes)
    (secs : List Bytes) (m : Obj) (hskip : SecSkip step sec) :
    runSections step m (sec :: secs) = runSections step m secs := by
  rw [runSections, hskip m, DRes.bind_ok]

theorem headD_not_cont_of_bytes (l : Bytes) (h : ∀ b ∈ l, b ≤ 127) :
    isCont (l.headD 0) = false := by
  cases l with
  | nil => rfl
  | cons b r =>
    have := h b (by simp)
    simp only [List.headD_cons, isCont]
    simp
    omega

theorem headD_not_cont_of_utf8 (l : Bytes) (h : utf8Valid l = true) :
    isCont (l.headD 0) = false := by
  cases l with
  | nil => rfl
  | cons b r => exact utf8Valid_head_not_cont b r h

theorem sliceFrom_ok (s : Bytes) (n : Nat) (hn : n ≤ s.length)
    (hc : isCont ((s.drop n).headD 0) = false) : sliceFrom s n = .ok (s.drop n) := by
  have h2 : (decide (n ≤ s.length) && !isCont ((s.drop n).headD 0)) = true := by
    rw [Bool.and_eq_true]
    exact ⟨decide_eq_true hn, by rw [hc]; rfl⟩
  unfold sliceFrom charBoundary
  rw [if_pos h2]

theorem joinSep_headD_not_cont (ts : List Bytes)
    (h : ∀ t ∈ ts, utf8Valid t = true) :
    isCont ((joinSep 44 ts).headD 0) = false := by
  cases ts with
  | nil => rfl
  | cons t r =>
    cases r with
    | nil =>
      rw [joinSep]
      exact headD_not_cont_of_utf8 t (h t (by simp))
    | cons q u =>
      rw [joinSep_cons2]
      cases t with
      | nil =>
        simp only [List.nil_append, List.headD_cons]
        simp [isCont]
      | cons b s =>
        rw [List.cons_append, List.headD_cons]
        exact utf8Valid_head_not_cont b s (h (b :: s) (by simp))

theorem fltRender_ne_nil (f : Flt) (h : f.canonical = true) : fltRender f ≠ [] := by
  intro hx
  have hlen : (fltRender f).length = 0 := by rw [hx]; rfl
  obtain ⟨neg, ip, fp⟩ := f
  simp only [Flt.canonical, Bool.and_eq_true] at h
  obtain ⟨⟨⟨⟨hne, _⟩, _⟩, _⟩, _⟩ := h
  rw [Bool.not_eq_true'] at hne
  simp only [fltRender, List.length_append] at hlen
  have hip : ip.length = 0 := by omega
  rw [List.length_eq_zero] at hip
  rw [hip] at hne
  simp [List.isEmpty] at hne

/-! ## Per-section decode steps on canonical sections -/

theorem fltRender_le_127 (f : Flt) (h : f.canonical = true) :
    ∀ b ∈ fltRender f, b ≤ 127 := by
  intro b hb
  have := fltRender_bytes f h b hb
  omega

theorem sliceFrom_sig2 (s1 : Nat) (v : Bytes) (hv : utf8Valid v = true) :
    sliceFrom ([s1, 58] ++ v) 2 = .ok v := by
  have h1 : (([s1, 58] ++ v) : Bytes).drop 2 = v := rfl
  have h2 := sliceFrom_ok ([s1, 58] ++ v) 2 (by simp) (by rw [h1]; exact headD_not_cont_of_utf8 v hv)
  rw [h2, h1]

theorem sliceFrom_sig1 (s1 : Nat) (v : Bytes) (hc : isCont (v.headD 0) = false) :
    sliceFrom ([s1] ++ v) 1 = .ok v := by
  have h1 : (([s1] ++ v) : Bytes).drop 1 = v := rfl
  have h2 := sliceFrom_ok ([s1] ++ v) 1 (by simp) (by rw [h1]; exact hc)
  rw [h2, h1]

theorem metricSection_sample (sr : Flt) (hc : sr.canonical = true) :
    SecStep metricSection ([64] ++ fltRender sr) ("sample_rate", .vf64 sr) := by
  intro m
  unfold metricSection
  rw [List.singleton_append]
  simp only [List.head?_cons, beq_self_eq_true, if_true]
  rw [← List.singleton_append, sliceFrom_sig1 64 _
    (headD_not_cont_of_bytes _ (fltRender_le_127 sr hc))]
  rw [DRes.bind_ok, parseF64_fltRender sr hc]

theorem tagOk_utf8 (t : Bytes) (h : tagOk t = true) : utf8Valid t = true := by
  simp only [tagOk, Bool.and_eq_true] at h
  exact h.1

theorem tagOk_no44 (t : Bytes) (h : tagOk t = true) : ∀ x ∈ t, (x == 44) = false := by
  simp only [tagOk, Bool.and_eq_true, List.all_eq_true, Bool.not_eq_true'] at h
  intro x hx
  exact (h.2 x hx).1

theorem tagOk_no124 (t : Bytes) (h : tagOk t = true) : ∀ x ∈ t, (x == 124) = false := by
  simp only [tagOk, Bool.and_eq_true, List.all_eq_true, Bool.not_eq_true'] at h
  intro x hx
  exact (h.2 x hx).2

theorem tagsSection_step (step : Obj → Bytes → DRes Obj) (ts : List Bytes)
    (hne : ts ≠ []) (hts : ∀ t ∈ ts, tagOk t = true)
    (hrun : ∀ m : Obj, step m ([35] ++ joinSep 44 ts)
      = (sliceFrom ([35] ++ joinSep 44 ts) 1).bind fun t =>
        .ok (objInsert m "tags" (.varr ((splitByte 44 t).map .vstr)))) :
    SecStep step ([35] ++ joinSep 44 ts) ("tags", .varr (ts.map .vstr)) := by
  intro m
  rw [hrun m]
  rw [sliceFrom_sig1 35 _ (joinSep_headD_not_cont ts fun t ht => tagOk_utf8 t (hts t ht))]
  rw [DRes.bind_ok]
  rw [splitByte_joinSep 44 ts hne fun p hp x hx => tagOk_no44 p (hts p hp) x hx]

theorem strNoPipe_utf8 (s : Bytes) (h : strNoPipe s = true) : utf8Valid s = true := by
  simp only [strNoPipe, Bool.and_eq_true] at h
  exact h.1

theorem strNoPipe_no124 (s : Bytes) (h : strNoPipe s = true) :
    ∀ x ∈ s, (x == 124) = false := by
  simp only [strNoPipe, Bool.and_eq_true, List.all_eq_true, Bool.not_eq_true'] at h
  intro x hx
  exact h.2 x hx

theorem metricSection_tags (ts : List Bytes) (hne : ts ≠ [])
    (hts : ∀ t ∈ ts, tagOk t = true) :
    SecStep metricSection ([35] ++ joinSep 44 ts) ("tags", .varr (ts.map .vstr)) := by
  apply tagsSection_step metricSection ts hne hts
  intro m
  unfold metricSection
  rw [List.singleton_append]
  simp only [List.head?_cons]
  rw [show ((some 35 == some 64) : Bool) = false from rfl,
    show ((some 35 == some 35) : Bool) = true from rfl]
  simp only [Bool.false_eq_true, if_false, if_true]

theorem metricSection_cid (c : Bytes) (hc : strNoPipe c = true) :
    SecStep metricSection ([99, 58] ++ c) ("container_id", .vstr c) := by
  intro m
  unfold metricSection
  rw [show (([99, 58] ++ c) : Bytes).head? = some 99 from rfl]
  rw [show ((some 99 == some 64) : Bool) = false from rfl,
    show ((some 99 == some 35) : Bool) = false from rfl,
    show ((some 99 == some 99) : Bool) = true from rfl]
  simp only [Bool.false_eq_true, if_false, if_true]
  rw [sliceFrom_sig2 99 c (strNoPipe_utf8 c hc), DRes.bind_ok]

theorem metricSection_skip_nil : SecSkip metricSection [] := fun _ => rfl

theorem metricSection_skip_s : SecSkip metricSection [115] := fun _ => rfl

theorem natDigits_utf8 (n : Nat) : utf8Valid (natDigits n) = true :=
  utf8Valid_of_ascii _ fun b hb => by have := natDigits_le_57 n b hb; omega

theorem eventSection_timestamp (ts : Nat) (h : ts < 2 ^ 32) :
    SecStep eventSection ([100, 58] ++ natDigits ts) ("timestamp", .vu32 ts) := by
  intro m
  unfold eventSection
  rw [show (([100, 58] ++ natDigits ts) : Bytes).head? = some 100 from rfl]
  rw [show ((some 100 == some 100) : Bool) = true from rfl]
  simp only [if_true]
  rw [sliceFrom_sig2 100 _ (natDigits_utf8 ts), DRes.bind_ok, parseU32_natDigits ts h]

theorem eventSection_hostname (v : Bytes) (h : strNoPipe v = true) :
    SecStep eventSection ([104, 58] ++ v) ("hostname", .vstr v) := by
  intro m
  unfold eventSection
  rw [show (([104, 58] ++ v) : Bytes).head? = some 104 from rfl]
  rw [show ((some 104 == some 100) : Bool) = false from rfl,
    show ((some 104 == some 104) : Bool) = true from rfl]
  simp only [Bool.false_eq_true, if_false, if_true]
  rw [sliceFrom_sig2 104 v (strNoPipe_utf8 v h), DRes.bind_ok]

theorem eventSection_priority (v : Bytes) (h : strNoPipe v = true) :
    SecStep eventSection ([112, 58] ++ v) ("priority", .vstr v) := by
  intro m
  unfold eventSection
  rw [show (([112, 58] ++ v) : Bytes).head? = some 112 from rfl]
  rw [show ((some 112 == some 100) : Bool) = false from rfl,
    show ((some 112 == some 104) : Bool) = false from rfl,
    show ((some 112 == some 112) : Bool) = true from rfl]
  simp only [Bool.false_eq_true, if_false, if_true]
  rw [sliceFrom_sig2 112 v (strNoPipe_utf8 v h), DRes.bind_ok]

theorem eventSection_source (v : Bytes) (h : strNoPipe v = true) :
    SecStep eventSection ([115, 58] ++ v) ("source", .vstr v) := by
  intro m
  unfold eventSection
  rw [show (([115, 58] ++ v) : Bytes).head? = some 115 from rfl]
  rw [show ((some 115 == some 100) : Bool) = false from rfl,
    show ((some 115 == some 104) : Bool) = false from rfl,
    show ((some 115 == some 112) : Bool) = false from rfl,
    show ((some 115 == some 115) : Bool) = true from rfl]
  simp only [Bool.false_eq_true, if_false, if_true]
  rw [sliceFrom_sig2 115 v (strNoPipe_utf8 v h), DRes.bind_ok]

theorem eventSection_type (v : Bytes) (h : strNoPipe v = true) :
    SecStep eventSection ([116, 58] ++ v) ("type", .vstr v) := by
  intro m
  unfold eventSection
  rw [show (([116, 58] ++ v) : Bytes).head? = some 116 from rfl]
  rw [show ((some 116 == some 100) : Bool) = false from rfl,
    show ((some 116 == some 104) : Bool) = false from rfl,
    show ((some 116 == some 112) : Bool) = false from rfl,
    show ((some 116 == some 115) : Bool) = false from rfl,
    show ((some 116 == some 116) : Bool) = true from rfl]
  simp only [Bool.false_eq_true, if_false, if_true]
  rw [sliceFrom_sig2 116 v (strNoPipe_utf8 v h), DRes.bind_ok]

theorem eventSection_aggKey (v : Bytes) (h : strNoPipe v = true) :
    SecStep eventSection ([107, 58] ++ v) ("aggregation_key", .vstr v) := by
  intro m
  unfold eventSection
  rw [show (([107, 58] ++ v) : Bytes).head? = some 107 from rfl]
  rw [show ((some 107 == some 100) : Bool) = false from rfl,
    show ((some 107 == some 104) : Bool) = false from rfl,
    show ((some 107 == some 112) : Bool) = false from rfl,
    show ((some 107 == some 115) : Bool) = false from rfl,
    show ((some 107 == some 116) : Bool) = false from rfl,
    show ((some 107 == some 107) : Bool) = true from rfl]
  simp only [Bool.false_eq_true, if_false, if_true]
  rw [sliceFrom_sig2 107 v (strNoPipe_utf8 v h), DRes.bind_ok]

theorem eventSection_tags (ts : List Bytes) (hne : ts ≠ [])
    (hts : ∀ t ∈ ts, tagOk t = true) :
    SecStep eventSection ([35] ++ joinSep 44 ts) ("tags", .varr (ts.map .vstr)) := by
  apply tagsSection_step eventSection ts hne hts
  intro m
  unfold eventSection
  rw [List.singleton_append]
  simp only [List.head?_cons]
  rw [show ((some 35 == some 100) : Bool) = false from rfl,
    show ((some 35 == some 104) : Bool) = false from rfl,
    show ((some 35 == some 112) : Bool) = false from rfl,
    show ((some 35 == some 115) : Bool) = false from rfl,
    show ((some 35 == some 116) : Bool) = false from rfl,
    show ((some 35 == some 107) : Bool) = false from rfl,
    show ((some 35 == some 35) : Bool) = true from rfl]
  simp only [Bool.false_eq_true, if_false, if_true]

theorem eventSection_cid (c : Bytes) (hc : strNoPipe c = true) :
    SecStep eventSection ([99, 58] ++ c) ("container_id", .vstr c) := by
  intro m
  unfold eventSection
  rw [show (([99, 58] ++ c) : Bytes).head? = some 99 from rfl]
  rw [show ((some 99 == some 100) : Bool) = false from rfl,
    show ((some 99 == some 104) : Bool) = false from rfl,
    show ((some 99 == some 112) : Bool) = false from rfl,
    show ((some 99 == some 115) : Bool) = false from rfl,
    show ((some 99 == some 116) : Bool) = false from rfl,
    show ((some 99 == some 107) : Bool) = false from rfl,
    show ((some 99 == some 35) : Bool) = false from rfl,
    show ((some 99 == some 99) : Bool) = true from rfl]
  simp only [Bool.false_eq_true, if_false, if_true]
  rw [sliceFrom_sig2 99 c (strNoPipe_utf8 c hc), DRes.bind_ok]

theorem scSection_timestamp (ts : Nat) (h : ts < 2 ^ 32) :
    SecStep scSection ([100, 58] ++ natDigits ts) ("timestamp", .vu32 ts) := by
  intro m
  unfold scSection
  rw [show (([100, 58] ++ natDigits ts) : Bytes).head? = some 100 from rfl]
  rw [show ((some 100 == some 100) : Bool) = true from rfl]
  simp only [if_true]
  rw [sliceFrom_sig2 100 _ (natDigits_utf8 ts), DRes.bind_ok, parseU32_natDigits ts h]

theorem scSection_hostname (v : Bytes) (h : strNoPipe v = true) :
    SecStep scSection ([104, 58] ++ v) ("hostname", .vstr v) := by
  intro m
  unfold scSection
  rw [show (([104, 58] ++ v) : Bytes).head? = some 104 from rfl]
  rw [show ((some 104 == some 100) : Bool) = false from rfl,
    show ((some 104 == some 104) : Bool) = true from rfl]
  simp only [Bool.false_eq_true, if_false, if_true]
  rw [sliceFrom_sig2 104 v (strNoPipe_utf8 v h), DRes.bind_ok]

theorem scSection_tags (ts : List Bytes) (hne : ts ≠ [])
    (hts : ∀ t ∈ ts, tagOk t = true) :
    SecStep scSection ([35] ++ joinSep 44 ts) ("tags", .varr (ts.map .vstr)) := by
  apply tagsSection_step scSection ts hne hts
  intro m
  unfold scSection
  rw [List.singleton_append]
  simp only [List.head?_cons]
  rw [show ((some 35 == some 100) : Bool) = false from rfl,
    show ((some 35 == some 104) : Bool) = false from rfl,
    show ((some 35 == some 35) : Bool) = true from rfl]
  simp only [Bool.false_eq_true, if_false, if_true]

theorem scSection_message (v : Bytes) (h : strNoPipe v = true) :
    SecStep scSection ([109, 58] ++ v) ("message", .vstr v) := by
  intro m
  unfold scSection
  rw [show (([109, 58] ++ v) : Bytes).head? = some 109 from rfl]
  rw [show ((some 109 == some 100) : Bool) = false from rfl,
    show ((some 109 == some 104) : Bool) = false from rfl,
    show ((some 109 == some 35) : Bool) = false from rfl,
    show ((some 109 == some 109) : Bool) = true from rfl]
  simp only [Bool.false_eq_true, if_false, if_true]
  rw [sliceFrom_sig2 109 v (strNoPipe_utf8 v h), DRes.bind_ok]

theorem scSection_cid (c : Bytes) (hc : strNoPipe c = true) :
    SecStep scSection ([99, 58] ++ c) ("container_id", .vstr c) := by
  intro m
  unfold scSection
  rw [show (([99, 58] ++ c) : Bytes).head? = some 99 from rfl]
  rw [show ((some 99 == some 100) : Bool) = false from rfl,
    show ((some 99 == some 104) : Bool) = false from rfl,
    show ((some 99 == some 35) : Bool) = false from rfl,
    show ((some 99 == some 109) : Bool) = false from rfl,
    show ((some 99 == some 99) : Bool) = true from rfl]
  simp only [Bool.false_eq_true, if_false, if_true]
  rw [sliceFrom_sig2 99 c (strNoPipe_utf8 c hc), DRes.bind_ok]

/-! ## The value scan on canonical metric bodies -/

theorem fltRender_no_sep (v : Flt) (hc : v.canonical = true) :
    ∀ x ∈ fltRender v, ((x == 58 || x == 124) : Bool) = false := by
  intro x hx
  have hb := fltRender_bytes v hc x hx
  have h1 : x ≠ 58 := by omega
  have h2 : x ≠ 124 := by omega
  simp [h1, h2]

theorem joinSep_single (sep : Nat) (x : Bytes) : joinSep sep [x] = x := rfl

theorem utf8Valid_fltRender (v : Flt) (hc : v.canonical = true) :
    utf8Valid (fltRender v) = true :=
  utf8Valid_of_ascii _ fun b hb => by have := fltRender_bytes v hc b hb; omega

theorem scanValues_eq_some (data : Bytes) (j q : Nat)
    (hf : findFrom (fun b => b == 58 || b == 124) data j = some q) :
    scanValues data j
      = (substr data j q).bind fun piece =>
        match parseF64 piece with
        | none => .err
        | some v =>
          if data.getD q 0 == 124 then .ok ([v], q + 1)
          else (scanValues data (q + 1)).bind fun pr => .ok (v :: pr.1, pr.2) := by
  rw [scanValues]
  split
  · rename_i heq
    rw [hf] at heq
    cases heq
  · rename_i q' heq
    rw [hf] at heq
    injection heq with heq2
    subst heq2
    rfl

theorem scanValues_render (vs : List Flt) (hc : ∀ v ∈ vs, v.canonical = true) :
    ∀ (pre suf data : Bytes),
    data = pre ++ (joinSep 58 (vs.map fltRender) ++ 124 :: suf) →
    vs ≠ [] →
    scanValues data pre.length
      = .ok (vs, pre.length + (joinSep 58 (vs.map fltRender)).length + 1) := by
  induction vs with
  | nil =>
    intro _ _ _ _ hne
    exact absurd rfl hne
  | cons v rest ih =>
    intro pre suf data hd _
    cases rest with
    | nil =>
      rw [show ((v :: ([] : List Flt)).map fltRender) = [fltRender v] from rfl,
        joinSep_single] at hd ⊢
      have hfind : findFrom (fun b => b == 58 || b == 124) data pre.length
          = some (pre.length + (fltRender v).length) := by
        unfold findFrom
        rw [hd, List.drop_left]
        rw [scanIdx_first (fltRender v) 124 suf (fltRender_no_sep v (hc v (by simp)))
          (by rfl)]
        rfl
      rw [scanValues_eq_some data pre.length _ hfind]
      have hsub : substr data pre.length (pre.length + (fltRender v).length)
          = .ok (fltRender v) := by
        apply substr_exact data pre (fltRender v) (124 :: suf)
        · rw [hd, List.append_assoc]
        · exact utf8Valid_fltRender v (hc v (by simp))
      rw [hsub, DRes.bind_ok, parseF64_fltRender v (hc v (by simp))]
      have hgd : data.getD (pre.length + (fltRender v).length) 0 = 124 := by
        rw [hd, ← List.append_assoc, ← List.length_append]
        exact getD_at_append _ _ _
      rw [show ((data.getD (pre.length + (fltRender v).length) 0 == 124) : Bool) = true
        by rw [hgd]; rfl]
      simp only [if_true]
    | cons w ws =>
      have hJ : joinSep 58 ((v :: w :: ws).map fltRender)
          = fltRender v ++ 58 :: joinSep 58 ((w :: ws).map fltRender) := by
        rw [List.map_cons, List.map_cons, joinSep_cons2, ← List.map_cons]
      rw [hJ] at hd ⊢
      have hd2 : data = pre ++ (fltRender v
          ++ (58 :: (joinSep 58 ((w :: ws).map fltRender) ++ 124 :: suf))) := by
        rw [hd]
        simp [List.append_assoc]
      have hfind : findFrom (fun b => b == 58 || b == 124) data pre.length
          = some (pre.length + (fltRender v).length) := by
        unfold findFrom
        rw [hd2, List.drop_left]
        rw [scanIdx_first (fltRender v) 58 _ (fltRender_no_sep v (hc v (by simp)))
          (by rfl)]
        rfl
      rw [scanValues_eq_some data pre.length _ hfind]
      have hsub : substr data pre.length (pre.length + (fltRender v).length)
          = .ok (fltRender v) := by
        apply substr_exact data pre (fltRender v)
          (58 :: (joinSep 58 ((w :: ws).map fltRender) ++ 124 :: suf))
        · rw [hd2, List.append_assoc]
        · exact utf8Valid_fltRender v (hc v (by simp))
      rw [hsub, DRes.bind_ok, parseF64_fltRender v (hc v (by simp))]
      have hgd : data.getD (pre.length + (fltRender v).length) 0 = 58 := by
        rw [hd2, ← List.append_assoc, ← List.length_append]
        exact getD_at_append _ _ _
      rw [show ((data.getD (pre.length + (fltRender v).length) 0 == 124) : Bool) = false
        by rw [hgd]; rfl]
      simp only [Bool.false_eq_true, if_false]
      have hd3 : data = (pre ++ fltRender v ++ [58])
          ++ (joinSep 58 ((w :: ws).map fltRender) ++ 124 :: suf) := by
        rw [hd2]
        simp [List.append_assoc]
      have hlen : (pre ++ fltRender v ++ [58]).length
          = pre.length + (fltRender v).length + 1 := by
        simp [List.length_append]
        omega
      have hrec := ih (fun x hx => hc x (by simp [hx]))
        (pre ++ fltRender v ++ [58]) suf data hd3 (by simp)
      rw [hlen] at hrec
      rw [hrec, DRes.bind_ok]
      have harith : pre.length + (fltRender v).length + 1
            + (joinSep 58 ((w :: ws).map fltRender)).length + 1
          = pre.length
            + (fltRender v ++ 58 :: joinSep 58 ((w :: ws).map fltRender)).length + 1 := by
        simp [List.length_append]
        omega
      rw [harith]

/-! ## The type token and section list of a canonical metric -/

theorem readType_single (data pre suf : Bytes) (b : Nat)
    (hd : data = pre ++ ([b] ++ suf))
    (hb : ((b == 99 || b == 100 || b == 103 || b == 104 || b == 115) : Bool) = true)
    (hb127 : b ≤ 127) :
    readType data pre.length = .ok ([b], pre.length + 1) := by
  have hdrop : data.drop pre.length = b :: suf := by
    rw [hd, List.drop_left]
    rfl
  unfold readType
  rw [hdrop]
  simp only [List.head?_cons]
  rw [hb]
  simp only [if_true]
  rw [show pre.length + 1 = pre.length + ([b] : Bytes).length from rfl]
  rw [substr_exact data pre [b] suf (by rw [hd, List.append_assoc])
    (utf8Valid_of_ascii [b] (by intro x hx; simp at hx; omega))]
  rfl

theorem readType_ms (data pre suf : Bytes)
    (hd : data = pre ++ ([109, 115] ++ suf)) :
    readType data pre.length = .ok ([109, 115], pre.length + 1) := by
  have hdrop : data.drop pre.length = 109 :: 115 :: suf := by
    rw [hd, List.drop_left]
    rfl
  unfold readType
  rw [hdrop]
  simp only [List.head?_cons]
  rw [show ((109 == 99 || 109 == 100 || 109 == 103 || 109 == 104
    || 109 == 115 : Bool)) = false from rfl]
  rw [show ((109 == 109 : Bool)) = true from rfl]
  simp only [Bool.false_eq_true, if_false, if_true]
  have hdrop2 : data.drop (pre.length + 1) = 115 :: suf := by
    have h2 : data = (pre ++ [109]) ++ ([115] ++ suf) := by
      rw [hd]
      simp [List.append_assoc]
    rw [h2]
    rw [show pre.length + 1 = (pre ++ [109]).length by simp]
    rw [List.drop_left]
    rfl
  rw [hdrop2]
  simp only [List.head?_cons]
  rw [show ((115 == 115 : Bool)) = true from rfl]
  simp only [if_true]
  rw [show pre.length + 2 = pre.length + ([109, 115] : Bytes).length from rfl]
  rw [substr_exact data pre [109, 115] suf (by rw [hd, List.append_assoc]) (by rfl)]
  rfl

theorem readType_render (data pre suf mtype : Bytes)
    (hd : data = pre ++ (mtype ++ suf))
    (ht : mtype = [99] ∨ mtype = [100] ∨ mtype = [103] ∨ mtype = [104]
      ∨ mtype = [115] ∨ mtype = [109, 115]) :
    readType data pre.length = .ok (mtype, pre.length + 1) := by
  rcases ht with h | h | h | h | h | h <;> subst h
  · exact readType_single data pre suf 99 hd (by rfl) (by omega)
  · exact readType_single data pre suf 100 hd (by rfl) (by omega)
  · exact readType_single data pre suf 103 hd (by rfl) (by omega)
  · exact readType_single data pre suf 104 hd (by rfl) (by omega)
  · exact readType_single data pre suf 115 hd (by rfl) (by omega)
  · exact readType_ms data pre suf hd

theorem sectionsFlat_optPart {α : Type} (o : Option α) (f : α → SecTriple) :
    sectionsFlat ((optPart o f).map (·.1)) = optSeg o (fun x => 124 :: (f x).1) := by
  cases o with
  | none => rfl
  | some x => simp [optPart, sectionsFlat, optSeg]

theorem optPart_mem {α : Type} (o : Option α) (f : α → SecTriple) (t : SecTriple)
    (ht : t ∈ optPart o f) : ∃ x, o = some x ∧ t = f x := by
  cases o with
  | none => simp [optPart] at ht
  | some x =>
    simp only [optPart, List.mem_singleton] at ht
    exact ⟨x, rfl, ht⟩

theorem metric_flat (m : CanonMetric) :
    optSeg m.sampleRate (fun sr => [124, 64] ++ fltRender sr)
      ++ optSeg m.tags (fun ts => [124, 35] ++ joinSep 44 ts)
      ++ optSeg m.containerId (fun cid => [124, 99, 58] ++ cid)
    = sectionsFlat ((metricSecTriples m).map (·.1)) := by
  unfold metricSecTriples
  rw [List.map_append, List.map_append, sectionsFlat_append, sectionsFlat_append]
  rw [sectionsFlat_optPart, sectionsFlat_optPart, sectionsFlat_optPart]
  rfl

theorem joinSep_utf8 (sep : Nat) (hsep : sep ≤ 127) (ts : List Bytes)
    (h : ∀ t ∈ ts, utf8Valid t = true) : utf8Valid (joinSep sep ts) = true := by
  induction ts with
  | nil => rfl
  | cons t r ih =>
    cases r with
    | nil =>
      rw [joinSep]
      exact h t (by simp)
    | cons q u =>
      rw [joinSep_cons2]
      apply utf8Valid_append t _ (h t (by simp))
      have hs : utf8Valid [sep] = true := utf8Valid_of_ascii _ (by simpa using hsep)
      have hr : utf8Valid (joinSep sep (q :: u)) = true :=
        ih fun y hy => h y (by simp [hy])
      have := utf8Valid_append [sep] (joinSep sep (q :: u)) hs hr
      simpa using this

/-! ## Facts about the canonical metric section list -/

theorem joinSep_no44_no124 (ts : List Bytes) (hts : ∀ t ∈ ts, tagOk t = true) :
    ∀ x ∈ joinSep 44 ts, (x == 124) = false := by
  intro x hx
  rcases mem_joinSep 44 ts x hx with h | ⟨p, hp, hxp⟩
  · subst h
    rfl
  · exact tagOk_no124 p (hts p hp) x hxp

theorem metricSecs_utf8 (m : CanonMetric) (hwf : WfMetric m = true) :
    ∀ s ∈ (metricSecTriples m).map (·.1), utf8Valid s = true := by
  intro s hs
  simp only [List.mem_map] at hs
  obtain ⟨t, ht, hts⟩ := hs
  subst hts
  unfold WfMetric at hwf
  simp only [Bool.and_eq_true] at hwf
  obtain ⟨⟨⟨_, hsr⟩, htags⟩, hcid⟩ := hwf
  unfold metricSecTriples at ht
  rcases List.mem_append.mp ht with ht1 | ht1
  · rcases List.mem_append.mp ht1 with ht2 | ht2
    · obtain ⟨sr, ho, hteq⟩ := optPart_mem _ _ _ ht2
      subst hteq
      rw [ho] at hsr
      simp only [Bool.and_eq_true] at hsr
      exact utf8Valid_append [64] _ rfl (utf8Valid_fltRender sr hsr.1)
    · obtain ⟨ts, ho, hteq⟩ := optPart_mem _ _ _ ht2
      subst hteq
      rw [ho] at htags
      simp only [tagsOk, Bool.and_eq_true, List.all_eq_true] at htags
      exact utf8Valid_append [35] _ rfl
        (joinSep_utf8 44 (by omega) ts fun t htm => tagOk_utf8 t (htags.2 t htm))
  · obtain ⟨c, ho, hteq⟩ := optPart_mem _ _ _ ht1
    subst hteq
    rw [ho] at hcid
    exact utf8Valid_append [99, 58] _ rfl (strNoPipe_utf8 c hcid)

theorem metricSecs_no124 (m : CanonMetric) (hwf : WfMetric m = true) :
    ∀ s ∈ (metricSecTriples m).map (·.1), ∀ x ∈ s, (x == 124) = false := by
  intro s hs
  simp only [List.mem_map] at hs
  obtain ⟨t, ht, hts⟩ := hs
  subst hts
  unfold WfMetric at hwf
  simp only [Bool.and_eq_true] at hwf
  obtain ⟨⟨⟨_, hsr⟩, htags⟩, hcid⟩ := hwf
  unfold metricSecTriples at ht
  intro x hx
  rcases List.mem_append.mp ht with ht1 | ht1
  · rcases List.mem_append.mp ht1 with ht2 | ht2
    · obtain ⟨sr, ho, hteq⟩ := optPart_mem _ _ _ ht2
      subst hteq
      rw [ho] at hsr
      simp only [Bool.and_eq_true] at hsr
      simp only at hx
      rcases List.mem_append.mp hx with hx1 | hx1
      · simp at hx1
        subst hx1
        rfl
      · have := fltRender_bytes sr hsr.1 x hx1
        have hne : x ≠ 124 := by omega
        simp [hne]
    · obtain ⟨ts, ho, hteq⟩ := optPart_mem _ _ _ ht2
      subst hteq
      rw [ho] at htags
      simp only [tagsOk, Bool.and_eq_true, List.all_eq_true] at htags
      simp only at hx
      rcases List.mem_append.mp hx with hx1 | hx1
      · simp at hx1
        subst hx1
        rfl
      · exact joinSep_no44_no124 ts (fun t htm => htags.2 t htm) x hx1
  · obtain ⟨c, ho, hteq⟩ := optPart_mem _ _ _ ht1
    subst hteq
    rw [ho] at hcid
    simp only at hx
    rcases List.mem_append.mp hx with hx1 | hx1
    · simp at hx1
      rcases hx1 with h99 | h58 <;> subst_vars <;> rfl
    · exact strNoPipe_no124 c hcid x hx1

theorem metricSecs_steps (m : CanonMetric) (hwf : WfMetric m = true) :
    ∀ t ∈ metricSecTriples m, SecStep metricSection t.1 t.2 := by
  intro t ht
  unfold WfMetric at hwf
  simp only [Bool.and_eq_true] at hwf
  obtain ⟨⟨⟨_, hsr⟩, htags⟩, hcid⟩ := hwf
  unfold metricSecTriples at ht
  rcases List.mem_append.mp ht with ht1 | ht1
  · rcases List.mem_append.mp ht1 with ht2 | ht2
    · obtain ⟨sr, ho, hteq⟩ := optPart_mem _ _ _ ht2
      subst hteq
      rw [ho] at hsr
      simp only [Bool.and_eq_true] at hsr
      exact metricSection_sample sr hsr.1
    · obtain ⟨ts, ho, hteq⟩ := optPart_mem _ _ _ ht2
      subst hteq
      rw [ho] at htags
      simp only [tagsOk, Bool.and_eq_true, List.all_eq_true] at htags
      refine metricSection_tags ts ?_ fun t htm => htags.2 t htm
      intro hts0
      rw [hts0] at htags
      simp [List.isEmpty] at htags
  · obtain ⟨c, ho, hteq⟩ := optPart_mem _ _ _ ht1
    subst hteq
    rw [ho] at hcid
    exact metricSection_cid c hcid

/-! ## Decoding a canonical metric datagram -/

theorem decode_metric_render (m : CanonMetric) (hwf : WfMetric m = true) :
    decode_metric (renderMetric m) = .ok (.vobj (metricValue m)) := by
  have hw := hwf
  unfold WfMetric at hw
  simp only [Bool.and_eq_true] at hw
  obtain ⟨⟨⟨⟨⟨⟨⟨⟨⟨⟨⟨hnameU, hnameNE⟩, hnameAll⟩, _⟩, _⟩, _⟩, hvne⟩, hvcan⟩,
    htype⟩, _⟩, _⟩, _⟩ := hw
  have hnameNE' : m.name ≠ [] := by
    rw [Bool.not_eq_true'] at hnameNE
    intro h0
    rw [h0] at hnameNE
    simp [List.isEmpty] at hnameNE
  have hname58 : ∀ b ∈ m.name, ((b == 58) : Bool) = false := by
    intro b hb
    have := List.all_eq_true.mp hnameAll b hb
    simp only [Bool.and_eq_true, Bool.not_eq_true'] at this
    exact this.1
  have hvcan' : ∀ v ∈ m.values, v.canonical = true := fun v hv =>
    List.all_eq_true.mp hvcan v hv
  have hvne' : m.values ≠ [] := by
    rw [Bool.not_eq_true'] at hvne
    intro h0
    rw [h0] at hvne
    simp [List.isEmpty] at hvne
  have htype' : m.mtype = [99] ∨ m.mtype = [100] ∨ m.mtype = [103] ∨ m.mtype = [104]
      ∨ m.mtype = [115] ∨ m.mtype = [109, 115] := by
    rw [Bool.or_eq_true, Bool.or_eq_true, Bool.or_eq_true, Bool.or_eq_true,
      Bool.or_eq_true] at htype
    rcases htype with ((((h | h) | h) | h) | h) | h
    · exact Or.inl (eq_of_beq h)
    · exact Or.inr (Or.inl (eq_of_beq h))
    · exact Or.inr (Or.inr (Or.inl (eq_of_beq h)))
    · exact Or.inr (Or.inr (Or.inr (Or.inl (eq_of_beq h))))
    · exact Or.inr (Or.inr (Or.inr (Or.inr (Or.inl (eq_of_beq h)))))
    · exact Or.inr (Or.inr (Or.inr (Or.inr (Or.inr (eq_of_beq h)))))
  -- abbreviations
  set VJ := joinSep 58 (m.values.map fltRender) with hVJ
  set S := sectionsFlat ((metricSecTriples m).map (·.1)) with hS
  set data := renderMetric m with hdata
  have hd0 : data = m.name ++ (58 :: (VJ ++ 124 :: (m.mtype ++ S))) := by
    rw [hdata, hVJ, hS, renderMetric, ← metric_flat]
    simp [List.append_assoc]
  -- 1. the name scan
  have hscan0 : scanIdx (fun b => b == 58) data = some m.name.length := by
    rw [hd0]
    exact scanIdx_first m.name 58 _ hname58 (by rfl)
  unfold decode_metric
  rw [hscan0]
  dsimp only
  -- 2. the name substring
  have hsubname : substr data 0 m.name.length = .ok m.name := by
    have h1 : data = [] ++ m.name ++ (58 :: (VJ ++ 124 :: (m.mtype ++ S))) := by
      rw [hd0]
      rfl
    have := substr_exact data [] m.name _ h1 hnameU
    simpa using this
  rw [hsubname, DRes.bind_ok]
  -- 3. the values scan
  have hscanv : scanValues data (m.name.length + 1)
      = .ok (m.values, m.name.length + 1 + VJ.length + 1) := by
    have h1 : data = (m.name ++ [58]) ++ (VJ ++ 124 :: (m.mtype ++ S)) := by
      rw [hd0]
      simp [List.append_assoc]
    have hlen : (m.name ++ [58]).length = m.name.length + 1 := by simp
    have := scanValues_render m.values hvcan' (m.name ++ [58]) (m.mtype ++ S) data h1 hvne'
    rw [hlen] at this
    exact this
  rw [hscanv, DRes.bind_ok]
  -- 4. the type token
  have hread : readType data (m.name.length + 1 + VJ.length + 1)
      = .ok (m.mtype, m.name.length + 1 + VJ.length + 1 + 1) := by
    have h1 : data = (m.name ++ [58] ++ VJ ++ [124]) ++ (m.mtype ++ S) := by
      rw [hd0]
      simp [List.append_assoc]
    have hlen : (m.name ++ [58] ++ VJ ++ [124]).length
        = m.name.length + 1 + VJ.length + 1 := by
      simp [List.length_append]
      omega
    have := readType_render data _ S m.mtype h1 htype'
    rw [hlen] at this
    exact this
  rw [hread, DRes.bind_ok]
  -- 5. the sections suffix
  have htail : m.mtype.drop 1 = [] ∨ m.mtype.drop 1 = [115] := by
    rcases htype' with h | h | h | h | h | h <;> rw [h] <;> simp
  have htailno124 : ∀ x ∈ m.mtype.drop 1, ((x == 124) : Bool) = false := by
    rcases htail with h | h <;> rw [h]
    · simp
    · intro x hx
      simp at hx
      subst hx
      rfl
  have htailutf8 : utf8Valid (m.mtype.drop 1) = true := by
    rcases htail with h | h <;> rw [h] <;> rfl
  have hsuffix : substr data (m.name.length + 1 + VJ.length + 1 + 1) data.length
      = .ok (m.mtype.drop 1 ++ S) := by
    have hsplit : m.mtype = m.mtype.take 1 ++ m.mtype.drop 1 := by
      rw [List.take_append_drop]
    have htake1 : ∀ b ∈ m.mtype.take 1, b ≤ 127 := by
      rcases htype' with h | h | h | h | h | h <;> rw [h] <;> intro b hb <;>
        simp at hb <;> omega
    have h1 : data = (m.name ++ [58] ++ VJ ++ [124] ++ m.mtype.take 1)
        ++ (m.mtype.drop 1 ++ S) := by
      rw [hd0]
      conv_lhs => rw [hsplit]
      simp [List.append_assoc]
    have hlen : (m.name ++ [58] ++ VJ ++ [124] ++ m.mtype.take 1).length
        = m.name.length + 1 + VJ.length + 1 + 1 := by
      have : (m.mtype.take 1).length = 1 := by
        rcases htype' with h | h | h | h | h | h <;> rw [h] <;> rfl
      simp [List.length_append, this]
      omega
    have hu : utf8Valid (m.mtype.drop 1 ++ S) = true := by
      apply utf8Valid_append _ _ htailutf8
      exact sectionsFlat_utf8 _ (metricSecs_utf8 m hwf)
    have := substr_suffix data _ _ h1 hu
    rw [hlen] at this
    exact this
  rw [hsuffix, DRes.bind_ok]
  -- 6. splitting the sections
  have hsplit2 : splitByte 124 (m.mtype.drop 1 ++ S)
      = m.mtype.drop 1 :: (metricSecTriples m).map (·.1) := by
    rw [hS]
    exact splitByte_flat _ _ htailno124 (metricSecs_no124 m hwf)
  rw [hsplit2]
  -- 7. running the sections
  have hskip : SecSkip metricSection (m.mtype.drop 1) := by
    rcases htail with h | h <;> rw [h]
    · exact metricSection_skip_nil
    · exact metricSection_skip_s
  rw [runSections_skip_cons _ _ _ _ hskip]
  rw [runSections_steps metricSection (metricSecTriples m) (metricSecs_steps m hwf) _]
  rw [DRes.bind_ok]
  rfl

/-! ## Encoding the decoded metric value -/

theorem renderVals_map (vs : List Flt) :
    renderVals (vs.map DVal.vf64) = .ok (vs.map fltRender) := by
  induction vs with
  | nil => rfl
  | cons x r ih =>
    show (renderVals (r.map DVal.vf64)).bind (fun t => .ok (fltRender x :: t))
      = .ok (fltRender x :: r.map fltRender)
    rw [ih]
    rfl

theorem tagStrs_map (ts : List Bytes) :
    tagStrs (ts.map DVal.vstr) = .ok ts := by
  induction ts with
  | nil => rfl
  | cons x r ih =>
    show (tagStrs (r.map DVal.vstr)).bind (fun t => .ok (x :: t)) = .ok (x :: r)
    rw [ih]
    rfl

theorem optPart_map2_keys {α : Type} (o : Option α) (f : α → SecTriple) (k : String)
    (p : String × DVal) (hp : p ∈ (optPart o f).map (·.2))
    (hk : ∀ x, (f x).2.1 = k) : p.1 = k := by
  rcases List.mem_map.mp hp with ⟨t, ht, hpt⟩
  rcases optPart_mem o f t ht with ⟨x, _, ht'⟩
  rw [← hpt, ht', hk x]

theorem metricKVs_keys (m : CanonMetric) (p : String × DVal)
    (hp : p ∈ (metricSecTriples m).map (·.2)) :
    p.1 = "sample_rate" ∨ p.1 = "tags" ∨ p.1 = "container_id" := by
  unfold metricSecTriples at hp
  rw [List.map_append, List.map_append] at hp
  rcases List.mem_append.mp hp with h | h
  · rcases List.mem_append.mp h with h1 | h1
    · exact Or.inl (optPart_map2_keys _ _ _ p h1 (fun _ => rfl))
    · exact Or.inr (Or.inl (optPart_map2_keys _ _ _ p h1 (fun _ => rfl)))
  · exact Or.inr (Or.inr (optPart_map2_keys _ _ _ p h (fun _ => rfl)))

theorem metricKVs_ne (m : CanonMetric) (k : String)
    (h1 : k ≠ "sample_rate") (h2 : k ≠ "tags") (h3 : k ≠ "container_id") :
    ∀ p ∈ (metricSecTriples m).map (·.2), p.1 ≠ k := by
  intro p hp
  rcases metricKVs_keys m p hp with h | h | h <;> rw [h]
  · exact fun he => h1 he.symm
  · exact fun he => h2 he.symm
  · exact fun he => h3 he.symm

theorem insKVs_single (b : Obj) (k : String) (v : DVal) :
    insKVs b [(k, v)] = objInsert b k v := rfl

theorem mvGetDTV (m : CanonMetric) :
    (DVal.vobj (metricValue m)).get "dogstatsd_type"
      = some (DVal.vstr (litBytes "metric")) := by
  unfold DVal.get metricValue
  dsimp only
  rw [objGet_insKVs_ne _ _ _
    (metricKVs_ne m "dogstatsd_type" (by decide) (by decide) (by decide))]
  rfl

theorem mvGetNameV (m : CanonMetric) :
    (DVal.vobj (metricValue m)).get "metric" = some (DVal.vstr m.name) := by
  unfold DVal.get metricValue
  dsimp only
  rw [objGet_insKVs_ne _ _ _
    (metricKVs_ne m "metric" (by decide) (by decide) (by decide))]
  rfl

theorem mvGetValuesV (m : CanonMetric) :
    (DVal.vobj (metricValue m)).get "values"
      = some (DVal.varr (m.values.map DVal.vf64)) := by
  unfold DVal.get metricValue
  dsimp only
  rw [objGet_insKVs_ne _ _ _
    (metricKVs_ne m "values" (by decide) (by decide) (by decide))]
  rfl

theorem mvGetTypeV (m : CanonMetric) :
    (DVal.vobj (metricValue m)).get "type" = some (DVal.vstr m.mtype) := by
  unfold DVal.get metricValue
  dsimp only
  rw [objGet_insKVs_ne _ _ _
    (metricKVs_ne m "type" (by decide) (by decide) (by decide))]
  rfl

theorem mvGetSampleV (m : CanonMetric) :
    (DVal.vobj (metricValue m)).get "sample_rate"
      = Option.map DVal.vf64 m.sampleRate := by
  unfold DVal.get metricValue metricSecTriples
  dsimp only
  rw [List.map_append, List.map_append, insKVs_append, insKVs_append]
  rw [objGet_insKVs_ne _ _ _ (fun p hp => by
    rw [optPart_map2_keys _ _ _ p hp (fun _ => rfl)]; decide)]
  rw [objGet_insKVs_ne _ _ _ (fun p hp => by
    rw [optPart_map2_keys _ _ _ p hp (fun _ => rfl)]; decide)]
  cases m.sampleRate with
  | none => rfl
  | some sr =>
    simp only [optPart, List.map_cons, List.map_nil, insKVs_single]
    rw [objGet_objInsert_self]
    rfl

theorem mvGetTagsV (m : CanonMetric) :
    (DVal.vobj (metricValue m)).get "tags"
      = Option.map (fun ts => DVal.varr (ts.map DVal.vstr)) m.tags := by
  unfold DVal.get metricValue metricSecTriples
  dsimp only
  rw [List.map_append, List.map_append, insKVs_append, insKVs_append]
  rw [objGet_insKVs_ne _ _ _ (fun p hp => by
    rw [optPart_map2_keys _ _ _ p hp (fun _ => rfl)]; decide)]
  cases m.tags with
  | none =>
    rw [objGet_insKVs_ne _ _ _ (fun p hp => by simp [optPart] at hp)]
    rw [objGet_insKVs_ne _ _ _ (fun p hp => by
      rw [optPart_map2_keys _ _ _ p hp (fun _ => rfl)]; decide)]
    rfl
  | some ts =>
    simp only [optPart, List.map_cons, List.map_nil, insKVs_single]
    rw [objGet_objInsert_self]
    rfl

theorem mvGetCidV (m : CanonMetric) :
    (DVal.vobj (metricValue m)).get "container_id"
      = Option.map DVal.vstr m.containerId := by
  unfold DVal.get metricValue metricSecTriples
  dsimp only
  rw [List.map_append, List.map_append, insKVs_append, insKVs_append]
  cases m.containerId with
  | none =>
    rw [objGet_insKVs_ne _ _ _ (fun p hp => by simp [optPart] at hp)]
    rw [objGet_insKVs_ne _ _ _ (fun p hp => by
      rw [optPart_map2_keys _ _ _ p hp (fun _ => rfl)]; decide)]
    rw [objGet_insKVs_ne _ _ _ (fun p hp => by
      rw [optPart_map2_keys _ _ _ p hp (fun _ => rfl)]; decide)]
    rfl
  | some cid =>
    simp only [optPart, List.map_cons, List.map_nil, insKVs_single]
    rw [objGet_objInsert_self]
    rfl

theorem mvGetDT (m : CanonMetric) :
    (DVal.vobj (metricValue m)).getStr "dogstatsd_type" = some (litBytes "metric") := by
  unfold DVal.getStr
  rw [mvGetDTV]

theorem mvGetName (m : CanonMetric) :
    (DVal.vobj (metricValue m)).getStr "metric" = some m.name := by
  unfold DVal.getStr
  rw [mvGetNameV]

theorem mvGetTypeS (m : CanonMetric) :
    (DVal.vobj (metricValue m)).getStr "type" = some m.mtype := by
  unfold DVal.getStr
  rw [mvGetTypeV]

theorem mvGetValuesArr (m : CanonMetric) :
    (DVal.vobj (metricValue m)).getArr "values"
      = some (m.values.map DVal.vf64) := by
  unfold DVal.getArr
  rw [mvGetValuesV]

theorem mvGetTagsArr (m : CanonMetric) :
    (DVal.vobj (metricValue m)).getArr "tags"
      = Option.map (fun ts => ts.map DVal.vstr) m.tags := by
  unfold DVal.getArr
  rw [mvGetTagsV]
  cases m.tags with
  | none => rfl
  | some ts => rfl

theorem mvGetCidStr (m : CanonMetric) :
    (DVal.vobj (metricValue m)).getStr "container_id" = m.containerId := by
  unfold DVal.getStr
  rw [mvGetCidV]
  cases m.containerId with
  | none => rfl
  | some cid => rfl

theorem mvSampleSeg (m : CanonMetric) :
    sampleSegRes (DVal.vobj (metricValue m))
      = .ok (optSeg m.sampleRate (fun sr => [124, 64] ++ fltRender sr)) := by
  unfold sampleSegRes
  rw [mvGetSampleV]
  cases m.sampleRate with
  | none => rfl
  | some sr => rfl

theorem mvTagsSeg (m : CanonMetric) :
    tagsSegRes (DVal.vobj (metricValue m))
      = .ok (optSeg m.tags (fun ts => [124, 35] ++ joinSep 44 ts)) := by
  unfold tagsSegRes
  rw [mvGetTagsArr]
  cases m.tags with
  | none => rfl
  | some ts =>
    show (tagStrs (ts.map DVal.vstr)).bind (fun xs => .ok ([124, 35] ++ joinSep 44 xs))
      = .ok (optSeg (some ts) (fun ts => [124, 35] ++ joinSep 44 ts))
    rw [tagStrs_map]
    rfl

theorem encode_metric_value (m : CanonMetric) :
    encode_metric (DVal.vobj (metricValue m)) = .ok (renderMetric m) := by
  unfold encode_metric
  rw [mvGetName, mvGetTypeS, mvGetValuesArr]
  dsimp only
  rw [renderVals_map, DRes.bind_ok, mvSampleSeg, DRes.bind_ok, mvTagsSeg, DRes.bind_ok,
    mvGetCidStr, renderMetric]

/-! ## The text loop of `decode_event` on canonical input -/

theorem vecIndex_zero {α : Type} (a : α) (l : List α) : vecIndex (a :: l) 0 = .ok a := rfl

theorem vecIndex_one {α : Type} (a b : α) (l : List α) :
    vecIndex (a :: b :: l) 1 = .ok b := rfl

theorem natDigits_bytes (n : Nat) : ∀ b ∈ natDigits n, 45 ≤ b ∧ b ≤ 57 := by
  have h := intRender_bytes (n : Int)
  rw [intRender, if_neg (by omega)] at h
  simpa using h

theorem slicePre_append_last (v : Bytes) (b : Nat) (hb : isCont b = false) :
    slicePre (v ++ [b]) ((v ++ [b]).length - 1) = .ok v := by
  have hl : (v ++ [b]).length - 1 = v.length := by simp
  rw [hl]
  unfold slicePre charBoundary
  rw [List.drop_left, List.take_left]
  have h2 : (decide (v.length ≤ (v ++ [b]).length) && !isCont ([b].headD 0)) = true := by
    rw [Bool.and_eq_true]
    refine ⟨decide_eq_true (by simp), ?_⟩
    simp only [List.headD_cons, hb]
    rfl
  rw [h2, if_pos rfl]

/-- The per-byte `substr(data, idx..=idx)?` of the text loop on an ASCII
byte: the one-byte slice is in bounds and valid UTF-8. -/
theorem substr_single (data : Bytes) (j b : Nat) (hj : j < data.length)
    (hb : data.getD j 0 = b) (hlt : b ≤ 127) :
    substr data j (j + 1) = .ok [b] := by
  have hdrop : data.drop j = b :: data.drop (j + 1) := by
    rw [List.drop_eq_getElem_cons hj]
    congr 1
    rw [← hb]
    exact (List.getD_eq_getElem data 0 hj).symm
  have hget : getRange data j (j + 1) = some [b] := by
    unfold getRange
    rw [if_pos ⟨by omega, by omega⟩]
    rw [show j + 1 - j = 1 from by omega, hdrop]
    rfl
  unfold substr
  rw [hget]
  dsimp only
  rw [if_pos (utf8Valid_of_ascii [b] (by intro x hx; simp at hx; omega))]

theorem textScan_no_sec (pre text : Bytes) (hpre : pre ≠ [])
    (hno : ∀ x ∈ text, (x == 124) = false) (hu : utf8Valid text = true)
    (hascii : ∀ x ∈ text, x ≤ 127) :
    ∀ u c, text = c ++ u → u ≠ [] →
      textScan (pre ++ text) pre.length (pre.length + c.length) = .ok (text, none) := by
  intro u
  induction u with
  | nil =>
    intro c _ hne
    exact absurd rfl hne
  | cons b u' ih =>
    intro c hc _
    have hpl : 0 < pre.length := List.length_pos.mpr hpre
    have hlen : (pre ++ text).length = pre.length + c.length + 1 + u'.length := by
      rw [List.length_append, hc, List.length_append]
      simp only [List.length_cons]
      omega
    rw [textScan]
    rw [dif_pos (show pre.length + c.length < (pre ++ text).length by omega)]
    cases u' with
    | nil =>
      simp only [List.length_nil] at hlen
      have hj : ((pre.length + c.length : Nat) == (pre ++ text).length - 1) = true := by
        simp only [beq_iff_eq]
        omega
      simp only [hj, if_true]
      rw [if_pos (show 0 < pre.length + c.length by omega)]
      rw [show pre.length + c.length + 1 = (pre ++ text).length by omega]
      rw [substr_suffix (pre ++ text) pre text rfl hu, DRes.bind_ok]
    | cons b2 u'' =>
      simp only [List.length_cons] at hlen
      have hne1 : ((pre.length + c.length : Nat) == (pre ++ text).length - 1) = false := by
        simp only [beq_eq_false_iff_ne, ne_eq]
        omega
      simp only [hne1, Bool.false_eq_true, if_false]
      have hsplit : pre ++ text = (pre ++ c) ++ b :: (b2 :: u'') := by
        rw [hc]
        simp
      have hb : (pre ++ text).getD (pre.length + c.length) 0 = b := by
        rw [hsplit, show pre.length + c.length = (pre ++ c).length by simp]
        exact getD_at_append _ _ _
      rw [substr_single (pre ++ text) (pre.length + c.length) b (by omega) hb
        (hascii b (by rw [hc]; simp)), DRes.bind_ok]
      have hb124 := hno b (by rw [hc]; simp)
      have hbne : (([b] : Bytes) == [124]) = false := by
        rw [beq_eq_false_iff_ne] at hb124 ⊢
        intro h0
        injection h0 with h1 _
        exact hb124 h1
      simp only [hbne, Bool.false_eq_true, if_false]
      have := ih (c ++ [b]) (by rw [hc]; simp) (by simp)
      rw [show pre.length + (c ++ [b]).length = pre.length + c.length + 1 by
        simp only [List.length_append, List.length_cons, List.length_nil]; omega] at this
      exact this

theorem textScan_sec (pre text rest : Bytes) (hpre2 : 2 ≤ pre.length)
    (hno : ∀ x ∈ text, (x == 124) = false) (hu : utf8Valid text = true)
    (hascii : ∀ x ∈ text, x ≤ 127) (hrest : rest ≠ []) :
    ∀ u c, text = c ++ u →
      textScan (pre ++ text ++ 124 :: rest) pre.length (pre.length + c.length)
        = .ok (text, some (pre.length + text.length + 1)) := by
  have hrl : 0 < rest.length := List.length_pos.mpr hrest
  intro u
  induction u with
  | nil =>
    intro c hc
    rw [List.append_nil] at hc
    subst hc
    have hlen : (pre ++ text ++ 124 :: rest).length
        = pre.length + text.length + 1 + rest.length := by
      simp only [List.length_append, List.length_cons]
      omega
    rw [textScan]
    rw [dif_pos (show pre.length + text.length < (pre ++ text ++ 124 :: rest).length
      by omega)]
    have hne1 : ((pre.length + text.length : Nat)
        == (pre ++ text ++ 124 :: rest).length - 1) = false := by
      simp only [beq_eq_false_iff_ne, ne_eq]
      omega
    simp only [hne1, Bool.false_eq_true, if_false]
    have hb : (pre ++ text ++ 124 :: rest).getD (pre.length + text.length) 0 = 124 := by
      rw [show pre.length + text.length = (pre ++ text).length by simp]
      exact getD_at_append _ _ _
    rw [substr_single (pre ++ text ++ 124 :: rest) (pre.length + text.length) 124
      (by omega) hb (by omega), DRes.bind_ok]
    simp only [beq_self_eq_true, if_true]
    have hne0 : ((pre.length + text.length : Nat) == 0) = false := by
      simp only [beq_eq_false_iff_ne, ne_eq]
      omega
    simp only [hne0, Bool.false_eq_true, if_false]
    rw [if_pos (show 0 < pre.length + text.length - 1 by omega)]
    have hsub := substr_exact (pre ++ text ++ 124 :: rest) pre text (124 :: rest)
      (by simp) hu
    rw [hsub, DRes.bind_ok]
  | cons b u' ih =>
    intro c hc
    have hlen : (pre ++ text ++ 124 :: rest).length
        = pre.length + c.length + 1 + u'.length + 1 + rest.length := by
      rw [hc]
      simp only [List.length_append, List.length_cons]
      omega
    rw [textScan]
    rw [dif_pos (show pre.length + c.length < (pre ++ text ++ 124 :: rest).length
      by omega)]
    have hne1 : ((pre.length + c.length : Nat) == (pre ++ text ++ 124 :: rest).length - 1)
        = false := by
      simp only [beq_eq_false_iff_ne, ne_eq]
      omega
    simp only [hne1, Bool.false_eq_true, if_false]
    have hsplit : pre ++ text ++ 124 :: rest
        = (pre ++ c) ++ b :: (u' ++ 124 :: rest) := by
      rw [hc]
      simp
    have hb : (pre ++ text ++ 124 :: rest).getD (pre.length + c.length) 0 = b := by
      rw [hsplit, show pre.length + c.length = (pre ++ c).length by simp]
      exact getD_at_append _ _ _
    rw [substr_single (pre ++ text ++ 124 :: rest) (pre.length + c.length) b (by omega)
      hb (hascii b (by rw [hc]; simp)), DRes.bind_ok]
    have hb124 := hno b (by rw [hc]; simp)
    have hbne : (([b] : Bytes) == [124]) = false := by
      rw [beq_eq_false_iff_ne] at hb124 ⊢
      intro h0
      injection h0 with h1 _
      exact hb124 h1
    simp only [hbne, Bool.false_eq_true, if_false]
    have := ih (c ++ [b]) (by rw [hc]; simp)
    rw [show pre.length + (c ++ [b]).length = pre.length + c.length + 1 by
      simp only [List.length_append, List.length_cons, List.length_nil]; omega] at this
    exact this

/-! ## Facts about the canonical event section list -/

theorem eventSecs_facts (e : CanonEvent) (hwf : WfEvent e = true) :
    ∀ t ∈ eventSecTriples e,
      (utf8Valid t.1 = true ∧ ∀ x ∈ t.1, (x == 124) = false)
        ∧ SecStep eventSection t.1 t.2 := by
  unfold WfEvent at hwf
  simp only [Bool.and_eq_true] at hwf
  obtain ⟨⟨⟨⟨⟨⟨⟨⟨_, hts⟩, hhost⟩, hagg⟩, hpri⟩, hsrc⟩, hety⟩, htags⟩, hcid⟩ := hwf
  intro t ht
  unfold eventSecTriples at ht
  rcases List.mem_append.mp ht with h7 | h7
  rcases List.mem_append.mp h7 with h6 | h6
  rcases List.mem_append.mp h6 with h5 | h5
  rcases List.mem_append.mp h5 with h4 | h4
  rcases List.mem_append.mp h4 with h3 | h3
  rcases List.mem_append.mp h3 with h2 | h2
  rcases List.mem_append.mp h2 with h1 | h1
  · obtain ⟨ts, ho, hteq⟩ := optPart_mem _ _ _ h1
    subst hteq
    rw [ho] at hts
    refine ⟨⟨utf8Valid_append [100, 58] _ rfl (natDigits_utf8 ts), ?_⟩,
      eventSection_timestamp ts (of_decide_eq_true hts)⟩
    intro x hx
    simp only at hx
    rcases List.mem_append.mp hx with h | h
    · simp at h
      rcases h with h | h <;> subst h <;> rfl
    · have := natDigits_bytes ts x h
      have hne : x ≠ 124 := by omega
      simp [hne]
  · obtain ⟨s, ho, hteq⟩ := optPart_mem _ _ _ h1
    subst hteq
    rw [ho] at hhost
    refine ⟨⟨utf8Valid_append [104, 58] _ rfl (strNoPipe_utf8 s hhost), ?_⟩,
      eventSection_hostname s hhost⟩
    intro x hx
    simp only at hx
    rcases List.mem_append.mp hx with h | h
    · simp at h
      rcases h with h | h <;> subst h <;> rfl
    · exact strNoPipe_no124 s hhost x h
  · obtain ⟨s, ho, hteq⟩ := optPart_mem _ _ _ h2
    subst hteq
    rw [ho] at hagg
    refine ⟨⟨utf8Valid_append [107, 58] _ rfl (strNoPipe_utf8 s hagg), ?_⟩,
      eventSection_aggKey s hagg⟩
    intro x hx
    simp only at hx
    rcases List.mem_append.mp hx with h | h
    · simp at h
      rcases h with h | h <;> subst h <;> rfl
    · exact strNoPipe_no124 s hagg x h
  · obtain ⟨s, ho, hteq⟩ := optPart_mem _ _ _ h3
    subst hteq
    rw [ho] at hpri
    refine ⟨⟨utf8Valid_append [112, 58] _ rfl (strNoPipe_utf8 s hpri), ?_⟩,
      eventSection_priority s hpri⟩
    intro x hx
    simp only at hx
    rcases List.mem_append.mp hx with h | h
    · simp at h
      rcases h with h | h <;> subst h <;> rfl
    · exact strNoPipe_no124 s hpri x h
  · obtain ⟨s, ho, hteq⟩ := optPart_mem _ _ _ h4
    subst hteq
    rw [ho] at hsrc
    refine ⟨⟨utf8Valid_append [115, 58] _ rfl (strNoPipe_utf8 s hsrc), ?_⟩,
      eventSection_source s hsrc⟩
    intro x hx
    simp only at hx
    rcases List.mem_append.mp hx with h | h
    · simp at h
      rcases h with h | h <;> subst h <;> rfl
    · exact strNoPipe_no124 s hsrc x h
  · obtain ⟨s, ho, hteq⟩ := optPart_mem _ _ _ h5
    subst hteq
    rw [ho] at hety
    refine ⟨⟨utf8Valid_append [116, 58] _ rfl (strNoPipe_utf8 s hety), ?_⟩,
      eventSection_type s hety⟩
    intro x hx
    simp only at hx
    rcases List.mem_append.mp hx with h | h
    · simp at h
      rcases h with h | h <;> subst h <;> rfl
    · exact strNoPipe_no124 s hety x h
  · obtain ⟨ts, ho, hteq⟩ := optPart_mem _ _ _ h6
    subst hteq
    rw [ho] at htags
    simp only [tagsOk, Bool.and_eq_true, List.all_eq_true] at htags
    have hne : ts ≠ [] := by
      intro h0
      rw [h0] at htags
      simp [List.isEmpty] at htags
    refine ⟨⟨utf8Valid_append [35] _ rfl
        (joinSep_utf8 44 (by omega) ts fun t htm => tagOk_utf8 t (htags.2 t htm)), ?_⟩,
      eventSection_tags ts hne fun t htm => htags.2 t htm⟩
    intro x hx
    simp only at hx
    rcases List.mem_append.mp hx with h | h
    · simp at h
      subst h
      rfl
    · exact joinSep_no44_no124 ts (fun t htm => htags.2 t htm) x h
  · obtain ⟨c, ho, hteq⟩ := optPart_mem _ _ _ h7
    subst hteq
    rw [ho] at hcid
    refine ⟨⟨utf8Valid_append [99, 58] _ rfl (strNoPipe_utf8 c hcid), ?_⟩,
      eventSection_cid c hcid⟩
    intro x hx
    simp only at hx
    rcases List.mem_append.mp hx with h | h
    · simp at h
      rcases h with h | h <;> subst h <;> rfl
    · exact strNoPipe_no124 c hcid x h

theorem eventSecs_utf8 (e : CanonEvent) (hwf : WfEvent e = true) :
    ∀ s ∈ (eventSecTriples e).map (·.1), utf8Valid s = true := by
  intro s hs
  rcases List.mem_map.mp hs with ⟨t, ht, hts⟩
  subst hts
  exact ((eventSecs_facts e hwf t ht).1).1

theorem eventSecs_no124 (e : CanonEvent) (hwf : WfEvent e = true) :
    ∀ s ∈ (eventSecTriples e).map (·.1), ∀ x ∈ s, (x == 124) = false := by
  intro s hs
  rcases List.mem_map.mp hs with ⟨t, ht, hts⟩
  subst hts
  exact ((eventSecs_facts e hwf t ht).1).2

theorem eventSecs_steps (e : CanonEvent) (hwf : WfEvent e = true) :
    ∀ t ∈ eventSecTriples e, SecStep eventSection t.1 t.2 := by
  intro t ht
  exact (eventSecs_facts e hwf t ht).2

theorem eventSecs_ne_nil (e : CanonEvent) :
    ∀ t ∈ eventSecTriples e, t.1 ≠ [] := by
  intro t ht
  unfold eventSecTriples at ht
  rcases List.mem_append.mp ht with h7 | h7
  rcases List.mem_append.mp h7 with h6 | h6
  rcases List.mem_append.mp h6 with h5 | h5
  rcases List.mem_append.mp h5 with h4 | h4
  rcases List.mem_append.mp h4 with h3 | h3
  rcases List.mem_append.mp h3 with h2 | h2
  rcases List.mem_append.mp h2 with h1 | h1
  all_goals first
    | (obtain ⟨x, _, hteq⟩ := optPart_mem _ _ _ h1; subst hteq; simp)
    | (obtain ⟨x, _, hteq⟩ := optPart_mem _ _ _ h2; subst hteq; simp)
    | (obtain ⟨x, _, hteq⟩ := optPart_mem _ _ _ h3; subst hteq; simp)
    | (obtain ⟨x, _, hteq⟩ := optPart_mem _ _ _ h4; subst hteq; simp)
    | (obtain ⟨x, _, hteq⟩ := optPart_mem _ _ _ h5; subst hteq; simp)
    | (obtain ⟨x, _, hteq⟩ := optPart_mem _ _ _ h6; subst hteq; simp)
    | (obtain ⟨x, _, hteq⟩ := optPart_mem _ _ _ h7; subst hteq; simp)

theorem unwrapRes_some {α : Type} (x : α) : unwrapRes (some x) = .ok x := rfl

theorem event_flat (e : CanonEvent) :
    optSeg e.timestamp (fun ts => [124, 100, 58] ++ natDigits ts)
      ++ optSeg e.hostname (fun s => [124, 104, 58] ++ s)
      ++ optSeg e.aggKey (fun s => [124, 107, 58] ++ s)
      ++ optSeg e.priority (fun s => [124, 112, 58] ++ s)
      ++ optSeg e.source (fun s => [124, 115, 58] ++ s)
      ++ optSeg e.etype (fun s => [124, 116, 58] ++ s)
      ++ optSeg e.tags (fun ts => [124, 35] ++ joinSep 44 ts)
      ++ optSeg e.containerId (fun cid => [124, 99, 58] ++ cid)
    = sectionsFlat ((eventSecTriples e).map (·.1)) := by
  unfold eventSecTriples
  rw [List.map_append, List.map_append, List.map_append, List.map_append,
    List.map_append, List.map_append, List.map_append]
  rw [sectionsFlat_append, sectionsFlat_append, sectionsFlat_append, sectionsFlat_append,
    sectionsFlat_append, sectionsFlat_append, sectionsFlat_append]
  rw [sectionsFlat_optPart, sectionsFlat_optPart, sectionsFlat_optPart,
    sectionsFlat_optPart, sectionsFlat_optPart, sectionsFlat_optPart,
    sectionsFlat_optPart, sectionsFlat_optPart]
  rfl

/-! ## Decoding a canonical event datagram -/

theorem decode_event_render (e : CanonEvent) (hwf : WfEvent e = true)
    (hascii : ∀ x ∈ e.text, x ≤ 127) :
    decode_event (renderEvent e) = .ok (.vobj (eventValue e)) := by
  have hw := hwf
  unfold WfEvent at hw
  simp only [Bool.and_eq_true] at hw
  obtain ⟨⟨⟨⟨⟨⟨⟨⟨⟨⟨⟨⟨⟨⟨⟨⟨h1, h2⟩, h3⟩, h4⟩, h5⟩, h6⟩, h7⟩, h8⟩, h9⟩, _⟩, _⟩, _⟩,
    _⟩, _⟩, _⟩, _⟩, _⟩ := hw
  have htlo := of_decide_eq_true h1
  have hthi := of_decide_eq_true h2
  have hxlo := of_decide_eq_true h3
  have hxhi := of_decide_eq_true h4
  have htiNo58 : ∀ b ∈ e.title, (b == 58) = false := by
    intro b hb
    have := List.all_eq_true.mp h6 b hb
    simp only [Bool.and_eq_true, Bool.not_eq_true'] at this
    exact this.1
  have htiNo124 : ∀ b ∈ e.title, (b == 124) = false := by
    intro b hb
    have := List.all_eq_true.mp h6 b hb
    simp only [Bool.and_eq_true, Bool.not_eq_true'] at this
    exact this.2
  have htxNE : e.text ≠ [] := by
    rw [Bool.not_eq_true'] at h8
    intro h0
    rw [h0] at h8
    simp [List.isEmpty] at h8
  have htxNo124 : ∀ b ∈ e.text, (b == 124) = false := by
    intro b hb
    have := List.all_eq_true.mp h9 b hb
    simp only [Bool.not_eq_true'] at this
    exact this
  have hiTb : ∀ x ∈ intRender e.tlen, 45 ≤ x ∧ x ≤ 57 := intRender_bytes e.tlen
  have hiXb : ∀ x ∈ intRender e.xlen, 45 ≤ x ∧ x ≤ 57 := intRender_bytes e.xlen
  set iT := intRender e.tlen with hiT
  set iX := intRender e.xlen with hiX
  set P := [95, 101, 123] ++ iT ++ [44] ++ iX ++ [125, 58] ++ e.title with hP
  set S := sectionsFlat ((eventSecTriples e).map (·.1)) with hS
  set data := renderEvent e with hdata
  have hd0 : data = P ++ 124 :: (e.text ++ S) := by
    rw [hdata, hP, hiT, hiX, hS, renderEvent, ← event_flat]
    simp [List.append_assoc]
  have hPno124 : ∀ x ∈ P, (x == 124) = false := by
    intro x hx
    rw [hP] at hx
    rw [beq_eq_false_iff_ne]
    rcases List.mem_append.mp hx with hc | hc
    · rcases List.mem_append.mp hc with hd | hd
      · rcases List.mem_append.mp hd with he | he
        · rcases List.mem_append.mp he with hf | hf
          · rcases List.mem_append.mp hf with hg | hg
            · simp at hg
              rcases hg with h | h | h <;> omega
            · have := hiTb x hg
              omega
          · simp at hf
            omega
        · have := hiXb x he
          omega
      · simp at hd
        rcases hd with h | h <;> omega
    · exact beq_eq_false_iff_ne.mp (htiNo124 x hc)
  have hscan0 : scanIdx (fun b => b == 124) data = some P.length := by
    rw [hd0]
    exact scanIdx_first P 124 _ hPno124 rfl
  unfold decode_event
  rw [hscan0]
  dsimp only
  have hAb : ∀ b ∈ ([123] ++ iT ++ [44] ++ iX ++ [125, 58] : Bytes), b ≤ 127 := by
    intro b hb
    rcases List.mem_append.mp hb with hc | hc
    · rcases List.mem_append.mp hc with hd | hd
      · rcases List.mem_append.mp hd with he | he
        · rcases List.mem_append.mp he with hf | hf
          · simp at hf
            omega
          · have := hiTb b hf
            omega
        · simp at he
          omega
      · have := hiXb b hd
        omega
    · simp at hc
      rcases hc with h | h <;> omega
  have hpieceU : utf8Valid ([123] ++ iT ++ [44] ++ iX ++ [125, 58] ++ e.title) = true :=
    utf8Valid_append _ _ (utf8Valid_of_ascii _ hAb) h5
  have hdp : data = [95, 101] ++ ([123] ++ iT ++ [44] ++ iX ++ [125, 58] ++ e.title)
      ++ (124 :: (e.text ++ S)) := by
    rw [hd0, hP]
    simp [List.append_assoc]
  have hlenP : P.length
      = 2 + ([123] ++ iT ++ [44] ++ iX ++ [125, 58] ++ e.title : Bytes).length := by
    rw [hP]
    simp only [List.length_append, List.length_cons, List.length_nil]
    omega
  have hsubpre := substr_exact data [95, 101] _ _ hdp hpieceU
  rw [show (([95, 101] : Bytes)).length = 2 from rfl] at hsubpre
  rw [← hlenP] at hsubpre
  rw [hsubpre, DRes.bind_ok]
  try dsimp only
  have hno58A : ∀ x ∈ ([123] ++ iT ++ [44] ++ iX ++ [125] : Bytes), (x == 58) = false := by
    intro x hx
    rw [beq_eq_false_iff_ne]
    rcases List.mem_append.mp hx with hc | hc
    · rcases List.mem_append.mp hc with hd | hd
      · rcases List.mem_append.mp hd with he | he
        · rcases List.mem_append.mp he with hf | hf
          · simp at hf
            omega
          · have := hiTb x hf
            omega
        · simp at he
          omega
      · have := hiXb x hd
        omega
    · simp at hc
      omega
  have hsplit58 : splitByte 58 ([123] ++ iT ++ [44] ++ iX ++ [125, 58] ++ e.title)
      = [[123] ++ iT ++ [44] ++ iX ++ [125], e.title] := by
    have hre : ([123] ++ iT ++ [44] ++ iX ++ [125, 58] ++ e.title : Bytes)
        = ([123] ++ iT ++ [44] ++ iX ++ [125]) ++ 58 :: e.title := by
      simp [List.append_assoc]
    rw [hre, splitByte_sep_append 58 _ _ hno58A, splitByte_no_sep 58 _ htiNo58]
  rw [hsplit58, vecIndex_zero, DRes.bind_ok]
  try dsimp only
  have hsplit44 : splitByte 44 ([123] ++ iT ++ [44] ++ iX ++ [125] : Bytes)
      = [[123] ++ iT, iX ++ [125]] := by
    have hre2 : ([123] ++ iT ++ [44] ++ iX ++ [125] : Bytes)
        = ([123] ++ iT) ++ 44 :: (iX ++ [125]) := by
      simp [List.append_assoc]
    have hnoA : ∀ x ∈ ([123] ++ iT : Bytes), (x == 44) = false := by
      intro x hx
      rw [beq_eq_false_iff_ne]
      rcases List.mem_append.mp hx with hc | hc
      · simp at hc
        omega
      · have := hiTb x hc
        omega
    have hnoB : ∀ x ∈ (iX ++ [125] : Bytes), (x == 44) = false := by
      intro x hx
      rw [beq_eq_false_iff_ne]
      rcases List.mem_append.mp hx with hc | hc
      · have := hiXb x hc
        omega
      · simp at hc
        omega
    rw [hre2, splitByte_sep_append 44 _ _ hnoA, splitByte_no_sep 44 _ hnoB]
  rw [hsplit44, vecIndex_zero, DRes.bind_ok]
  try dsimp only
  have hslice1 : sliceFrom ([123] ++ iT) 1 = .ok iT :=
    sliceFrom_sig1 123 iT (headD_not_cont_of_bytes iT fun b hb => by
      have := hiTb b hb; omega)
  rw [hslice1, DRes.bind_ok]
  try dsimp only
  rw [show parseI32 iT = some e.tlen from by
    rw [hiT]; exact intRender_parseI32 e.tlen htlo hthi]
  rw [unwrapRes_some, DRes.bind_ok]
  try dsimp only
  rw [vecIndex_one, DRes.bind_ok]
  try dsimp only
  rw [show ((iX ++ [125] : Bytes).isEmpty) = false from by simp]
  simp only [Bool.false_eq_true, if_false]
  rw [slicePre_append_last iX 125 rfl, DRes.bind_ok]
  try dsimp only
  rw [show parseI32 iX = some e.xlen from by
    rw [hiX]; exact intRender_parseI32 e.xlen hxlo hxhi]
  rw [unwrapRes_some, DRes.bind_ok]
  try dsimp only
  rw [vecIndex_one, DRes.bind_ok]
  try dsimp only
  rcases hTS : eventSecTriples e with _ | ⟨t, ts'⟩
  · have hd2 : data = (P ++ [124]) ++ e.text := by
      rw [hd0, hS, hTS]
      simp [sectionsFlat]
    have htxt := textScan_no_sec (P ++ [124]) e.text (by simp) htxNo124 h7 hascii
      e.text [] (by simp) htxNE
    rw [← hd2] at htxt
    simp only [List.length_append, List.length_cons, List.length_nil, Nat.add_zero,
      Nat.zero_add] at htxt
    rw [htxt, DRes.bind_ok]
    try dsimp only
    rw [eventValue, hTS]
    rfl
  · have ht1ne : t.1 ≠ [] := eventSecs_ne_nil e t (by rw [hTS]; simp)
    have hd2 : data = (P ++ [124]) ++ e.text
        ++ 124 :: (t.1 ++ sectionsFlat (ts'.map (·.1))) := by
      rw [hd0, hS, hTS]
      simp [sectionsFlat]
    have hrest : t.1 ++ sectionsFlat (ts'.map (·.1)) ≠ [] := by
      intro h0
      exact ht1ne (List.append_eq_nil.mp h0).1
    have hplen2 : 2 ≤ (P ++ [124] : Bytes).length := by
      rw [hP]
      simp only [List.length_append, List.length_cons, List.length_nil]
      omega
    have htxt := textScan_sec (P ++ [124]) e.text _ hplen2 htxNo124 h7 hascii hrest
      e.text [] (by simp)
    rw [← hd2] at htxt
    simp only [List.length_append, List.length_cons, List.length_nil, Nat.add_zero,
      Nat.zero_add] at htxt
    rw [htxt, DRes.bind_ok]
    try dsimp only
    have hd3 : data = (P ++ 124 :: e.text ++ [124])
        ++ (t.1 ++ sectionsFlat (ts'.map (·.1))) := by
      rw [hd2]
      simp
    have hsecU : utf8Valid (t.1 ++ sectionsFlat (ts'.map (·.1))) = true := by
      apply utf8Valid_append
      · exact eventSecs_utf8 e hwf t.1
          (by rw [hTS]; simp only [List.map_cons, List.mem_cons]; exact Or.inl trivial)
      · apply sectionsFlat_utf8
        intro s hs
        refine eventSecs_utf8 e hwf s ?_
        rw [hTS]
        simp only [List.map_cons, List.mem_cons]
        exact Or.inr hs
    have hsub2 := substr_suffix data _ _ hd3 hsecU
    rw [show ((P ++ 124 :: e.text ++ [124] : Bytes)).length
        = P.length + 1 + e.text.length + 1 from by
      simp only [List.length_append, List.length_cons, List.length_nil]
      omega] at hsub2
    rw [hsub2, DRes.bind_ok]
    try dsimp only
    have hano : ∀ x ∈ t.1, (x == 124) = false :=
      eventSecs_no124 e hwf t.1
        (by rw [hTS]; simp only [List.map_cons, List.mem_cons]; exact Or.inl trivial)
    have hbno : ∀ s ∈ ts'.map (·.1), ∀ x ∈ s, (x == 124) = false := by
      intro s hs
      refine eventSecs_no124 e hwf s ?_
      rw [hTS]
      simp only [List.map_cons, List.mem_cons]
      exact Or.inr hs
    rw [splitByte_flat t.1 (ts'.map (·.1)) hano hbno]
    have hmap : t.1 :: ts'.map (·.1) = (eventSecTriples e).map (·.1) := by
      rw [hTS]
      simp
    rw [hmap]
    rw [runSections_steps eventSection (eventSecTriples e) (eventSecs_steps e hwf) _]
    rw [DRes.bind_ok]
    rfl

/-! ## Encoding the decoded event value -/

theorem eventKVs_keys (e : CanonEvent) (p : String × DVal)
    (hp : p ∈ (eventSecTriples e).map (·.2)) :
    p.1 = "timestamp" ∨ p.1 = "hostname" ∨ p.1 = "aggregation_key" ∨ p.1 = "priority"
      ∨ p.1 = "source" ∨ p.1 = "type" ∨ p.1 = "tags" ∨ p.1 = "container_id" := by
  unfold eventSecTriples at hp
  rw [List.map_append, List.map_append, List.map_append, List.map_append,
    List.map_append, List.map_append, List.map_append] at hp
  rcases List.mem_append.mp hp with h7 | h7
  rcases List.mem_append.mp h7 with h6 | h6
  rcases List.mem_append.mp h6 with h5 | h5
  rcases List.mem_append.mp h5 with h4 | h4
  rcases List.mem_append.mp h4 with h3 | h3
  rcases List.mem_append.mp h3 with h2 | h2
  rcases List.mem_append.mp h2 with h1 | h1
  · exact Or.inl (optPart_map2_keys _ _ _ p h1 (fun _ => rfl))
  · exact Or.inr (Or.inl (optPart_map2_keys _ _ _ p h1 (fun _ => rfl)))
  · exact Or.inr (Or.inr (Or.inl (optPart_map2_keys _ _ _ p h2 (fun _ => rfl))))
  · exact Or.inr (Or.inr (Or.inr (Or.inl (optPart_map2_keys _ _ _ p h3 (fun _ => rfl)))))
  · exact Or.inr (Or.inr (Or.inr (Or.inr (Or.inl
      (optPart_map2_keys _ _ _ p h4 (fun _ => rfl))))))
  · exact Or.inr (Or.inr (Or.inr (Or.inr (Or.inr (Or.inl
      (optPart_map2_keys _ _ _ p h5 (fun _ => rfl)))))))
  · exact Or.inr (Or.inr (Or.inr (Or.inr (Or.inr (Or.inr (Or.inl
      (optPart_map2_keys _ _ _ p h6 (fun _ => rfl))))))))
  · exact Or.inr (Or.inr (Or.inr (Or.inr (Or.inr (Or.inr (Or.inr
      (optPart_map2_keys _ _ _ p h7 (fun _ => rfl))))))))

theorem eventKVs_ne (e : CanonEvent) (k : String)
    (n1 : k ≠ "timestamp") (n2 : k ≠ "hostname") (n3 : k ≠ "aggregation_key")
    (n4 : k ≠ "priority") (n5 : k ≠ "source") (n6 : k ≠ "type") (n7 : k ≠ "tags")
    (n8 : k ≠ "container_id") :
    ∀ p ∈ (eventSecTriples e).map (·.2), p.1 ≠ k := by
  intro p hp
  rcases eventKVs_keys e p hp with h | h | h | h | h | h | h | h <;> rw [h]
  · exact fun he => n1 he.symm
  · exact fun he => n2 he.symm
  · exact fun he => n3 he.symm
  · exact fun he => n4 he.symm
  · exact fun he => n5 he.symm
  · exact fun he => n6 he.symm
  · exact fun he => n7 he.symm
  · exact fun he => n8 he.symm

theorem evGetDTV (e : CanonEvent) :
    (DVal.vobj (eventValue e)).get "dogstatsd_type"
      = some (DVal.vstr (litBytes "event")) := by
  unfold DVal.get eventValue
  dsimp only
  rw [objGet_insKVs_ne _ _ _ (eventKVs_ne e "dogstatsd_type" (by decide) (by decide)
    (by decide) (by decide) (by decide) (by decide) (by decide) (by decide))]
  rfl

theorem evGetTitleV (e : CanonEvent) :
    (DVal.vobj (eventValue e)).get "title" = some (DVal.vstr e.title) := by
  unfold DVal.get eventValue
  dsimp only
  rw [objGet_insKVs_ne _ _ _ (eventKVs_ne e "title" (by decide) (by decide)
    (by decide) (by decide) (by decide) (by decide) (by decide) (by decide))]
  rfl

theorem evGetTlenV (e : CanonEvent) :
    (DVal.vobj (eventValue e)).get "title_length" = some (DVal.vi32 e.tlen) := by
  unfold DVal.get eventValue
  dsimp only
  rw [objGet_insKVs_ne _ _ _ (eventKVs_ne e "title_length" (by decide) (by decide)
    (by decide) (by decide) (by decide) (by decide) (by decide) (by decide))]
  rfl

theorem evGetXlenV (e : CanonEvent) :
    (DVal.vobj (eventValue e)).get "text_length" = some (DVal.vi32 e.xlen) := by
  unfold DVal.get eventValue
  dsimp only
  rw [objGet_insKVs_ne _ _ _ (eventKVs_ne e "text_length" (by decide) (by decide)
    (by decide) (by decide) (by decide) (by decide) (by decide) (by decide))]
  rfl

theorem evGetTextV (e : CanonEvent) :
    (DVal.vobj (eventValue e)).get "text" = some (DVal.vstr e.text) := by
  unfold DVal.get eventValue
  dsimp only
  rw [objGet_insKVs_ne _ _ _ (eventKVs_ne e "text" (by decide) (by decide)
    (by decide) (by decide) (by decide) (by decide) (by decide) (by decide))]
  rfl

theorem evGetTimestampV (e : CanonEvent) :
    (DVal.vobj (eventValue e)).get "timestamp"
      = Option.map DVal.vu32 e.timestamp := by
  unfold DVal.get eventValue eventSecTriples
  dsimp only
  rw [List.map_append, List.map_append, List.map_append, List.map_append,
    List.map_append, List.map_append, List.map_append]
  rw [insKVs_append, insKVs_append, insKVs_append, insKVs_append,
    insKVs_append, insKVs_append, insKVs_append]
  rw [objGet_insKVs_ne _ _ _ (fun p hp => by
    rw [optPart_map2_keys _ _ _ p hp (fun _ => rfl)]; decide)]
  rw [objGet_insKVs_ne _ _ _ (fun p hp => by
    rw [optPart_map2_keys _ _ _ p hp (fun _ => rfl)]; decide)]
  rw [objGet_insKVs_ne _ _ _ (fun p hp => by
    rw [optPart_map2_keys _ _ _ p hp (fun _ => rfl)]; decide)]
  rw [objGet_insKVs_ne _ _ _ (fun p hp => by
    rw [optPart_map2_keys _ _ _ p hp (fun _ => rfl)]; decide)]
  rw [objGet_insKVs_ne _ _ _ (fun p hp => by
    rw [optPart_map2_keys _ _ _ p hp (fun _ => rfl)]; decide)]
  rw [objGet_insKVs_ne _ _ _ (fun p hp => by
    rw [optPart_map2_keys _ _ _ p hp (fun _ => rfl)]; decide)]
  rw [objGet_insKVs_ne _ _ _ (fun p hp => by
    rw [optPart_map2_keys _ _ _ p hp (fun _ => rfl)]; decide)]
  cases e.timestamp with
  | none =>
    rw [objGet_insKVs_ne _ _ _ (fun p hp => by simp [optPart] at hp)]
    rfl
  | some x =>
    simp only [optPart, List.map_cons, List.map_nil, insKVs_single]
    rw [objGet_objInsert_self]
    rfl

theorem evGetHostnameV (e : CanonEvent) :
    (DVal.vobj (eventValue e)).get "hostname"
      = Option.map DVal.vstr e.hostname := by
  unfold DVal.get eventValue eventSecTriples
  dsimp only
  rw [List.map_append, List.map_append, List.map_append, List.map_append,
    List.map_append, List.map_append, List.map_append]
  rw [insKVs_append, insKVs_append, insKVs_append, insKVs_append,
    insKVs_append, insKVs_append, insKVs_append]
  rw [objGet_insKVs_ne _ _ _ (fun p hp => by
    rw [optPart_map2_keys _ _ _ p hp (fun _ => rfl)]; decide)]
  rw [objGet_insKVs_ne _ _ _ (fun p hp => by
    rw [optPart_map2_keys _ _ _ p hp (fun _ => rfl)]; decide)]
  rw [objGet_insKVs_ne _ _ _ (fun p hp => by
    rw [optPart_map2_keys _ _ _ p hp (fun _ => rfl)]; decide)]
  rw [objGet_insKVs_ne _ _ _ (fun p hp => by
    rw [optPart_map2_keys _ _ _ p hp (fun _ => rfl)]; decide)]
  rw [objGet_insKVs_ne _ _ _ (fun p hp => by
    rw [optPart_map2_keys _ _ _ p hp (fun _ => rfl)]; decide)]
  rw [objGet_insKVs_ne _ _ _ (fun p hp => by
    rw [optPart_map2_keys _ _ _ p hp (fun _ => rfl)]; decide)]
  cases e.hostname with
  | none =>
    rw [objGet_insKVs_ne _ _ _ (fun p hp => by simp [optPart] at hp)]
    rw [objGet_insKVs_ne _ _ _ (fun p hp => by
      rw [optPart_map2_keys _ _ _ p hp (fun _ => rfl)]; decide)]
    rfl
  | some x =>
    simp only [optPart, List.map_cons, List.map_nil, insKVs_single]
    rw [objGet_objInsert_self]
    rfl

theorem evGetAggKeyV (e : CanonEvent) :
    (DVal.vobj (eventValue e)).get "aggregation_key"
      = Option.map DVal.vstr e.aggKey := by
  unfold DVal.get eventValue eventSecTriples
  dsimp only
  rw [List.map_append, List.map_append, List.map_append, List.map_append,
    List.map_append, List.map_append, List.map_append]
  rw [insKVs_append, insKVs_append, insKVs_append, insKVs_append,
    insKVs_append, insKVs_append, insKVs_append]
  rw [objGet_insKVs_ne _ _ _ (fun p hp => by
    rw [optPart_map2_keys _ _ _ p hp (fun _ => rfl)]; decide)]
  rw [objGet_insKVs_ne _ _ _ (fun p hp => by
    rw [optPart_map2_keys _ _ _ p hp (fun _ => rfl)]; decide)]
  rw [objGet_insKVs_ne _ _ _ (fun p hp => by
    rw [optPart_map2_keys _ _ _ p hp (fun _ => rfl)]; decide)]
  rw [objGet_insKVs_ne _ _ _ (fun p hp => by
    rw [optPart_map2_keys _ _ _ p hp (fun _ => rfl)]; decide)]
  rw [objGet_insKVs_ne _ _ _ (fun p hp => by
    rw [optPart_map2_keys _ _ _ p hp (fun _ => rfl)]; decide)]
  cases e.aggKey with
  | none =>
    rw [objGet_insKVs_ne _ _ _ (fun p hp => by simp [optPart] at hp)]
    rw [objGet_insKVs_ne _ _ _ (fun p hp => by
      rw [optPart_map2_keys _ _ _ p hp (fun _ => rfl)]; decide)]
    rw [objGet_insKVs_ne _ _ _ (fun p hp => by
      rw [optPart_map2_keys _ _ _ p hp (fun _ => rfl)]; decide)]
    rfl
  | some x =>
    simp only [optPart, List.map_cons, List.map_nil, insKVs_single]
    rw [objGet_objInsert_self]
    rfl

theorem evGetPriorityV (e : CanonEvent) :
    (DVal.vobj (eventValue e)).get "priority"
      = Option.map DVal.vstr e.priority := by
  unfold DVal.get eventValue eventSecTriples
  dsimp only
  rw [List.map_append, List.map_append, List.map_append, List.map_append,
    List.map_append, List.map_append, List.map_append]
  rw [insKVs_append, insKVs_append, insKVs_append, insKVs_append,
    insKVs_append, insKVs_append, insKVs_append]
  rw [objGet_insKVs_ne _ _ _ (fun p hp => by
    rw [optPart_map2_keys _ _ _ p hp (fun _ => rfl)]; decide)]
  rw [objGet_insKVs_ne _ _ _ (fun p hp => by
    rw [optPart_map2_keys _ _ _ p hp (fun _ => rfl)]; decide)]
  rw [objGet_insKVs_ne _ _ _ (fun p hp => by
    rw [optPart_map2_keys _ _ _ p hp (fun _ => rfl)]; decide)]
  rw [objGet_insKVs_ne _ _ _ (fun p hp => by
    rw [optPart_map2_keys _ _ _ p hp (fun _ => rfl)]; decide)]
  cases e.priority with
  | none =>
    rw [objGet_insKVs_ne _ _ _ (fun p hp => by simp [optPart] at hp)]
    rw [objGet_insKVs_ne _ _ _ (fun p hp => by
      rw [optPart_map2_keys _ _ _ p hp (fun _ => rfl)]; decide)]
    rw [objGet_insKVs_ne _ _ _ (fun p hp => by
      rw [optPart_map2_keys _ _ _ p hp (fun _ => rfl)]; decide)]
    rw [objGet_insKVs_ne _ _ _ (fun p hp => by
      rw [optPart_map2_keys _ _ _ p hp (fun _ => rfl)]; decide)]
    rfl
  | some x =>
    simp only [optPart, List.map_cons, List.map_nil, insKVs_single]
    rw [objGet_objInsert_self]
    rfl

theorem evGetSourceV (e : CanonEvent) :
    (DVal.vobj (eventValue e)).get "source"
      = Option.map DVal.vstr e.source := by
  unfold DVal.get eventValue eventSecTriples
  dsimp only
  rw [List.map_append, List.map_append, List.map_append, List.map_append,
    List.map_append, List.map_append, List.map_append]
  rw [insKVs_append, insKVs_append, insKVs_append, insKVs_append,
    insKVs_append, insKVs_append, insKVs_append]
  rw [objGet_insKVs_ne _ _ _ (fun p hp => by
    rw [optPart_map2_keys _ _ _ p hp (fun _ => rfl)]; decide)]
  rw [objGet_insKVs_ne _ _ _ (fun p hp => by
    rw [optPart_map2_keys _ _ _ p hp (fun _ => rfl)]; decide)]
  rw [objGet_insKVs_ne _ _ _ (fun p hp => by
    rw [optPart_map2_keys _ _ _ p hp (fun _ => rfl)]; decide)]
  cases e.source with
  | none =>
    rw [objGet_insKVs_ne _ _ _ (fun p hp => by simp [optPart] at hp)]
    rw [objGet_insKVs_ne _ _ _ (fun p hp => by
      rw [optPart_map2_keys _ _ _ p hp (fun _ => rfl)]; decide)]
    rw [objGet_insKVs_ne _ _ _ (fun p hp => by
      rw [optPart_map2_keys _ _ _ p hp (fun _ => rfl)]; decide)]
    rw [objGet_insKVs_ne _ _ _ (fun p hp => by
      rw [optPart_map2_keys _ _ _ p hp (fun _ => rfl)]; decide)]
    rw [objGet_insKVs_ne _ _ _ (fun p hp => by
      rw [optPart_map2_keys _ _ _ p hp (fun _ => rfl)]; decide)]
    rfl
  | some x =>
    simp only [optPart, List.map_cons, List.map_nil, insKVs_single]
    rw [objGet_objInsert_self]
    rfl

theorem evGetEtypeV (e : CanonEvent) :
    (DVal.vobj (eventValue e)).get "type"
      = Option.map DVal.vstr e.etype := by
  unfold DVal.get eventValue eventSecTriples
  dsimp only
  rw [List.map_append, List.map_append, List.map_append, List.map_append,
    List.map_append, List.map_append, List.map_append]
  rw [insKVs_append, insKVs_append, insKVs_append, insKVs_append,
    insKVs_append, insKVs_append, insKVs_append]
  rw [objGet_insKVs_ne _ _ _ (fun p hp => by
    rw [optPart_map2_keys _ _ _ p hp (fun _ => rfl)]; decide)]
  rw [objGet_insKVs_ne _ _ _ (fun p hp => by
    rw [optPart_map2_keys _ _ _ p hp (fun _ => rfl)]; decide)]
  cases e.etype with
  | none =>
    rw [objGet_insKVs_ne _ _ _ (fun p hp => by simp [optPart] at hp)]
    rw [objGet_insKVs_ne _ _ _ (fun p hp => by
      rw [optPart_map2_keys _ _ _ p hp (fun _ => rfl)]; decide)]
    rw [objGet_insKVs_ne _ _ _ (fun p hp => by
      rw [optPart_map2_keys _ _ _ p hp (fun _ => rfl)]; decide)]
    rw [objGet_insKVs_ne _ _ _ (fun p hp => by
      rw [optPart_map2_keys _ _ _ p hp (fun _ => rfl)]; decide)]
    rw [objGet_insKVs_ne _ _ _ (fun p hp => by
      rw [optPart_map2_keys _ _ _ p hp (fun _ => rfl)]; decide)]
    rw [objGet_insKVs_ne _ _ _ (fun p hp => by
      rw [optPart_map2_keys _ _ _ p hp (fun _ => rfl)]; decide)]
    rfl
  | some x =>
    simp only [optPart, List.map_cons, List.map_nil, insKVs_single]
    rw [objGet_objInsert_self]
    rfl

theorem evGetTagsV (e : CanonEvent) :
    (DVal.vobj (eventValue e)).get "tags"
      = Option.map (fun ts => DVal.varr (ts.map DVal.vstr)) e.tags := by
  unfold DVal.get eventValue eventSecTriples
  dsimp only
  rw [List.map_append, List.map_append, List.map_append, List.map_append,
    List.map_append, List.map_append, List.map_append]
  rw [insKVs_append, insKVs_append, insKVs_append, insKVs_append,
    insKVs_append, insKVs_append, insKVs_append]
  rw [objGet_insKVs_ne _ _ _ (fun p hp => by
    rw [optPart_map2_keys _ _ _ p hp (fun _ => rfl)]; decide)]
  cases e.tags with
  | none =>
    rw [objGet_insKVs_ne _ _ _ (fun p hp => by simp [optPart] at hp)]
    rw [objGet_insKVs_ne _ _ _ (fun p hp => by
      rw [optPart_map2_keys _ _ _ p hp (fun _ => rfl)]; decide)]
    rw [objGet_insKVs_ne _ _ _ (fun p hp => by
      rw [optPart_map2_keys _ _ _ p hp (fun _ => rfl)]; decide)]
    rw [objGet_insKVs_ne _ _ _ (fun p hp => by
      rw [optPart_map2_keys _ _ _ p hp (fun _ => rfl)]; decide)]
    rw [objGet_insKVs_ne _ _ _ (fun p hp => by
      rw [optPart_map2_keys _ _ _ p hp (fun _ => rfl)]; decide)]
    rw [objGet_insKVs_ne _ _ _ (fun p hp => by
      rw [optPart_map2_keys _ _ _ p hp (fun _ => rfl)]; decide)]
    rw [objGet_insKVs_ne _ _ _ (fun p hp => by
      rw [optPart_map2_keys _ _ _ p hp (fun _ => rfl)]; decide)]
    rfl
  | some x =>
    simp only [optPart, List.map_cons, List.map_nil, insKVs_single]
    rw [objGet_objInsert_self]
    rfl

theorem evGetCidV (e : CanonEvent) :
    (DVal.vobj (eventValue e)).get "container_id"
      = Option.map DVal.vstr e.containerId := by
  unfold DVal.get eventValue eventSecTriples
  dsimp only
  rw [List.map_append, List.map_append, List.map_append, List.map_append,
    List.map_append, List.map_append, List.map_append]
  rw [insKVs_append, insKVs_append, insKVs_append, insKVs_append,
    insKVs_append, insKVs_append, insKVs_append]
  cases e.containerId with
  | none =>
    rw [objGet_insKVs_ne _ _ _ (fun p hp => by simp [optPart] at hp)]
    rw [objGet_insKVs_ne _ _ _ (fun p hp => by
      rw [optPart_map2_keys _ _ _ p hp (fun _ => rfl)]; decide)]
    rw [objGet_insKVs_ne _ _ _ (fun p hp => by
      rw [optPart_map2_keys _ _ _ p hp (fun _ => rfl)]; decide)]
    rw [objGet_insKVs_ne _ _ _ (fun p hp => by
      rw [optPart_map2_keys _ _ _ p hp (fun _ => rfl)]; decide)]
    rw [objGet_insKVs_ne _ _ _ (fun p hp => by
      rw [optPart_map2_keys _ _ _ p hp (fun _ => rfl)]; decide)]
    rw [objGet_insKVs_ne _ _ _ (fun p hp => by
      rw [optPart_map2_keys _ _ _ p hp (fun _ => rfl)]; decide)]
    rw [objGet_insKVs_ne _ _ _ (fun p hp => by
      rw [optPart_map2_keys _ _ _ p hp (fun _ => rfl)]; decide)]
    rw [objGet_insKVs_ne _ _ _ (fun p hp => by
      rw [optPart_map2_keys _ _ _ p hp (fun _ => rfl)]; decide)]
    rfl
  | some x =>
    simp only [optPart, List.map_cons, List.map_nil, insKVs_single]
    rw [objGet_objInsert_self]
    rfl

theorem evGetDT (e : CanonEvent) :
    (DVal.vobj (eventValue e)).getStr "dogstatsd_type" = some (litBytes "event") := by
  unfold DVal.getStr
  rw [evGetDTV]

theorem evGetTitle (e : CanonEvent) :
    (DVal.vobj (eventValue e)).getStr "title" = some e.title := by
  unfold DVal.getStr
  rw [evGetTitleV]

theorem evGetTlen (e : CanonEvent) :
    (DVal.vobj (eventValue e)).getI32 "title_length" = some e.tlen := by
  unfold DVal.getI32
  rw [evGetTlenV]

theorem evGetXlen (e : CanonEvent) :
    (DVal.vobj (eventValue e)).getI32 "text_length" = some e.xlen := by
  unfold DVal.getI32
  rw [evGetXlenV]

theorem evGetText (e : CanonEvent) :
    (DVal.vobj (eventValue e)).getStr "text" = some e.text := by
  unfold DVal.getStr
  rw [evGetTextV]

theorem evGetTimestamp (e : CanonEvent) :
    (DVal.vobj (eventValue e)).getU32 "timestamp" = e.timestamp := by
  unfold DVal.getU32
  rw [evGetTimestampV]
  cases e.timestamp with
  | none => rfl
  | some x => rfl

theorem evGetHostname (e : CanonEvent) :
    (DVal.vobj (eventValue e)).getStr "hostname" = e.hostname := by
  unfold DVal.getStr
  rw [evGetHostnameV]
  cases e.hostname with
  | none => rfl
  | some x => rfl

theorem evGetAggKey (e : CanonEvent) :
    (DVal.vobj (eventValue e)).getStr "aggregation_key" = e.aggKey := by
  unfold DVal.getStr
  rw [evGetAggKeyV]
  cases e.aggKey with
  | none => rfl
  | some x => rfl

theorem evGetPriority (e : CanonEvent) :
    (DVal.vobj (eventValue e)).getStr "priority" = e.priority := by
  unfold DVal.getStr
  rw [evGetPriorityV]
  cases e.priority with
  | none => rfl
  | some x => rfl

theorem evGetSource (e : CanonEvent) :
    (DVal.vobj (eventValue e)).getStr "source" = e.source := by
  unfold DVal.getStr
  rw [evGetSourceV]
  cases e.source with
  | none => rfl
  | some x => rfl

theorem evGetEtype (e : CanonEvent) :
    (DVal.vobj (eventValue e)).getStr "type" = e.etype := by
  unfold DVal.getStr
  rw [evGetEtypeV]
  cases e.etype with
  | none => rfl
  | some x => rfl

theorem evGetCid (e : CanonEvent) :
    (DVal.vobj (eventValue e)).getStr "container_id" = e.containerId := by
  unfold DVal.getStr
  rw [evGetCidV]
  cases e.containerId with
  | none => rfl
  | some x => rfl

theorem evGetTagsArr (e : CanonEvent) :
    (DVal.vobj (eventValue e)).getArr "tags"
      = Option.map (fun ts => ts.map DVal.vstr) e.tags := by
  unfold DVal.getArr
  rw [evGetTagsV]
  cases e.tags with
  | none => rfl
  | some ts => rfl

theorem evTagsSeg (e : CanonEvent) :
    tagsSegRes (DVal.vobj (eventValue e))
      = .ok (optSeg e.tags (fun ts => [124, 35] ++ joinSep 44 ts)) := by
  unfold tagsSegRes
  rw [evGetTagsArr]
  cases e.tags with
  | none => rfl
  | some ts =>
    show (tagStrs (ts.map DVal.vstr)).bind (fun xs => .ok ([124, 35] ++ joinSep 44 xs))
      = .ok (optSeg (some ts) (fun ts => [124, 35] ++ joinSep 44 ts))
    rw [tagStrs_map]
    rfl

theorem encode_event_value (e : CanonEvent) :
    encode_event (DVal.vobj (eventValue e)) = .ok (renderEvent e) := by
  unfold encode_event
  rw [evGetTitle, evGetTlen, evGetText, evGetXlen]
  dsimp only
  rw [evTagsSeg, DRes.bind_ok]
  rw [evGetTimestamp, evGetHostname, evGetAggKey, evGetPriority, evGetSource,
    evGetEtype, evGetCid, renderEvent]

/-! ## Facts about the canonical service-check section list -/

theorem sc_flat (s : CanonSC) :
    optSeg s.timestamp (fun ts => [124, 100, 58] ++ natDigits ts)
      ++ optSeg s.hostname (fun h => [124, 104, 58] ++ h)
      ++ optSeg s.tags (fun ts => [124, 35] ++ joinSep 44 ts)
      ++ optSeg s.message (fun msg => [124, 109, 58] ++ msg)
      ++ optSeg s.containerId (fun cid => [124, 99, 58] ++ cid)
    = sectionsFlat ((scSecTriples s).map (·.1)) := by
  unfold scSecTriples
  rw [List.map_append, List.map_append, List.map_append, List.map_append]
  rw [sectionsFlat_append, sectionsFlat_append, sectionsFlat_append, sectionsFlat_append]
  rw [sectionsFlat_optPart, sectionsFlat_optPart, sectionsFlat_optPart,
    sectionsFlat_optPart, sectionsFlat_optPart]
  rfl

theorem scSecs_facts (s : CanonSC) (hwf : WfSC s = true) :
    ∀ t ∈ scSecTriples s,
      (utf8Valid t.1 = true ∧ ∀ x ∈ t.1, (x == 124) = false)
        ∧ SecStep scSection t.1 t.2 := by
  unfold WfSC at hwf
  simp only [Bool.and_eq_true] at hwf
  obtain ⟨⟨⟨⟨⟨_, hts⟩, hhost⟩, htags⟩, hmsg⟩, hcid⟩ := hwf
  intro t ht
  unfold scSecTriples at ht
  rcases List.mem_append.mp ht with h4 | h4
  rcases List.mem_append.mp h4 with h3 | h3
  rcases List.mem_append.mp h3 with h2 | h2
  rcases List.mem_append.mp h2 with h1 | h1
  · obtain ⟨ts, ho, hteq⟩ := optPart_mem _ _ _ h1
    subst hteq
    rw [ho] at hts
    refine ⟨⟨utf8Valid_append [100, 58] _ rfl (natDigits_utf8 ts), ?_⟩,
      scSection_timestamp ts (of_decide_eq_true hts)⟩
    intro x hx
    simp only at hx
    rcases List.mem_append.mp hx with h | h
    · simp at h
      rcases h with h | h <;> subst h <;> rfl
    · have := natDigits_bytes ts x h
      have hne : x ≠ 124 := by omega
      simp [hne]
  · obtain ⟨v, ho, hteq⟩ := optPart_mem _ _ _ h1
    subst hteq
    rw [ho] at hhost
    refine ⟨⟨utf8Valid_append [104, 58] _ rfl (strNoPipe_utf8 v hhost), ?_⟩,
      scSection_hostname v hhost⟩
    intro x hx
    simp only at hx
    rcases List.mem_append.mp hx with h | h
    · simp at h
      rcases h with h | h <;> subst h <;> rfl
    · exact strNoPipe_no124 v hhost x h
  · obtain ⟨ts, ho, hteq⟩ := optPart_mem _ _ _ h2
    subst hteq
    rw [ho] at htags
    simp only [tagsOk, Bool.and_eq_true, List.all_eq_true] at htags
    have hne : ts ≠ [] := by
      intro h0
      rw [h0] at htags
      simp [List.isEmpty] at htags
    refine ⟨⟨utf8Valid_append [35] _ rfl
        (joinSep_utf8 44 (by omega) ts fun t htm => tagOk_utf8 t (htags.2 t htm)), ?_⟩,
      scSection_tags ts hne fun t htm => htags.2 t htm⟩
    intro x hx
    simp only at hx
    rcases List.mem_append.mp hx with h | h
    · simp at h
      subst h
      rfl
    · exact joinSep_no44_no124 ts (fun t htm => htags.2 t htm) x h
  · obtain ⟨v, ho, hteq⟩ := optPart_mem _ _ _ h3
    subst hteq
    rw [ho] at hmsg
    refine ⟨⟨utf8Valid_append [109, 58] _ rfl (strNoPipe_utf8 v hmsg), ?_⟩,
      scSection_message v hmsg⟩
    intro x hx
    simp only at hx
    rcases List.mem_append.mp hx with h | h
    · simp at h
      rcases h with h | h <;> subst h <;> rfl
    · exact strNoPipe_no124 v hmsg x h
  · obtain ⟨c, ho, hteq⟩ := optPart_mem _ _ _ h4
    subst hteq
    rw [ho] at hcid
    refine ⟨⟨utf8Valid_append [99, 58] _ rfl (strNoPipe_utf8 c hcid), ?_⟩,
      scSection_cid c hcid⟩
    intro x hx
    simp only at hx
    rcases List.mem_append.mp hx with h | h
    · simp at h
      rcases h with h | h <;> subst h <;> rfl
    · exact strNoPipe_no124 c hcid x h

theorem scSecs_utf8 (s : CanonSC) (hwf : WfSC s = true) :
    ∀ v ∈ (scSecTriples s).map (·.1), utf8Valid v = true := by
  intro v hv
  rcases List.mem_map.mp hv with ⟨t, ht, hts⟩
  subst hts
  exact ((scSecs_facts s hwf t ht).1).1

theorem scSecs_no124 (s : CanonSC) (hwf : WfSC s = true) :
    ∀ v ∈ (scSecTriples s).map (·.1), ∀ x ∈ v, (x == 124) = false := by
  intro v hv
  rcases List.mem_map.mp hv with ⟨t, ht, hts⟩
  subst hts
  exact ((scSecs_facts s hwf t ht).1).2

theorem scSecs_steps (s : CanonSC) (hwf : WfSC s = true) :
    ∀ t ∈ scSecTriples s, SecStep scSection t.1 t.2 := by
  intro t ht
  exact (scSecs_facts s hwf t ht).2

theorem scSecs_ne_nil (s : CanonSC) :
    ∀ t ∈ scSecTriples s, t.1 ≠ [] := by
  intro t ht
  unfold scSecTriples at ht
  rcases List.mem_append.mp ht with h4 | h4
  rcases List.mem_append.mp h4 with h3 | h3
  rcases List.mem_append.mp h3 with h2 | h2
  rcases List.mem_append.mp h2 with h1 | h1
  all_goals first
    | (obtain ⟨x, _, hteq⟩ := optPart_mem _ _ _ h1; subst hteq; simp)
    | (obtain ⟨x, _, hteq⟩ := optPart_mem _ _ _ h2; subst hteq; simp)
    | (obtain ⟨x, _, hteq⟩ := optPart_mem _ _ _ h3; subst hteq; simp)
    | (obtain ⟨x, _, hteq⟩ := optPart_mem _ _ _ h4; subst hteq; simp)

/-! ## Decoding a canonical service-check datagram -/

theorem decode_sc_render (s : CanonSC) (hwf : WfSC s = true) :
    decode_service_check (renderSC s) = .ok (.vobj (scValue s)) := by
  have hw := hwf
  unfold WfSC at hw
  simp only [Bool.and_eq_true] at hw
  obtain ⟨⟨⟨⟨⟨⟨hname, hst⟩, _⟩, _⟩, _⟩, _⟩, _⟩ := hw
  have hst3 : s.status ≤ 3 := of_decide_eq_true hst
  have hnameU : utf8Valid s.name = true := strNoPipe_utf8 s.name hname
  have hnameNo : ∀ x ∈ s.name, (x == 124) = false := strNoPipe_no124 s.name hname
  have hst4 : s.status = 0 ∨ s.status = 1 ∨ s.status = 2 ∨ s.status = 3 := by omega
  set S := sectionsFlat ((scSecTriples s).map (·.1)) with hS
  set data := renderSC s with hdata
  have hd0 : data = [95, 115, 99, 124] ++ s.name ++ 124 :: (48 + s.status) :: S := by
    rw [hdata, hS, renderSC, ← sc_flat]
    simp [List.append_assoc]
  have hscan0 : scanIdx (fun b => b == 124) data = some 3 := by
    rw [hd0]
    rw [show ([95, 115, 99, 124] : Bytes) ++ s.name ++ 124 :: (48 + s.status) :: S
        = [95, 115, 99] ++ 124 :: (s.name ++ 124 :: (48 + s.status) :: S) from by simp]
    rw [scanIdx_first [95, 115, 99] 124 _
      (by intro x hx; simp at hx; rcases hx with h | h | h <;> subst h <;> rfl) rfl]
    rfl
  unfold decode_service_check
  rw [hscan0]
  dsimp only
  rw [show (3 + 1 : Nat) = 4 from rfl]
  have hdrop4 : data.drop 4 = s.name ++ 124 :: (48 + s.status) :: S := by
    rw [hd0]
    rw [show (4 : Nat) = (([95, 115, 99, 124] : Bytes)).length from rfl]
    rw [show ([95, 115, 99, 124] : Bytes) ++ s.name ++ 124 :: (48 + s.status) :: S
        = ([95, 115, 99, 124] : Bytes) ++ (s.name ++ 124 :: (48 + s.status) :: S)
        from by simp]
    exact List.drop_left _ _
  have hfind : findFrom (fun b => b == 124) data 4 = some (4 + s.name.length) := by
    unfold findFrom
    rw [hdrop4]
    rw [scanIdx_first s.name 124 _ hnameNo rfl]
    rfl
  rw [hfind]
  dsimp only
  have hsubname := substr_exact data [95, 115, 99, 124] s.name
    (124 :: (48 + s.status) :: S) hd0 hnameU
  rw [show (([95, 115, 99, 124] : Bytes)).length = 4 from rfl] at hsubname
  rw [hsubname, DRes.bind_ok]
  try dsimp only
  have hdropA : data.drop (4 + s.name.length + 1) = (48 + s.status) :: S := by
    rw [hd0]
    rw [show 4 + s.name.length + 1
        = (([95, 115, 99, 124] ++ s.name ++ [124] : Bytes)).length from by
      simp only [List.length_append, List.length_cons, List.length_nil]
      try omega]
    rw [show ([95, 115, 99, 124] : Bytes) ++ s.name ++ 124 :: (48 + s.status) :: S
        = ([95, 115, 99, 124] ++ s.name ++ [124]) ++ ((48 + s.status) :: S) from by simp]
    exact List.drop_left _ _
  rw [hdropA, List.head?_cons]
  dsimp only
  have hcond : ((48 + s.status == 48) || (48 + s.status == 49) || (48 + s.status == 50)
      || (48 + s.status == 51)) = true := by
    rcases hst4 with h | h | h | h <;> rw [h] <;> rfl
  rw [hcond]
  simp only [if_true]
  have hsubst : substr data (4 + s.name.length + 1) (4 + s.name.length + 2)
      = .ok [48 + s.status] := by
    have h1 : data = ([95, 115, 99, 124] ++ s.name ++ [124]) ++ [48 + s.status] ++ S := by
      rw [hd0]
      simp
    have h2 := substr_exact data ([95, 115, 99, 124] ++ s.name ++ [124]) [48 + s.status]
      S h1 (utf8Valid_of_ascii _ (by intro b hb; simp at hb; omega))
    rw [show (([95, 115, 99, 124] ++ s.name ++ [124] : Bytes)).length
        = 4 + s.name.length + 1 from by
      simp only [List.length_append, List.length_cons, List.length_nil]
      try omega] at h2
    rw [show 4 + s.name.length + 1 + (([48 + s.status] : Bytes)).length
        = 4 + s.name.length + 2 from by
      simp only [List.length_cons, List.length_nil]
      try omega] at h2
    exact h2
  rw [hsubst, DRes.bind_ok]
  try dsimp only
  have hparse : parseI32 [48 + s.status] = some (s.status : Int) := by
    rcases hst4 with h | h | h | h <;> rw [h] <;> rfl
  rw [hparse]
  dsimp only
  rcases hTS : scSecTriples s with _ | ⟨t, ts'⟩
  · have hlen : data.length = 4 + s.name.length + 2 := by
      rw [hd0, hS, hTS]
      simp only [List.map_nil, sectionsFlat, List.length_append, List.length_cons,
        List.length_nil]
      try omega
    have hdropB : data.drop (4 + s.name.length + 2) = [] := by
      apply List.drop_eq_nil_of_le
      omega
    rw [hdropB, List.head?_nil]
    dsimp only
    rw [scValue, hTS]
    rfl
  · have hdropB : data.drop (4 + s.name.length + 2)
        = 124 :: (t.1 ++ sectionsFlat (ts'.map (·.1))) := by
      rw [hd0, hS, hTS]
      rw [show 4 + s.name.length + 2
          = (([95, 115, 99, 124] ++ s.name ++ [124] ++ [48 + s.status] : Bytes)).length
          from by
        simp only [List.length_append, List.length_cons, List.length_nil]
        try omega]
      rw [show ([95, 115, 99, 124] : Bytes) ++ s.name ++ 124 :: (48 + s.status)
            :: sectionsFlat ((t :: ts').map (·.1))
          = ([95, 115, 99, 124] ++ s.name ++ [124] ++ [48 + s.status])
            ++ (124 :: (t.1 ++ sectionsFlat (ts'.map (·.1)))) from by
        simp [sectionsFlat]]
      exact List.drop_left _ _
    rw [hdropB, List.head?_cons]
    dsimp only
    rw [show ((124 == 124 : Bool)) = true from rfl]
    simp only [if_true]
    have hd3 : data = ([95, 115, 99, 124] ++ s.name ++ [124] ++ [48 + s.status] ++ [124])
        ++ (t.1 ++ sectionsFlat (ts'.map (·.1))) := by
      rw [hd0, hS, hTS]
      simp [sectionsFlat]
    have hsecU : utf8Valid (t.1 ++ sectionsFlat (ts'.map (·.1))) = true := by
      apply utf8Valid_append
      · exact scSecs_utf8 s hwf t.1
          (by rw [hTS]; simp only [List.map_cons, List.mem_cons]; exact Or.inl trivial)
      · apply sectionsFlat_utf8
        intro v hv
        refine scSecs_utf8 s hwf v ?_
        rw [hTS]
        simp only [List.map_cons, List.mem_cons]
        exact Or.inr hv
    have hsub2 := substr_suffix data _ _ hd3 hsecU
    rw [show (([95, 115, 99, 124] ++ s.name ++ [124] ++ [48 + s.status] ++ [124]
          : Bytes)).length = 4 + s.name.length + 3 from by
      simp only [List.length_append, List.length_cons, List.length_nil]
      try omega] at hsub2
    rw [hsub2, DRes.bind_ok]
    try dsimp only
    have hano : ∀ x ∈ t.1, (x == 124) = false :=
      scSecs_no124 s hwf t.1
        (by rw [hTS]; simp only [List.map_cons, List.mem_cons]; exact Or.inl trivial)
    have hbno : ∀ v ∈ ts'.map (·.1), ∀ x ∈ v, (x == 124) = false := by
      intro v hv
      refine scSecs_no124 s hwf v ?_
      rw [hTS]
      simp only [List.map_cons, List.mem_cons]
      exact Or.inr hv
    rw [splitByte_flat t.1 (ts'.map (·.1)) hano hbno]
    have hmap : t.1 :: ts'.map (·.1) = (scSecTriples s).map (·.1) := by
      rw [hTS]
      simp
    rw [hmap]
    rw [runSections_steps scSection (scSecTriples s) (scSecs_steps s hwf) _]
    rw [DRes.bind_ok]
    rfl

/-! ## Encoding the decoded service-check value -/

theorem scKVs_keys (s : CanonSC) (p : String × DVal)
    (hp : p ∈ (scSecTriples s).map (·.2)) :
    p.1 = "timestamp" ∨ p.1 = "hostname" ∨ p.1 = "tags" ∨ p.1 = "message"
      ∨ p.1 = "container_id" := by
  unfold scSecTriples at hp
  rw [List.map_append, List.map_append, List.map_append, List.map_append] at hp
  rcases List.mem_append.mp hp with h4 | h4
  rcases List.mem_append.mp h4 with h3 | h3
  rcases List.mem_append.mp h3 with h2 | h2
  rcases List.mem_append.mp h2 with h1 | h1
  · exact Or.inl (optPart_map2_keys _ _ _ p h1 (fun _ => rfl))
  · exact Or.inr (Or.inl (optPart_map2_keys _ _ _ p h1 (fun _ => rfl)))
  · exact Or.inr (Or.inr (Or.inl (optPart_map2_keys _ _ _ p h2 (fun _ => rfl))))
  · exact Or.inr (Or.inr (Or.inr (Or.inl (optPart_map2_keys _ _ _ p h3 (fun _ => rfl)))))
  · exact Or.inr (Or.inr (Or.inr (Or.inr (optPart_map2_keys _ _ _ p h4 (fun _ => rfl)))))

theorem scKVs_ne (s : CanonSC) (k : String)
    (n1 : k ≠ "timestamp") (n2 : k ≠ "hostname") (n3 : k ≠ "tags")
    (n4 : k ≠ "message") (n5 : k ≠ "container_id") :
    ∀ p ∈ (scSecTriples s).map (·.2), p.1 ≠ k := by
  intro p hp
  rcases scKVs_keys s p hp with h | h | h | h | h <;> rw [h]
  · exact fun he => n1 he.symm
  · exact fun he => n2 he.symm
  · exact fun he => n3 he.symm
  · exact fun he => n4 he.symm
  · exact fun he => n5 he.symm

theorem scGetDTV (s : CanonSC) :
    (DVal.vobj (scValue s)).get "dogstatsd_type"
      = some (DVal.vstr (litBytes "service_check")) := by
  unfold DVal.get scValue
  dsimp only
  rw [objGet_insKVs_ne _ _ _ (scKVs_ne s "dogstatsd_type" (by decide) (by decide)
    (by decide) (by decide) (by decide))]
  rfl

theorem scGetNameV (s : CanonSC) :
    (DVal.vobj (scValue s)).get "name" = some (DVal.vstr s.name) := by
  unfold DVal.get scValue
  dsimp only
  rw [objGet_insKVs_ne _ _ _ (scKVs_ne s "name" (by decide) (by decide)
    (by decide) (by decide) (by decide))]
  rfl

theorem scGetStatusV (s : CanonSC) :
    (DVal.vobj (scValue s)).get "status" = some (DVal.vi32 (s.status : Int)) := by
  unfold DVal.get scValue
  dsimp only
  rw [objGet_insKVs_ne _ _ _ (scKVs_ne s "status" (by decide) (by decide)
    (by decide) (by decide) (by decide))]
  rfl

theorem scGetTimestampV (s : CanonSC) :
    (DVal.vobj (scValue s)).get "timestamp"
      = Option.map DVal.vu32 s.timestamp := by
  unfold DVal.get scValue scSecTriples
  dsimp only
  rw [List.map_append, List.map_append, List.map_append, List.map_append]
  rw [insKVs_append, insKVs_append, insKVs_append, insKVs_append]
  rw [objGet_insKVs_ne _ _ _ (fun p hp => by
    rw [optPart_map2_keys _ _ _ p hp (fun _ => rfl)]; decide)]
  rw [objGet_insKVs_ne _ _ _ (fun p hp => by
    rw [optPart_map2_keys _ _ _ p hp (fun _ => rfl)]; decide)]
  rw [objGet_insKVs_ne _ _ _ (fun p hp => by
    rw [optPart_map2_keys _ _ _ p hp (fun _ => rfl)]; decide)]
  rw [objGet_insKVs_ne _ _ _ (fun p hp => by
    rw [optPart_map2_keys _ _ _ p hp (fun _ => rfl)]; decide)]
  cases s.timestamp with
  | none =>
    rw [objGet_insKVs_ne _ _ _ (fun p hp => by simp [optPart] at hp)]
    rfl
  | some x =>
    simp only [optPart, List.map_cons, List.map_nil, insKVs_single]
    rw [objGet_objInsert_self]
    rfl

theorem scGetHostnameV (s : CanonSC) :
    (DVal.vobj (scValue s)).get "hostname"
      = Option.map DVal.vstr s.hostname := by
  unfold DVal.get scValue scSecTriples
  dsimp only
  rw [List.map_append, List.map_append, List.map_append, List.map_append]
  rw [insKVs_append, insKVs_append, insKVs_append, insKVs_append]
  rw [objGet_insKVs_ne _ _ _ (fun p hp => by
    rw [optPart_map2_keys _ _ _ p hp (fun _ => rfl)]; decide)]
  rw [objGet_insKVs_ne _ _ _ (fun p hp => by
    rw [optPart_map2_keys _ _ _ p hp (fun _ => rfl)]; decide)]
  rw [objGet_insKVs_ne _ _ _ (fun p hp => by
    rw [optPart_map2_keys _ _ _ p hp (fun _ => rfl)]; decide)]
  cases s.hostname with
  | none =>
    rw [objGet_insKVs_ne _ _ _ (fun p hp => by simp [optPart] at hp)]
    rw [objGet_insKVs_ne _ _ _ (fun p hp => by
      rw [optPart_map2_keys _ _ _ p hp (fun _ => rfl)]; decide)]
    rfl
  | some x =>
    simp only [optPart, List.map_cons, List.map_nil, insKVs_single]
    rw [objGet_objInsert_self]
    rfl

theorem scGetTagsV (s : CanonSC) :
    (DVal.vobj (scValue s)).get "tags"
      = Option.map (fun ts => DVal.varr (ts.map DVal.vstr)) s.tags := by
  unfold DVal.get scValue scSecTriples
  dsimp only
  rw [List.map_append, List.map_append, List.map_append, List.map_append]
  rw [insKVs_append, insKVs_append, insKVs_append, insKVs_append]
  rw [objGet_insKVs_ne _ _ _ (fun p hp => by
    rw [optPart_map2_keys _ _ _ p hp (fun _ => rfl)]; decide)]
  rw [objGet_insKVs_ne _ _ _ (fun p hp => by
    rw [optPart_map2_keys _ _ _ p hp (fun _ => rfl)]; decide)]
  cases s.tags with
  | none =>
    rw [objGet_insKVs_ne _ _ _ (fun p hp => by simp [optPart] at hp)]
    rw [objGet_insKVs_ne _ _ _ (fun p hp => by
      rw [optPart_map2_keys _ _ _ p hp (fun _ => rfl)]; decide)]
    rw [objGet_insKVs_ne _ _ _ (fun p hp => by
      rw [optPart_map2_keys _ _ _ p hp (fun _ => rfl)]; decide)]
    rfl
  | some x =>
    simp only [optPart, List.map_cons, List.map_nil, insKVs_single]
    rw [objGet_objInsert_self]
    rfl

theorem scGetMessageV (s : CanonSC) :
    (DVal.vobj (scValue s)).get "message"
      = Option.map DVal.vstr s.message := by
  unfold DVal.get scValue scSecTriples
  dsimp only
  rw [List.map_append, List.map_append, List.map_append, List.map_append]
  rw [insKVs_append, insKVs_append, insKVs_append, insKVs_append]
  rw [objGet_insKVs_ne _ _ _ (fun p hp => by
    rw [optPart_map2_keys _ _ _ p hp (fun _ => rfl)]; decide)]
  cases s.message with
  | none =>
    rw [objGet_insKVs_ne _ _ _ (fun p hp => by simp [optPart] at hp)]
    rw [objGet_insKVs_ne _ _ _ (fun p hp => by
      rw [optPart_map2_keys _ _ _ p hp (fun _ => rfl)]; decide)]
    rw [objGet_insKVs_ne _ _ _ (fun p hp => by
      rw [optPart_map2_keys _ _ _ p hp (fun _ => rfl)]; decide)]
    rw [objGet_insKVs_ne _ _ _ (fun p hp => by
      rw [optPart_map2_keys _ _ _ p hp (fun _ => rfl)]; decide)]
    rfl
  | some x =>
    simp only [optPart, List.map_cons, List.map_nil, insKVs_single]
    rw [objGet_objInsert_self]
    rfl

theorem scGetCidV (s : CanonSC) :
    (DVal.vobj (scValue s)).get "container_id"
      = Option.map DVal.vstr s.containerId := by
  unfold DVal.get scValue scSecTriples
  dsimp only
  rw [List.map_append, List.map_append, List.map_append, List.map_append]
  rw [insKVs_append, insKVs_append, insKVs_append, insKVs_append]
  cases s.containerId with
  | none =>
    rw [objGet_insKVs_ne _ _ _ (fun p hp => by simp [optPart] at hp)]
    rw [objGet_insKVs_ne _ _ _ (fun p hp => by
      rw [optPart_map2_keys _ _ _ p hp (fun _ => rfl)]; decide)]
    rw [objGet_insKVs_ne _ _ _ (fun p hp => by
      rw [optPart_map2_keys _ _ _ p hp (fun _ => rfl)]; decide)]
    rw [objGet_insKVs_ne _ _ _ (fun p hp => by
      rw [optPart_map2_keys _ _ _ p hp (fun _ => rfl)]; decide)]
    rw [objGet_insKVs_ne _ _ _ (fun p hp => by
      rw [optPart_map2_keys _ _ _ p hp (fun _ => rfl)]; decide)]
    rfl
  | some x =>
    simp only [optPart, List.map_cons, List.map_nil, insKVs_single]
    rw [objGet_objInsert_self]
    rfl

theorem scGetDT (s : CanonSC) :
    (DVal.vobj (scValue s)).getStr "dogstatsd_type"
      = some (litBytes "service_check") := by
  unfold DVal.getStr
  rw [scGetDTV]

theorem scGetName (s : CanonSC) :
    (DVal.vobj (scValue s)).getStr "name" = some s.name := by
  unfold DVal.getStr
  rw [scGetNameV]

theorem scGetStatus (s : CanonSC) :
    (DVal.vobj (scValue s)).getI32 "status" = some (s.status : Int) := by
  unfold DVal.getI32
  rw [scGetStatusV]

theorem scGetTimestamp (s : CanonSC) :
    (DVal.vobj (scValue s)).getU32 "timestamp" = s.timestamp := by
  unfold DVal.getU32
  rw [scGetTimestampV]
  cases s.timestamp with
  | none => rfl
  | some x => rfl

theorem scGetHostname (s : CanonSC) :
    (DVal.vobj (scValue s)).getStr "hostname" = s.hostname := by
  unfold DVal.getStr
  rw [scGetHostnameV]
  cases s.hostname with
  | none => rfl
  | some x => rfl

theorem scGetMessage (s : CanonSC) :
    (DVal.vobj (scValue s)).getStr "message" = s.message := by
  unfold DVal.getStr
  rw [scGetMessageV]
  cases s.message with
  | none => rfl
  | some x => rfl

theorem scGetCid (s : CanonSC) :
    (DVal.vobj (scValue s)).getStr "container_id" = s.containerId := by
  unfold DVal.getStr
  rw [scGetCidV]
  cases s.containerId with
  | none => rfl
  | some x => rfl

theorem scGetTagsArr (s : CanonSC) :
    (DVal.vobj (scValue s)).getArr "tags"
      = Option.map (fun ts => ts.map DVal.vstr) s.tags := by
  unfold DVal.getArr
  rw [scGetTagsV]
  cases s.tags with
  | none => rfl
  | some ts => rfl

theorem scTagsSeg (s : CanonSC) :
    tagsSegRes (DVal.vobj (scValue s))
      = .ok (optSeg s.tags (fun ts => [124, 35] ++ joinSep 44 ts)) := by
  unfold tagsSegRes
  rw [scGetTagsArr]
  cases s.tags with
  | none => rfl
  | some ts =>
    show (tagStrs (ts.map DVal.vstr)).bind (fun xs => .ok ([124, 35] ++ joinSep 44 xs))
      = .ok (optSeg (some ts) (fun ts => [124, 35] ++ joinSep 44 ts))
    rw [tagStrs_map]
    rfl

theorem encode_sc_value (s : CanonSC) (hwf : WfSC s = true) :
    encode_service_check (DVal.vobj (scValue s)) = .ok (renderSC s) := by
  have hst3 : s.status ≤ 3 := by
    unfold WfSC at hwf
    simp only [Bool.and_eq_true] at hwf
    exact of_decide_eq_true hwf.1.1.1.1.1.2
  have hst4 : s.status = 0 ∨ s.status = 1 ∨ s.status = 2 ∨ s.status = 3 := by omega
  have hir : intRender (s.status : Int) = [48 + s.status] := by
    rcases hst4 with h | h | h | h <;> rw [h] <;>
      simp [intRender, natDigits] <;> rfl
  unfold encode_service_check
  rw [scGetName, scGetStatus]
  dsimp only
  rw [scTagsSeg, DRes.bind_ok]
  rw [scGetTimestamp, scGetHostname, scGetMessage, scGetCid, hir, renderSC]

/-- Every text byte of an event datagram is ASCII (metric and service-check
datagrams are unrestricted).  This delimits the event decoder's success
domain: its text loop runs `substr(data, idx..=idx)?` on each byte, and a
single byte ≥ 0x80 is never valid UTF-8 on its own, so an event whose text
holds a multi-byte character is rejected wholesale. -/
def MsgTextAscii : CanonMsg → Bool
  | .event e => e.text.all (fun b => decide (b ≤ 127))
  | _ => true

/-- **C1 (amended).** For every legal canonical text-protocol datagram `D`
whose event text is ASCII, decoding `D` with the DogStatsD codec and then
encoding the decoded value reproduces `D` byte-for-byte:
`encode(decode(D)) = D`.  The ASCII restriction is forced by the code: the
event text loop's per-byte `substr(data, idx..=idx)?` check rejects any
event with non-ASCII (multi-byte UTF-8) text, so such legal datagrams do
not round-trip (they fail to decode at all). -/
theorem c1_decode_encode_roundtrip (d : CanonMsg) (hwf : WfMsg d = true)
    (hascii : MsgTextAscii d = true) :
    (dogstatsdDecode (renderMsg d)).bind dogstatsdEncode = .ok (renderMsg d) := by
  cases d with
  | metric m =>
    have hwm : WfMetric m = true := hwf
    have hw := hwm
    unfold WfMetric at hw
    simp only [Bool.and_eq_true] at hw
    obtain ⟨⟨⟨⟨⟨⟨⟨⟨⟨⟨⟨_, hne⟩, _⟩, hnE⟩, hnS⟩, hu2⟩, _⟩, _⟩, _⟩, _⟩, _⟩, _⟩ := hw
    have hlen2 : 2 ≤ (renderMetric m).length := by
      have h0 : m.name ≠ [] := by
        rw [Bool.not_eq_true'] at hne
        intro h0
        rw [h0] at hne
        simp [List.isEmpty] at hne
      have h1 : 1 ≤ m.name.length := by
        cases hmn : m.name with
        | nil => exact absurd hmn h0
        | cons a l => simp
      rw [renderMetric]
      simp only [List.length_append, List.length_cons, List.length_nil]
      omega
    rw [Bool.not_eq_true'] at hnE hnS
    have hne1 : ¬((renderMetric m).take 2 = [95, 101]) := beq_eq_false_iff_ne.mp hnE
    have hne2 : ¬((renderMetric m).take 2 = [95, 115]) := beq_eq_false_iff_ne.mp hnS
    show (dogstatsdDecode (renderMetric m)).bind dogstatsdEncode = .ok (renderMetric m)
    unfold dogstatsdDecode
    rw [show getRange (renderMetric m) 0 2 = some ((renderMetric m).take 2) from by
      unfold getRange
      rw [if_pos ⟨by omega, hlen2⟩]
      simp]
    dsimp only
    rw [hu2]
    simp only [if_true]
    rw [if_neg hne1, if_neg hne2]
    rw [decode_metric_render m hwm, DRes.bind_ok]
    unfold dogstatsdEncode
    rw [mvGetDT]
    dsimp only
    rw [if_pos rfl]
    exact encode_metric_value m
  | event e =>
    have hwe : WfEvent e = true := hwf
    have haE : ∀ x ∈ e.text, x ≤ 127 := by
      intro x hx
      exact of_decide_eq_true (List.all_eq_true.mp hascii x hx)
    show (dogstatsdDecode (renderEvent e)).bind dogstatsdEncode = .ok (renderEvent e)
    unfold dogstatsdDecode
    have hlen2 : 2 ≤ (renderEvent e).length := by
      rw [renderEvent]
      simp only [List.length_append, List.length_cons, List.length_nil]
      omega
    rw [show getRange (renderEvent e) 0 2 = some [95, 101] from by
      unfold getRange
      rw [if_pos ⟨by omega, hlen2⟩]
      rfl]
    dsimp only
    rw [show utf8Valid [95, 101] = true from rfl]
    simp only [if_true]
    rw [decode_event_render e hwe haE, DRes.bind_ok]
    unfold dogstatsdEncode
    rw [evGetDT]
    dsimp only
    rw [if_neg (by decide), if_pos rfl]
    exact encode_event_value e
  | svcCheck s =>
    have hws : WfSC s = true := hwf
    show (dogstatsdDecode (renderSC s)).bind dogstatsdEncode = .ok (renderSC s)
    unfold dogstatsdDecode
    have hlen2 : 2 ≤ (renderSC s).length := by
      rw [renderSC]
      simp only [List.length_append, List.length_cons, List.length_nil]
      omega
    rw [show getRange (renderSC s) 0 2 = some [95, 115] from by
      unfold getRange
      rw [if_pos ⟨by omega, hlen2⟩]
      rfl]
    dsimp only
    rw [show utf8Valid [95, 115] = true from rfl]
    simp only [if_true]
    rw [decode_sc_render s hws]
    rw [if_neg (show ¬([95, 115] = [95, 101] : Prop) from by decide), DRes.bind_ok]
    unfold dogstatsdEncode
    rw [scGetDT]
    dsimp only
    rw [if_neg (by decide), if_neg (by decide), if_pos rfl]
    exact encode_sc_value s hws

/-! ## Concrete canonical datagrams (the spec's end-to-end scenarios) -/

def exMetric1 : CanonMetric :=
  ⟨litBytes "dog", [⟨false, [49, 49, 49], []⟩], [103], none, none, none⟩

def exMetric2 : CanonMetric :=
  ⟨litBytes "dog", [⟨false, [49, 49, 49], []⟩, ⟨false, [50, 50, 50], []⟩], [99],
    some ⟨false, [48], [53]⟩, some [litBytes "foo:bar", litBytes "baz"], none⟩

def exMetric3 : CanonMetric :=
  ⟨litBytes "dog", [⟨false, [49], []⟩], [115], none, none, some (litBytes "123abc")⟩

def exEvent1 : CanonEvent :=
  ⟨3, 4, litBytes "abc", litBytes "defg", some 160, some (litBytes "hostname"),
    some (litBytes "aggkey"), some (litBytes "low"), some (litBytes "source"),
    some (litBytes "type"), some [litBytes "foo", litBytes "bar:baz"],
    some (litBytes "cid")⟩

def exEvent2 : CanonEvent :=
  ⟨1, 1, litBytes "t", litBytes "x", none, none, none, none, none, none, none, none⟩

def exSC1 : CanonSC :=
  ⟨litBytes "myservice", 2, some 161, some (litBytes "hostname"),
    some [litBytes "foo", litBytes "bar:baz"], some (litBytes "service message"),
    some (litBytes "containerid")⟩

/-- Witness for C1: the round trip at six concrete canonical datagrams (plain
gauge; multi-value counter with sample rate and tags; set with container id;
fully sectioned event; minimal event; fully sectioned service check). -/
theorem c1_decode_encode_roundtrip_witness :
    (WfMsg (.metric exMetric1) = true
      ∧ (dogstatsdDecode (renderMsg (.metric exMetric1))).bind dogstatsdEncode
          = .ok (renderMsg (.metric exMetric1)))
    ∧ (WfMsg (.metric exMetric2) = true
      ∧ (dogstatsdDecode (renderMsg (.metric exMetric2))).bind dogstatsdEncode
          = .ok (renderMsg (.metric exMetric2)))
    ∧ (WfMsg (.metric exMetric3) = true
      ∧ (dogstatsdDecode (renderMsg (.metric exMetric3))).bind dogstatsdEncode
          = .ok (renderMsg (.metric exMetric3)))
    ∧ (WfMsg (.event exEvent1) = true
      ∧ (dogstatsdDecode (renderMsg (.event exEvent1))).bind dogstatsdEncode
          = .ok (renderMsg (.event exEvent1)))
    ∧ (WfMsg (.event exEvent2) = true
      ∧ (dogstatsdDecode (renderMsg (.event exEvent2))).bind dogstatsdEncode
          = .ok (renderMsg (.event exEvent2)))
    ∧ (WfMsg (.svcCheck exSC1) = true
      ∧ (dogstatsdDecode (renderMsg (.svcCheck exSC1))).bind dogstatsdEncode
          = .ok (renderMsg (.svcCheck exSC1))) :=
  ⟨⟨by decide, c1_decode_encode_roundtrip (.metric exMetric1) (by decide) (by decide)⟩,
   ⟨by decide, c1_decode_encode_roundtrip (.metric exMetric2) (by decide) (by decide)⟩,
   ⟨by decide, c1_decode_encode_roundtrip (.metric exMetric3) (by decide) (by decide)⟩,
   ⟨by decide, c1_decode_encode_roundtrip (.event exEvent1) (by decide) (by decide)⟩,
   ⟨by decide, c1_decode_encode_roundtrip (.event exEvent2) (by decide) (by decide)⟩,
   ⟨by decide, c1_decode_encode_roundtrip (.svcCheck exSC1) (by decide) (by decide)⟩⟩

/-- A legal canonical event datagram whose text is the two UTF-8 bytes of
`é`: `_e{1,2}:t|é`. -/
def exEventNA : CanonEvent :=
  ⟨1, 2, litBytes "t", [195, 169], none, none, none, none, none, none, none, none⟩

/-- Counterexample to the frozen C1: the datagram `_e{1,2}:t|é` is legal
(well-formed UTF-8, text non-empty and pipe-free), but the event text
loop's per-byte `substr(data, idx..=idx)?` fails on the byte `0xC3`, so
decode returns the error and `encode(decode(D))` does not reproduce `D`. -/
theorem c1_frozen_counterexample :
    WfMsg (.event exEventNA) = true
    ∧ renderMsg (.event exEventNA)
        = [95, 101, 123, 49, 44, 50, 125, 58, 116, 124, 195, 169]
    ∧ (dogstatsdDecode (renderMsg (.event exEventNA))).bind dogstatsdEncode = .err
    ∧ (dogstatsdDecode (renderMsg (.event exEventNA))).bind dogstatsdEncode
        ≠ .ok (renderMsg (.event exEventNA)) := by
  have hi1 : intRender exEventNA.tlen = [49] := by
    show intRender (1 : Int) = [49]
    rw [intRender, if_neg (by omega)]
    rw [show (1 : Int).toNat = 1 from rfl, natDigits]
    norm_num
  have hi2 : intRender exEventNA.xlen = [50] := by
    show intRender (2 : Int) = [50]
    rw [intRender, if_neg (by omega)]
    rw [show (2 : Int).toNat = 2 from rfl, natDigits]
    norm_num
  have hr : renderMsg (.event exEventNA)
      = [95, 101, 123, 49, 44, 50, 125, 58, 116, 124, 195, 169] := by
    show renderEvent exEventNA = _
    rw [renderEvent, hi1, hi2]
    rfl
  have htxt : textScan [95, 101, 123, 49, 44, 50, 125, 58, 116, 124, 195, 169] 10 10
      = .err := by
    rw [textScan]
    rw [dif_pos (show 10
      < ([95, 101, 123, 49, 44, 50, 125, 58, 116, 124, 195, 169] : Bytes).length
      by decide)]
    rw [if_neg (by decide)]
    rw [show substr [95, 101, 123, 49, 44, 50, 125, 58, 116, 124, 195, 169] 10 11
      = DRes.err from rfl]
    rfl
  have hdec : dogstatsdDecode [95, 101, 123, 49, 44, 50, 125, 58, 116, 124, 195, 169]
      = .err := by
    show (textScan [95, 101, 123, 49, 44, 50, 125, 58, 116, 124, 195, 169] 10 10).bind _
      = DRes.err
    rw [htxt]
    rfl
  refine ⟨by decide, hr, ?_, ?_⟩
  · rw [hr, hdec]
    rfl
  · rw [hr, hdec]
    intro h0
    exact DRes.noConfusion h0

def exEvent3 : CanonEvent :=
  ⟨7, 9, litBytes "abc", litBytes "defg", none, none, none, none, none, none,
    none, none⟩

/-- **C7.** For every well-formed event datagram the decoder accepts — its
text loop's per-byte `substr(data, idx..=idx)?` check confines the success
domain to ASCII text, every other event failing to decode at all — the
decoded `title_length` and `text_length` fields are exactly the integers
parsed from the braces of the input: the datagram is canonical even when
they differ from the actual title/text lengths, so they are not recomputed.
The encoder emits the stored fields verbatim in the `_e{TLEN,XLEN}:`
header for every well-formed event. -/
theorem c7_event_lengths_verbatim (e : CanonEvent) (hwf : WfEvent e = true)
    (hascii : ∀ x ∈ e.text, x ≤ 127) :
    decode_event (renderEvent e) = .ok (.vobj (eventValue e))
    ∧ (DVal.vobj (eventValue e)).getI32 "title_length" = some e.tlen
    ∧ (DVal.vobj (eventValue e)).getI32 "text_length" = some e.xlen
    ∧ encode_event (DVal.vobj (eventValue e))
        = .ok ([95, 101, 123] ++ intRender e.tlen ++ [44] ++ intRender e.xlen
            ++ [125, 58] ++ e.title ++ [124] ++ e.text
            ++ optSeg e.timestamp (fun ts => [124, 100, 58] ++ natDigits ts)
            ++ optSeg e.hostname (fun s => [124, 104, 58] ++ s)
            ++ optSeg e.aggKey (fun s => [124, 107, 58] ++ s)
            ++ optSeg e.priority (fun s => [124, 112, 58] ++ s)
            ++ optSeg e.source (fun s => [124, 115, 58] ++ s)
            ++ optSeg e.etype (fun s => [124, 116, 58] ++ s)
            ++ optSeg e.tags (fun ts => [124, 35] ++ joinSep 44 ts)
            ++ optSeg e.containerId (fun cid => [124, 99, 58] ++ cid)) := by
  refine ⟨decode_event_render e hwf hascii, evGetTlen e, evGetXlen e, ?_⟩
  rw [encode_event_value e, renderEvent]

/-- Witness for C7: a canonical event whose stored lengths (7 and 9) differ
from the actual title and text lengths (3 and 4), decoded and re-encoded
with the lengths carried verbatim. -/
theorem c7_event_lengths_verbatim_witness :
    WfEvent exEvent3 = true
    ∧ exEvent3.tlen ≠ (exEvent3.title.length : Int)
    ∧ exEvent3.xlen ≠ (exEvent3.text.length : Int)
    ∧ (decode_event (renderEvent exEvent3) = .ok (.vobj (eventValue exEvent3))
      ∧ (DVal.vobj (eventValue exEvent3)).getI32 "title_length" = some exEvent3.tlen
      ∧ (DVal.vobj (eventValue exEvent3)).getI32 "text_length" = some exEvent3.xlen
      ∧ encode_event (DVal.vobj (eventValue exEvent3))
          = .ok ([95, 101, 123] ++ intRender exEvent3.tlen ++ [44]
              ++ intRender exEvent3.xlen
              ++ [125, 58] ++ exEvent3.title ++ [124] ++ exEvent3.text
              ++ optSeg exEvent3.timestamp (fun ts => [124, 100, 58] ++ natDigits ts)
              ++ optSeg exEvent3.hostname (fun s => [124, 104, 58] ++ s)
              ++ optSeg exEvent3.aggKey (fun s => [124, 107, 58] ++ s)
              ++ optSeg exEvent3.priority (fun s => [124, 112, 58] ++ s)
              ++ optSeg exEvent3.source (fun s => [124, 115, 58] ++ s)
              ++ optSeg exEvent3.etype (fun s => [124, 116, 58] ++ s)
              ++ optSeg exEvent3.tags (fun ts => [124, 35] ++ joinSep 44 ts)
              ++ optSeg exEvent3.containerId (fun cid => [124, 99, 58] ++ cid))) :=
  ⟨by decide, by decide, by decide, c7_event_lengths_verbatim exEvent3 (by decide) (by decide)⟩

theorem scanValues_eq_none (data : Bytes) (j : Nat)
    (hf : findFrom (fun b => b == 58 || b == 124) data j = none) :
    scanValues data j = .err := by
  rw [scanValues]
  split
  · rfl
  · rename_i heq
    rw [hf] at heq
    exact absurd heq (by simp)

/-- **C6.** The spec says every malformed datagram (truncated, non-UTF-8,
missing separator, unknown type letter, non-numeric number, status outside
0–3) maps to the single invalid-protocol error with no panic and no
divergence.  The code disagrees on two of these classes: a service check
with no `|` separator loops forever in `decode_service_check`'s scan, and an
event whose title length is not numeric panics on `.unwrap()`; the remaining
malformed classes do return the error as specified. -/
theorem c6_malformed_decode_results :
    dogstatsdDecode (litBytes "_sc") = .diverge
    ∧ dogstatsdDecode (litBytes "_e{a,1}:t|x") = .panic
    ∧ dogstatsdDecode (litBytes "dog:111|q") = .err
    ∧ dogstatsdDecode (litBytes "dog:111") = .err
    ∧ dogstatsdDecode [100, 111, 103, 58, 255, 124, 103] = .err
    ∧ dogstatsdDecode (litBytes "_sc|name|9") = .err := by
  have hs1 : scanValues (litBytes "dog:111|q") 4
      = .ok ([⟨false, [49, 49, 49], []⟩], 8) := by
    rw [scanValues_eq_some (litBytes "dog:111|q") 4 7 rfl]
    rfl
  have hs2 : scanValues (litBytes "dog:111") 4 = .err :=
    scanValues_eq_none (litBytes "dog:111") 4 rfl
  refine ⟨rfl, rfl, ?_, ?_, ?_, rfl⟩
  · show decode_metric (litBytes "dog:111|q") = .err
    unfold decode_metric
    rw [show scanIdx (fun b => b == 58) (litBytes "dog:111|q") = some 3 from rfl]
    dsimp only
    rw [show substr (litBytes "dog:111|q") 0 3 = .ok (litBytes "dog") from rfl,
      DRes.bind_ok]
    rw [hs1, DRes.bind_ok]
    rfl
  · show decode_metric (litBytes "dog:111") = .err
    unfold decode_metric
    rw [show scanIdx (fun b => b == 58) (litBytes "dog:111") = some 3 from rfl]
    dsimp only
    rw [show substr (litBytes "dog:111") 0 3 = .ok (litBytes "dog") from rfl,
      DRes.bind_ok]
    rw [hs2]
    rfl
  · show decode_metric [100, 111, 103, 58, 255, 124, 103] = .err
    unfold decode_metric
    rw [show scanIdx (fun b => b == 58) [100, 111, 103, 58, 255, 124, 103]
        = some 3 from rfl]
    dsimp only
    rw [show substr [100, 111, 103, 58, 255, 124, 103] 0 3 = .ok [100, 111, 103]
        from rfl, DRes.bind_ok]
    have hs3 : scanValues [100, 111, 103, 58, 255, 124, 103] 4 = .err := by
      rw [scanValues_eq_some [100, 111, 103, 58, 255, 124, 103] 4 5 rfl]
      rfl
    rw [hs3]
    rfl

/-! ## Pipeline fan-out and backpressure (`src/pipeline.rs`)

Events are opaque, cheaply cloneable records; a clone compares equal to the
original, so a delivery is modelled as the event value plus a flag telling
whether this destination received the original by move (`original = true`)
or a clone. -/

inductive PSignalKind where
  | tick
  | drain
  | other
deriving DecidableEq

structure PEvent where
  ingestNs : Nat
  kind : Option PSignalKind
  payload : Nat
deriving DecidableEq

/-- A `TremorURL`: the artefact class distinguishes pipeline URLs from
offramp URLs, so a connected sink's id never equals the task's own
pipeline id. -/
structure TUrl where
  isPipeline : Bool
  name : Nat
deriving DecidableEq

inductive DestKind where
  | offramp
  | pipeline
deriving DecidableEq

/-- One entry of a destination list: `(TremorURL, Dest)` plus the URL's
`instance_port()`. -/
structure DestEntry where
  did : TUrl
  kind : DestKind
  iport : Option String
deriving DecidableEq

/-- `Dests = HashMap<Cow<str>, Vec<(TremorURL, Dest)>>` (halfbrown keeps
insertion order). -/
abbrev Dests := List (String × List DestEntry)

def destsGet : Dests → String → Option (List DestEntry)
  | [], _ => none
  | (k, v) :: r, output => if k = output then some v else destsGet r output

/-- One observed delivery: destination id and kind, the instance port used
(`none` for signals), the event, and whether it was the original by move. -/
structure Deliv where
  did : TUrl
  kind : DestKind
  port : Option String
  ev : PEvent
  original : Bool
deriving DecidableEq

/-- `Dest::send_event`: both variants deliver; the port comes from
`id.instance_port()`, `?`-failing when it is absent. -/
def destSendEvent (d : DestEntry) (ev : PEvent) (original : Bool) : DRes Deliv :=
  match d.iport with
  | none => .err
  | some p => .ok ⟨d.did, d.kind, some p, ev, original⟩

def delivSeq : List DestEntry → PEvent → DRes (List Deliv)
  | [], _ => .ok []
  | d :: r, ev =>
    (destSendEvent d ev false).bind fun x =>
    (delivSeq r ev).bind fun xs => .ok (x :: xs)

/-- `send_events`: for each `(output, event)` of the event set, look the
output port up; deliver a clone to the first `len - 1` entries (via
`get_unchecked_mut(..len - 1)`, undefined behaviour — modelled `.panic` —
when the list is empty) and the original to the last entry. -/
def sendEvents : List (String × PEvent) → Dests → DRes (List Deliv)
  | [], _ => .ok []
  | (output, event) :: rest, dests =>
    match destsGet dests output with
    | none => sendEvents rest dests
    | some dest =>
      match dest with
      | [] => .panic
      | _ :: _ =>
        (delivSeq (dest.take (dest.length - 1)) event).bind fun ds1 =>
        (destSendEvent (dest.getD (dest.length - 1) ⟨⟨false, 0⟩, .offramp, none⟩)
          event true).bind fun dl =>
        (sendEvents rest dests).bind fun ds2 =>
        .ok (ds1 ++ [dl] ++ ds2)

/-- `Dest::send_signal`: an offramp always receives; a pipeline receives
only if the signal kind is not `Tick`. -/
def destSendSignal (d : DestEntry) (sig : PEvent) (original : Bool) : List Deliv :=
  match d.kind with
  | .offramp => [⟨d.did, .offramp, none, sig, original⟩]
  | .pipeline =>
    if sig.kind = some .tick then [] else [⟨d.did, .pipeline, none, sig, original⟩]

/-- `send_signal`: flatten all destination lists, remember the first entry,
deliver a clone to every later entry whose id is not the task's own, then
deliver the original to the first entry (if its id is not our own) last. -/
def sendSignal (own : TUrl) (sig : PEvent) (dests : Dests) : List Deliv :=
  match (dests.map (·.2)).flatten with
  | [] => []
  | first :: others =>
    (others.flatMap fun d => if d.did = own then [] else destSendSignal d sig false)
      ++ (if first.did = own then [] else destSendSignal first sig true)

/-! ## The buffered sender (`TrySender`) -/

/-- A `TrySender` together with its bounded channel: the channel's capacity,
its current queue (front = next to be received), the primary and scratch
overflow queues, the connected flag of the channel, and — for stating
ordering — the messages received so far and all messages ever submitted. -/
structure TS where
  cap : Nat
  queue : List Nat
  pending : List Nat
  pending2 : List Nat
  connected : Bool
  received : List Nat
  submitted : List Nat

/-- `try_send_safe`: non-blocking enqueue; `Full` parks the message on the
primary overflow and still succeeds; only a disconnected channel fails. -/
def trySendSafe (s : TS) (m : Nat) : TS × Bool :=
  if s.connected then
    if s.queue.length = s.cap then
      ({ s with pending := s.pending ++ [m], submitted := s.submitted ++ [m] }, true)
    else
      ({ s with queue := s.queue ++ [m], submitted := s.submitted ++ [m] }, true)
  else (s, false)

/-- `ready()`: channel not full and no pending overflow. -/
def TS.ready (s : TS) : Bool :=
  !(s.queue.length == s.cap) && s.pending.isEmpty

/-- The drain loop of `drain_ready`: replay the scratch queue in order; after
the first re-hit of *full* (`bad`), push the remainder back onto the primary
overflow in order.  (On a connected channel only `Full` can occur.) -/
def drainLoop (cap : Nat) : List Nat → List Nat → List Nat → Bool → List Nat × List Nat
  | queue, pending, [], _ => (queue, pending)
  | queue, pending, m :: r, bad =>
    if bad then drainLoop cap queue (pending ++ [m]) r true
    else if queue.length = cap then drainLoop cap queue (pending ++ [m]) r true
    else drainLoop cap (queue ++ [m]) pending r false

/-- `drain_ready()`: when the overflow is non-empty and the channel not
full, swap primary and scratch and replay the scratch; return the post-drain
`ready()`. -/
def drainReady (s : TS) : TS × Bool :=
  if !s.pending.isEmpty && !(s.queue.length == s.cap) then
    let qp := drainLoop s.cap s.queue [] s.pending false
    let s' := { s with queue := qp.1, pending := qp.2, pending2 := [] }
    (s', s'.ready)
  else (s, s.ready)

/-- The receiver's dequeue (front of the bounded queue). -/
def tsRecv (s : TS) : TS :=
  match s.queue with
  | [] => s
  | m :: rest => { s with queue := rest, received := s.received ++ [m] }

inductive SOp where
  | send (m : Nat)
  | drain
  | recv

def tsStep (s : TS) : SOp → TS
  | .send m => (trySendSafe s m).1
  | .drain => (drainReady s).1
  | .recv => tsRecv s

def tsRun (cap : Nat) (ops : List SOp) : TS :=
  ops.foldl tsStep ⟨cap, [], [], [], true, [], []⟩

/-! ## Management messages of the pipeline task -/

inductive PMgmt where
  | connectOfframp (output : String) (id : TUrl) (iport : Option String)
  | connectPipeline (output : String) (id : TUrl) (iport : Option String)
  | disconnectOutput (output : String) (id : TUrl)

/-- Append `e` to `output`'s list when the key exists. -/
def destsPush : Dests → String → DestEntry → Dests
  | [], _, _ => []
  | (k, v) :: r, output, e =>
    if k = output then (k, v ++ [e]) :: r else (k, v) :: destsPush r output e

/-- `ConnectOfframp`/`ConnectPipeline`: append to the port's list, or insert
a fresh singleton list. -/
def destsConnect (dests : Dests) (output : String) (e : DestEntry) : Dests :=
  match destsGet dests output with
  | some _ => destsPush dests output e
  | none => dests ++ [(output, [e])]

/-- `DisconnectOutput`: retain entries with a different id; drop the port
key when its list becomes empty. -/
def destsDisconnect : Dests → String → TUrl → Dests
  | [], _, _ => []
  | (k, v) :: r, output, did =>
    if k = output then
      let v' := v.filter (fun e => !(e.did == did))
      if v'.isEmpty then r else (k, v') :: r
    else (k, v) :: destsDisconnect r output did

def applyMgmt (dests : Dests) : PMgmt → Dests
  | .connectOfframp output id iport => destsConnect dests output ⟨id, .offramp, iport⟩
  | .connectPipeline output id iport => destsConnect dests output ⟨id, .pipeline, iport⟩
  | .disconnectOutput output id => destsDisconnect dests output id

/-- The destination table after a sequence of management messages, starting
from the task's initial empty table. -/
def mgmtRun (ops : List PMgmt) : Dests :=
  ops.foldl applyMgmt []

/-! ## Signal fan-out facts -/

theorem destSendSignal_tick (e : DestEntry) (sig : PEvent) (b : Bool)
    (hsig : sig.kind = some .tick) :
    destSendSignal e sig b
      = if e.kind = .offramp then [⟨e.did, .offramp, none, sig, b⟩] else [] := by
  cases hk : e.kind with
  | offramp => simp [destSendSignal, hk]
  | pipeline => simp [destSendSignal, hk, hsig]

theorem destSendSignal_nontick (e : DestEntry) (sig : PEvent) (b : Bool)
    (hsig : sig.kind ≠ some .tick) :
    destSendSignal e sig b = [⟨e.did, e.kind, none, sig, b⟩] := by
  cases hk : e.kind with
  | offramp => simp [destSendSignal, hk]
  | pipeline => simp [destSendSignal, hk, hsig]

/-- **C2.** For every tick signal and every destination table, the signal
broadcast delivers only to offramp (sink) destinations — no pipeline
destination ever receives a tick, so a tick is never placed on a peer
pipeline's forward queue — and every sink entry other than the task's own id
does receive the signal. -/
theorem c2_tick_signals_stay_local (own : TUrl) (sig : PEvent) (dests : Dests)
    (hsig : sig.kind = some PSignalKind.tick) :
    (∀ d ∈ sendSignal own sig dests, d.kind = DestKind.offramp)
    ∧ (∀ e ∈ (dests.map (·.2)).flatten, e.kind = DestKind.offramp → e.did ≠ own →
        ∃ b, Deliv.mk e.did DestKind.offramp none sig b ∈ sendSignal own sig dests) := by
  unfold sendSignal
  cases hfl : (dests.map (·.2)).flatten with
  | nil =>
    constructor
    · intro d hd
      simp at hd
    · intro e he
      simp at he
  | cons first others =>
    constructor
    · intro d hd
      rcases List.mem_append.mp hd with h | h
      · rcases List.mem_flatMap.mp h with ⟨e, he, hde⟩
        by_cases hown : e.did = own
        · rw [if_pos hown] at hde
          simp at hde
        · rw [if_neg hown, destSendSignal_tick e sig false hsig] at hde
          by_cases hk : e.kind = DestKind.offramp
          · rw [if_pos hk] at hde
            simp at hde
            rw [hde]
          · rw [if_neg hk] at hde
            simp at hde
      · by_cases hown : first.did = own
        · rw [if_pos hown] at h
          simp at h
        · rw [if_neg hown, destSendSignal_tick first sig true hsig] at h
          by_cases hk : first.kind = DestKind.offramp
          · rw [if_pos hk] at h
            simp at h
            rw [h]
          · rw [if_neg hk] at h
            simp at h
    · intro e he hk hown
      rcases List.mem_cons.mp he with he1 | he1
      · refine ⟨true, List.mem_append.mpr (Or.inr ?_)⟩
        subst he1
        rw [if_neg hown, destSendSignal_tick e sig true hsig, if_pos hk]
        simp
      · refine ⟨false, List.mem_append.mpr (Or.inl ?_)⟩
        refine List.mem_flatMap.mpr ⟨e, he1, ?_⟩
        rw [if_neg hown, destSendSignal_tick e sig false hsig, if_pos hk]
        simp

/-- Witness for C2: a table with one sink and one peer pipeline; the tick
reaches exactly the sink. -/
theorem c2_tick_signals_stay_local_witness :
    (⟨0, some PSignalKind.tick, 0⟩ : PEvent).kind = some PSignalKind.tick
    ∧ ((∀ d ∈ sendSignal ⟨true, 0⟩ ⟨0, some PSignalKind.tick, 0⟩
          [("out", [⟨⟨false, 1⟩, DestKind.offramp, some "in"⟩,
                    ⟨⟨true, 2⟩, DestKind.pipeline, some "in"⟩])],
        d.kind = DestKind.offramp)
    ∧ (∀ e ∈ (([("out", [⟨⟨false, 1⟩, DestKind.offramp, some "in"⟩,
                    ⟨⟨true, 2⟩, DestKind.pipeline, some "in"⟩])] : Dests).map (·.2)).flatten,
        e.kind = DestKind.offramp → e.did ≠ ⟨true, 0⟩ →
        ∃ b, Deliv.mk e.did DestKind.offramp none ⟨0, some PSignalKind.tick, 0⟩ b
          ∈ sendSignal ⟨true, 0⟩ ⟨0, some PSignalKind.tick, 0⟩
              [("out", [⟨⟨false, 1⟩, DestKind.offramp, some "in"⟩,
                        ⟨⟨true, 2⟩, DestKind.pipeline, some "in"⟩])])) :=
  ⟨rfl, c2_tick_signals_stay_local ⟨true, 0⟩ ⟨0, some PSignalKind.tick, 0⟩
    [("out", [⟨⟨false, 1⟩, DestKind.offramp, some "in"⟩,
              ⟨⟨true, 2⟩, DestKind.pipeline, some "in"⟩])] rfl⟩

/-! ## Delivery order of events and signal broadcasts -/

theorem getD_last {α : Type} (l : List α) (hne : l ≠ []) (dflt : α) :
    l.getD (l.length - 1) dflt = l.getLast hne := by
  induction l with
  | nil => exact absurd rfl hne
  | cons a r ih =>
    cases r with
    | nil => rfl
    | cons b t =>
      have h1 : (a :: b :: t).length - 1 = (b :: t).length - 1 + 1 := by
        simp [List.length_cons]
      rw [h1]
      rw [show (a :: b :: t).getD ((b :: t).length - 1 + 1) dflt
          = (b :: t).getD ((b :: t).length - 1) dflt from rfl]
      rw [ih (by simp)]
      exact (List.getLast_cons (by simp)).symm

theorem delivSeq_ok (l : List DestEntry) (ev : PEvent)
    (hip : ∀ d ∈ l, d.iport ≠ none) :
    delivSeq l ev = .ok (l.map fun d => ⟨d.did, d.kind, d.iport, ev, false⟩) := by
  induction l with
  | nil => rfl
  | cons d r ih =>
    rw [delivSeq]
    have hd : destSendEvent d ev false = .ok ⟨d.did, d.kind, d.iport, ev, false⟩ := by
      unfold destSendEvent
      cases hdp : d.iport with
      | none => exact absurd hdp (hip d (by simp))
      | some p => rfl
    rw [hd, DRes.bind_ok, ih (fun x hx => hip x (by simp [hx])), DRes.bind_ok]
    rfl

theorem flatMap_signal_clones (own : TUrl) (sig : PEvent)
    (hsig : sig.kind ≠ some PSignalKind.tick) (l : List DestEntry)
    (h : ∀ e ∈ l, e.did ≠ own) :
    (l.flatMap fun d => if d.did = own then [] else destSendSignal d sig false)
      = l.map fun d => ⟨d.did, d.kind, none, sig, false⟩ := by
  induction l with
  | nil => rfl
  | cons x r ih =>
    rw [List.flatMap_cons, List.map_cons]
    rw [if_neg (h x (by simp))]
    rw [destSendSignal_nontick x sig false hsig]
    rw [ih (fun e he => h e (by simp [he]))]
    rfl

/-- **C3 (amended).** Event fan-out on a port's destination list follows
insertion order: the first `N - 1` entries receive a clone and the last
entry receives the original by move.  The *signal broadcast*, however, does
not follow insertion order: entries `2..N` of the flattened table receive
clones in order first, and then the *first* entry receives the original by
move, last.  (The frozen claim's "the Nth (last-inserted) entry receives the
original by move" holds for events but not for signal broadcasts.) -/
theorem c3_delivery_order (output : String) (ev : PEvent) (dests : Dests)
    (dest : List DestEntry) (hget : destsGet dests output = some dest)
    (hne : dest ≠ []) (hip : ∀ d ∈ dest, d.iport ≠ none)
    (own : TUrl) (sig : PEvent) (hsig : sig.kind ≠ some PSignalKind.tick)
    (first : DestEntry) (others : List DestEntry)
    (hflat : (dests.map (·.2)).flatten = first :: others)
    (hown : ∀ e ∈ (dests.map (·.2)).flatten, e.did ≠ own) :
    sendEvents [(output, ev)] dests
      = .ok ((dest.dropLast.map fun d => ⟨d.did, d.kind, d.iport, ev, false⟩)
          ++ [⟨(dest.getLast hne).did, (dest.getLast hne).kind,
               (dest.getLast hne).iport, ev, true⟩])
    ∧ sendSignal own sig dests
      = (others.map fun d => ⟨d.did, d.kind, none, sig, false⟩)
        ++ [⟨first.did, first.kind, none, sig, true⟩] := by
  constructor
  · rw [sendEvents, hget]
    rcases dest with _ | ⟨d0, ds⟩
    · exact absurd rfl hne
    · dsimp only
      have hlast : destSendEvent ((d0 :: ds).getD ((d0 :: ds).length - 1)
          ⟨⟨false, 0⟩, .offramp, none⟩) ev true
          = .ok ⟨((d0 :: ds).getLast hne).did, ((d0 :: ds).getLast hne).kind,
              ((d0 :: ds).getLast hne).iport, ev, true⟩ := by
        rw [getD_last (d0 :: ds) hne]
        unfold destSendEvent
        cases hdp : ((d0 :: ds).getLast hne).iport with
        | none => exact absurd hdp (hip _ (List.getLast_mem hne))
        | some p => rfl
      rw [delivSeq_ok _ ev (fun x hx => hip x (List.mem_of_mem_take hx))]
      rw [DRes.bind_ok, hlast, DRes.bind_ok]
      rw [show sendEvents [] dests = .ok [] from rfl, DRes.bind_ok]
      rw [← List.dropLast_eq_take]
      simp
  · unfold sendSignal
    rw [hflat]
    dsimp only
    rw [flatMap_signal_clones own sig hsig others
      (fun e he => hown e (by rw [hflat]; simp [he]))]
    rw [if_neg (hown first (by rw [hflat]; simp))]
    rw [destSendSignal_nontick first sig true hsig]

/-- Witness for C3's amended statement at a two-entry table. -/
theorem c3_delivery_order_witness :
    sendEvents [("out", ⟨5, none, 7⟩)]
        [("out", [⟨⟨false, 1⟩, DestKind.offramp, some "in"⟩,
                  ⟨⟨false, 2⟩, DestKind.offramp, some "in"⟩])]
      = .ok [⟨⟨false, 1⟩, DestKind.offramp, some "in", ⟨5, none, 7⟩, false⟩,
             ⟨⟨false, 2⟩, DestKind.offramp, some "in", ⟨5, none, 7⟩, true⟩]
    ∧ sendSignal ⟨true, 0⟩ ⟨5, none, 7⟩
        [("out", [⟨⟨false, 1⟩, DestKind.offramp, some "in"⟩,
                  ⟨⟨false, 2⟩, DestKind.offramp, some "in"⟩])]
      = [⟨⟨false, 2⟩, DestKind.offramp, none, ⟨5, none, 7⟩, false⟩,
         ⟨⟨false, 1⟩, DestKind.offramp, none, ⟨5, none, 7⟩, true⟩] := by
  have h := c3_delivery_order "out" ⟨5, none, 7⟩
    [("out", [⟨⟨false, 1⟩, DestKind.offramp, some "in"⟩,
              ⟨⟨false, 2⟩, DestKind.offramp, some "in"⟩])]
    [⟨⟨false, 1⟩, DestKind.offramp, some "in"⟩,
     ⟨⟨false, 2⟩, DestKind.offramp, some "in"⟩]
    rfl (by decide) (by decide) ⟨true, 0⟩ ⟨5, none, 7⟩ (by decide)
    ⟨⟨false, 1⟩, DestKind.offramp, some "in"⟩
    [⟨⟨false, 2⟩, DestKind.offramp, some "in"⟩] rfl (by decide)
  exact h

/-- Counterexample to the frozen C3: for the signal broadcast over a
two-entry destination list, it is the *first* (not the last-inserted) entry
that receives the original by move, and it receives it last. -/
theorem c3_frozen_counterexample :
    sendSignal ⟨true, 0⟩ ⟨5, none, 7⟩
        [("out", [⟨⟨false, 1⟩, DestKind.offramp, some "in"⟩,
                  ⟨⟨false, 2⟩, DestKind.offramp, some "in"⟩])]
      = [⟨⟨false, 2⟩, DestKind.offramp, none, ⟨5, none, 7⟩, false⟩,
         ⟨⟨false, 1⟩, DestKind.offramp, none, ⟨5, none, 7⟩, true⟩]
    ∧ sendSignal ⟨true, 0⟩ ⟨5, none, 7⟩
        [("out", [⟨⟨false, 1⟩, DestKind.offramp, some "in"⟩,
                  ⟨⟨false, 2⟩, DestKind.offramp, some "in"⟩])]
      ≠ [⟨⟨false, 1⟩, DestKind.offramp, none, ⟨5, none, 7⟩, false⟩,
         ⟨⟨false, 2⟩, DestKind.offramp, none, ⟨5, none, 7⟩, true⟩] := by
  constructor <;> decide

/-! ## Backpressure buffering invariants -/

theorem drainLoop_concat (cap : Nat) (msgs : List Nat) :
    ∀ (queue pending : List Nat) (bad : Bool), (bad = false → pending = []) →
      (drainLoop cap queue pending msgs bad).1 ++ (drainLoop cap queue pending msgs bad).2
        = queue ++ pending ++ msgs := by
  induction msgs with
  | nil =>
    intro queue pending bad _
    simp [drainLoop]
  | cons m r ih =>
    intro queue pending bad hb
    rw [drainLoop]
    cases bad with
    | true =>
      rw [if_pos rfl]
      rw [ih queue (pending ++ [m]) true (by intro h; cases h)]
      simp
    | false =>
      have hp : pending = [] := hb rfl
      rw [if_neg (by simp)]
      by_cases hfull : queue.length = cap
      · rw [if_pos hfull]
        rw [ih queue (pending ++ [m]) true (by intro h; cases h)]
        simp [hp]
      · rw [if_neg hfull]
        rw [ih (queue ++ [m]) pending false hb]
        simp [hp]

/-- Guard under which the FIFO order is preserved: a message is only
submitted when the overflow is empty or the bounded queue is full (the
`ready()` admission gate the runtime offers implies the first disjunct). -/
def tsGuarded : TS → List SOp → Bool
  | _, [] => true
  | s, .send m :: r =>
    (s.pending.isEmpty || s.queue.length == s.cap) && tsGuarded (tsStep s (.send m)) r
  | s, .drain :: r => tsGuarded (tsStep s .drain) r
  | s, .recv :: r => tsGuarded (tsStep s .recv) r

theorem coe_append_mset (a b : List Nat) :
    ((a ++ b : List Nat) : Multiset Nat) = (a : Multiset Nat) + (b : Multiset Nat) := rfl

/-- One step preserves the no-duplication/no-loss (multiset) invariant. -/
theorem tsStep_perm (s : TS) (op : SOp)
    (h : ((s.received ++ s.queue ++ s.pending : List Nat) : Multiset Nat)
        = (s.submitted : Multiset Nat)
      ∧ s.pending2 = [] ∧ s.connected = true) :
    (((tsStep s op).received ++ (tsStep s op).queue ++ (tsStep s op).pending
        : List Nat) : Multiset Nat) = ((tsStep s op).submitted : Multiset Nat)
    ∧ (tsStep s op).pending2 = [] ∧ (tsStep s op).connected = true := by
  obtain ⟨h1, h2, h3⟩ := h
  simp only [coe_append_mset] at h1
  cases op with
  | send m =>
    simp only [tsStep]
    unfold trySendSafe
    rw [if_pos h3]
    by_cases hfull : s.queue.length = s.cap
    · rw [if_pos hfull]
      dsimp only
      refine ⟨?_, h2, h3⟩
      simp only [coe_append_mset]
      rw [← h1]
      abel
    · rw [if_neg hfull]
      dsimp only
      refine ⟨?_, h2, h3⟩
      simp only [coe_append_mset]
      rw [← h1]
      abel
  | drain =>
    simp only [tsStep]
    unfold drainReady
    by_cases hc : (!s.pending.isEmpty && !(s.queue.length == s.cap)) = true
    · rw [if_pos hc]
      dsimp only
      refine ⟨?_, rfl, h3⟩
      have hdl := drainLoop_concat s.cap s.pending s.queue [] false (fun _ => rfl)
      rw [List.append_nil] at hdl
      have hdl2 : (((drainLoop s.cap s.queue [] s.pending false).1
            ++ (drainLoop s.cap s.queue [] s.pending false).2 : List Nat) : Multiset Nat)
          = ((s.queue ++ s.pending : List Nat) : Multiset Nat) := by
        rw [hdl]
      simp only [coe_append_mset] at hdl2
      simp only [coe_append_mset]
      rw [← h1]
      conv_rhs => rw [add_assoc]
      rw [← hdl2]
      abel
    · rw [if_neg hc]
      refine ⟨?_, h2, h3⟩
      simp only [coe_append_mset]
      rw [← h1]
  | recv =>
    simp only [tsStep]
    unfold tsRecv
    cases hq : s.queue with
    | nil =>
      rw [hq] at h1
      refine ⟨?_, h2, h3⟩
      rw [hq]
      exact h1
    | cons m rest =>
      dsimp only
      refine ⟨?_, h2, h3⟩
      rw [hq] at h1
      simp only [coe_append_mset] at h1 ⊢
      rw [← h1]
      rw [show ((m :: rest : List Nat) : Multiset Nat)
          = ((([m] : List Nat) : Multiset Nat) + ((rest : List Nat) : Multiset Nat))
          from rfl]
      abel

/-- One guarded step preserves the FIFO (concatenation) invariant. -/
theorem tsStep_fifo (s : TS) (op : SOp)
    (hg : ∀ m, op = .send m → s.pending = [] ∨ s.queue.length = s.cap)
    (h : s.received ++ s.queue ++ s.pending = s.submitted) :
    (tsStep s op).received ++ (tsStep s op).queue ++ (tsStep s op).pending
        = (tsStep s op).submitted := by
  cases op with
  | send m =>
    simp only [tsStep]
    unfold trySendSafe
    by_cases h3 : s.connected = true
    · rw [if_pos h3]
      rcases hg m rfl with hp | hfull
      · by_cases hfull : s.queue.length = s.cap
        · rw [if_pos hfull]
          dsimp only
          rw [← h]
          simp [List.append_assoc]
        · rw [if_neg hfull]
          dsimp only
          rw [← h, hp]
          simp [List.append_assoc]
      · rw [if_pos hfull]
        dsimp only
        rw [← h]
        simp [List.append_assoc]
    · rw [if_neg h3]
      exact h
  | drain =>
    simp only [tsStep]
    unfold drainReady
    by_cases hc : (!s.pending.isEmpty && !(s.queue.length == s.cap)) = true
    · rw [if_pos hc]
      dsimp only
      have hdl := drainLoop_concat s.cap s.pending s.queue [] false (fun _ => rfl)
      rw [List.append_nil] at hdl
      rw [← h]
      rw [show s.received ++ s.queue ++ s.pending
          = s.received ++ (s.queue ++ s.pending) by simp [List.append_assoc]]
      rw [← hdl]
      simp [List.append_assoc]
    · rw [if_neg hc]
      exact h
  | recv =>
    simp only [tsStep]
    unfold tsRecv
    cases hq : s.queue with
    | nil =>
      rw [hq] at h
      rw [hq]
      exact h
    | cons m rest =>
      dsimp only
      rw [← h, hq]
      simp [List.append_assoc]

/-- **C4 (amended).** For every sequence of `try_send_safe`, `drain_ready`
and receive operations on a connected buffered sender, no message is
duplicated or lost: *received ++ bounded queue ++ overflow* holds exactly
the multiset of submitted messages, and the scratch overflow is empty
between calls.  `drain_ready` returns `true` only when the overflow has been
fully delivered to the bounded queue.  Submission *order*, however, is only
guaranteed for guarded runs in which no message is submitted while the
overflow is non-empty and the queue has free space (the `ready()` admission
gate gives this): an unguarded send can enter the bounded queue ahead of
previously overflowed messages. -/
theorem c4_overflow_no_loss (cap : Nat) (ops : List SOp) :
    ((((tsRun cap ops).received ++ (tsRun cap ops).queue ++ (tsRun cap ops).pending
        : List Nat) : Multiset Nat) = ((tsRun cap ops).submitted : Multiset Nat)
      ∧ (tsRun cap ops).pending2 = [])
    ∧ (tsGuarded ⟨cap, [], [], [], true, [], []⟩ ops = true →
        (tsRun cap ops).received ++ (tsRun cap ops).queue ++ (tsRun cap ops).pending
          = (tsRun cap ops).submitted)
    ∧ ((drainReady (tsRun cap ops)).2 = true
        → (drainReady (tsRun cap ops)).1.pending = []) := by
  have hperm : ∀ l : List SOp, ∀ s : TS,
      (((s.received ++ s.queue ++ s.pending : List Nat) : Multiset Nat)
          = (s.submitted : Multiset Nat) ∧ s.pending2 = [] ∧ s.connected = true) →
      ((((l.foldl tsStep s).received ++ (l.foldl tsStep s).queue
          ++ (l.foldl tsStep s).pending : List Nat) : Multiset Nat)
          = ((l.foldl tsStep s).submitted : Multiset Nat)
        ∧ (l.foldl tsStep s).pending2 = []
        ∧ (l.foldl tsStep s).connected = true) := by
    intro l
    induction l with
    | nil => intro s h; exact h
    | cons op r ih =>
      intro s h
      rw [List.foldl_cons]
      exact ih _ (tsStep_perm s op h)
  have hfifo : ∀ l : List SOp, ∀ s : TS, tsGuarded s l = true →
      s.received ++ s.queue ++ s.pending = s.submitted →
      (l.foldl tsStep s).received ++ (l.foldl tsStep s).queue
          ++ (l.foldl tsStep s).pending = (l.foldl tsStep s).submitted := by
    intro l
    induction l with
    | nil => intro s _ h; exact h
    | cons op r ih =>
      intro s hg h
      rw [List.foldl_cons]
      cases op with
      | send m =>
        rw [tsGuarded, Bool.and_eq_true] at hg
        refine ih _ hg.2 (tsStep_fifo s (.send m) ?_ h)
        intro m2 hm
        have hguard := hg.1
        simp only [Bool.or_eq_true, List.isEmpty_eq_true, beq_iff_eq] at hguard
        exact hguard
      | drain =>
        rw [tsGuarded] at hg
        exact ih _ hg (tsStep_fifo s .drain (fun m2 hm => by cases hm) h)
      | recv =>
        rw [tsGuarded] at hg
        exact ih _ hg (tsStep_fifo s .recv (fun m2 hm => by cases hm) h)
  have hmain := hperm ops ⟨cap, [], [], [], true, [], []⟩ ⟨rfl, rfl, rfl⟩
  refine ⟨⟨hmain.1, hmain.2.1⟩, ?_, ?_⟩
  · intro hg
    exact hfifo ops ⟨cap, [], [], [], true, [], []⟩ hg rfl
  · intro hready
    unfold drainReady at hready ⊢
    by_cases hc : (!(tsRun cap ops).pending.isEmpty
        && !((tsRun cap ops).queue.length == (tsRun cap ops).cap)) = true
    · rw [if_pos hc] at hready ⊢
      simp only [TS.ready, Bool.and_eq_true] at hready
      have := hready.2
      simp only [List.isEmpty_eq_true] at this
      exact this
    · rw [if_neg hc] at hready ⊢
      simp only [TS.ready, Bool.and_eq_true] at hready
      have := hready.2
      simp only [List.isEmpty_eq_true] at this
      exact this

/-- Counterexample to the frozen C4: with capacity 1, submit 10 (enters the
queue), 11 (queue full, parked in the overflow), receive once, submit 12 —
12 enters the bounded queue ahead of the still-parked 11, and after a drain
the receiver dequeues every message in the order 10, 12, 11, not the
submission order 10, 11, 12. -/
theorem c4_frozen_counterexample :
    (tsRun 1 [.send 10, .send 11, .recv, .send 12, .recv, .drain, .recv]).received
        = [10, 12, 11]
    ∧ (tsRun 1 [.send 10, .send 11, .recv, .send 12, .recv, .drain, .recv]).submitted
        = [10, 11, 12]
    ∧ (tsRun 1 [.send 10, .send 11, .recv, .send 12, .recv, .drain, .recv]).queue = []
    ∧ (tsRun 1 [.send 10, .send 11, .recv, .send 12, .recv, .drain, .recv]).pending = []
    ∧ (tsRun 1 [.send 10, .send 11, .recv, .send 12, .recv, .drain, .recv]).received
        ≠ [10, 11, 12] := by
  refine ⟨?_, ?_, ?_, ?_, ?_⟩ <;> decide

/-- **C5.** `try_send_safe(m)` succeeds whenever the channel is connected:
if the bounded queue is full the message is appended to the primary
overflow, otherwise it enters the bounded queue; it fails exactly when the
peer is disconnected (and then nothing changes). -/
theorem c5_try_send_safe_spec (s : TS) (m : Nat) :
    ((trySendSafe s m).2 = false ↔ s.connected = false)
    ∧ (s.connected = true → s.queue.length = s.cap →
        trySendSafe s m
          = ({ s with pending := s.pending ++ [m], submitted := s.submitted ++ [m] },
             true))
    ∧ (s.connected = true → s.queue.length ≠ s.cap →
        trySendSafe s m
          = ({ s with queue := s.queue ++ [m], submitted := s.submitted ++ [m] },
             true))
    ∧ (s.connected = false → trySendSafe s m = (s, false)) := by
  refine ⟨?_, ?_, ?_, ?_⟩
  · constructor
    · intro hf
      by_cases hc : s.connected = true
      · exfalso
        unfold trySendSafe at hf
        rw [if_pos hc] at hf
        by_cases hq : s.queue.length = s.cap
        · rw [if_pos hq] at hf
          simp at hf
        · rw [if_neg hq] at hf
          simp at hf
      · revert hc
        cases s.connected <;> simp
    · intro hc
      unfold trySendSafe
      rw [if_neg (by rw [hc]; simp)]
  · intro hc hq
    unfold trySendSafe
    rw [if_pos hc, if_pos hq]
  · intro hc hq
    unfold trySendSafe
    rw [if_pos hc, if_neg hq]
  · intro hc
    unfold trySendSafe
    rw [if_neg (by rw [hc]; simp)]

/-! ## Reachable destination tables -/

theorem destsPush_nonempty (dests : Dests) (output : String) (e : DestEntry)
    (h : ∀ p ∈ dests, p.2 ≠ []) : ∀ p ∈ destsPush dests output e, p.2 ≠ [] := by
  induction dests with
  | nil => intro p hp; simp [destsPush] at hp
  | cons q r ih =>
    intro p hp
    rw [destsPush] at hp
    by_cases hk : q.1 = output
    · rw [if_pos hk] at hp
      rcases List.mem_cons.mp hp with h1 | h1
      · rw [h1]
        simp
      · exact h p (by simp [h1])
    · rw [if_neg hk] at hp
      rcases List.mem_cons.mp hp with h1 | h1
      · rw [h1]
        exact h q (by simp)
      · exact ih (fun x hx => h x (by simp [hx])) p h1
  
theorem destsConnect_nonempty (dests : Dests) (output : String) (e : DestEntry)
    (h : ∀ p ∈ dests, p.2 ≠ []) : ∀ p ∈ destsConnect dests output e, p.2 ≠ [] := by
  unfold destsConnect
  cases destsGet dests output with
  | some v => exact destsPush_nonempty dests output e h
  | none =>
    intro p hp
    rcases List.mem_append.mp hp with h1 | h1
    · exact h p h1
    · simp at h1
      rw [h1]
      simp

theorem destsDisconnect_nonempty (dests : Dests) (output : String) (did : TUrl)
    (h : ∀ p ∈ dests, p.2 ≠ []) : ∀ p ∈ destsDisconnect dests output did, p.2 ≠ [] := by
  induction dests with
  | nil => intro p hp; simp [destsDisconnect] at hp
  | cons q r ih =>
    intro p hp
    rw [destsDisconnect] at hp
    by_cases hk : q.1 = output
    · rw [if_pos hk] at hp
      by_cases hemp : (q.2.filter (fun e => !(e.did == did))).isEmpty = true
      · rw [if_pos hemp] at hp
        exact h p (by simp [hp])
      · rw [if_neg hemp] at hp
        rcases List.mem_cons.mp hp with h1 | h1
        · rw [h1]
          intro h0
          exact hemp (by rw [show (q.2.filter (fun e => !(e.did == did))) = [] from h0]; rfl)
        · exact h p (by simp [h1])
    · rw [if_neg hk] at hp
      rcases List.mem_cons.mp hp with h1 | h1
      · rw [h1]
        exact h q (by simp)
      · exact ih (fun x hx => h x (by simp [hx])) p h1

theorem applyMgmt_nonempty (dests : Dests) (op : PMgmt)
    (h : ∀ p ∈ dests, p.2 ≠ []) : ∀ p ∈ applyMgmt dests op, p.2 ≠ [] := by
  cases op with
  | connectOfframp output id iport => exact destsConnect_nonempty dests output _ h
  | connectPipeline output id iport => exact destsConnect_nonempty dests output _ h
  | disconnectOutput output id => exact destsDisconnect_nonempty dests output id h

theorem destsGet_mem (dests : Dests) (k : String) (v : List DestEntry)
    (h : destsGet dests k = some v) : (k, v) ∈ dests := by
  induction dests with
  | nil => simp [destsGet] at h
  | cons q r ih =>
    rw [destsGet] at h
    by_cases hk : q.1 = k
    · rw [if_pos hk] at h
      injection h with h
      exact List.mem_cons.mpr (Or.inl (Prod.ext hk.symm h.symm))
    · rw [if_neg hk] at h
      exact List.mem_cons.mpr (Or.inr (ih h))

theorem destSendEvent_ne_panic (d : DestEntry) (ev : PEvent) (b : Bool) :
    destSendEvent d ev b ≠ .panic := by
  unfold destSendEvent
  cases d.iport <;> intro h <;> cases h

theorem DRes.bind_ne_panic {α β : Type} {x : DRes α} {f : α → DRes β}
    (hx : x ≠ .panic) (hf : ∀ a, f a ≠ .panic) : x.bind f ≠ .panic := by
  cases x with
  | ok a => exact hf a
  | err => intro h; cases h
  | panic => exact absurd rfl hx
  | diverge => intro h; cases h

theorem delivSeq_ne_panic (l : List DestEntry) (ev : PEvent) :
    delivSeq l ev ≠ .panic := by
  induction l with
  | nil => intro h; cases h
  | cons d r ih =>
    rw [delivSeq]
    refine DRes.bind_ne_panic (destSendEvent_ne_panic d ev false) fun x => ?_
    refine DRes.bind_ne_panic ih fun xs => ?_
    intro h
    cases h

theorem sendEvents_ne_panic (dests : Dests) (hwf : ∀ p ∈ dests, p.2 ≠ []) :
    ∀ es : List (String × PEvent), sendEvents es dests ≠ .panic := by
  intro es
  induction es with
  | nil => intro h; cases h
  | cons oe rest ih =>
    rcases oe with ⟨output, event⟩
    rw [sendEvents]
    cases hget : destsGet dests output with
    | none => exact ih
    | some dest =>
      cases hd : dest with
      | nil =>
        exfalso
        exact hwf (output, dest) (destsGet_mem dests output dest hget) (by rw [hd])
      | cons d0 ds =>
        dsimp only
        refine DRes.bind_ne_panic (delivSeq_ne_panic _ event) fun ds1 => ?_
        refine DRes.bind_ne_panic (destSendEvent_ne_panic _ event true) fun dl => ?_
        refine DRes.bind_ne_panic ih fun ds2 => ?_
        intro h
        cases h

/-- **C10.** Starting from the empty table, every destination table
reachable by any sequence of `ConnectOfframp`, `ConnectPipeline` and
`DisconnectOutput` management messages stores only non-empty destination
lists — connects append or insert a singleton, and a disconnect removes the
port key when its list would become empty — so the unchecked indexing at
`..len-1` and `len-1` in `send_events` never goes out of bounds on any
event set. -/
theorem c10_dest_lists_nonempty (ops : List PMgmt) :
    (∀ p ∈ mgmtRun ops, p.2 ≠ [])
    ∧ ∀ es : List (String × PEvent), sendEvents es (mgmtRun ops) ≠ .panic := by
  have hinv : ∀ l : List PMgmt, ∀ dests : Dests, (∀ p ∈ dests, p.2 ≠ []) →
      ∀ p ∈ l.foldl applyMgmt dests, p.2 ≠ [] := by
    intro l
    induction l with
    | nil => intro dests h; exact h
    | cons op r ih =>
      intro dests h
      rw [List.foldl_cons]
      exact ih _ (applyMgmt_nonempty dests op h)
  have hne : ∀ p ∈ mgmtRun ops, p.2 ≠ [] :=
    hinv ops [] (by intro p hp; simp at hp)
  exact ⟨hne, sendEvents_ne_panic _ hne⟩

/-! ## GBQ sink: schema mapping and record encoding
(`src/connectors/impls/gbq/sink.rs`)

The table-type codes (`table_field_schema::Type::from_i32`, googapis) and
the prost wire encoders (`encode_key`, `encode_varint`, the scalar
`encode` functions) live in external crates; they are modelled here from
the protobuf wire format: a key is the varint of `tag*8 + wire_type`,
varints are little-endian base-128 with a continuation bit, 64-bit scalars
are 8 little-endian bytes, and length-delimited payloads carry a varint
byte count. Recursive functions of the source (`map_field`,
`encode_field`) recurse on finite schema/value trees; the embedding makes
that explicit with a fuel argument (`none` = fuel ran out), so every
actual execution is any run with large enough fuel. -/

inductive TableType where
  | unspecified
  | string
  | int64
  | double
  | struct
  | bytes
  | bool
  | timestamp
  | date
  | time
  | datetime
  | geography
  | numeric
  | bignumeric
  | interval
  | json

/-- `table_field_schema::Type::from_i32` (googapis proto enum codes). -/
def tableTypeFromI32 (n : Int) : Option TableType :=
  if n = 0 then some .unspecified
  else if n = 1 then some .string
  else if n = 2 then some .int64
  else if n = 3 then some .double
  else if n = 4 then some .struct
  else if n = 5 then some .bytes
  else if n = 6 then some .bool
  else if n = 7 then some .timestamp
  else if n = 8 then some .date
  else if n = 9 then some .time
  else if n = 10 then some .datetime
  else if n = 11 then some .geography
  else if n = 12 then some .numeric
  else if n = 13 then some .bignumeric
  else if n = 14 then some .interval
  else if n = 15 then some .json
  else none

/-- `TableFieldSchema`: the fields `map_field` reads (name, type code, subfields). -/
inductive RawField where
  | mk (name : String) (rtype : Int) (fields : List RawField)

def RawField.name : RawField → String
  | .mk n _ _ => n

def RawField.rtype : RawField → Int
  | .mk _ t _ => t

def RawField.fields : RawField → List RawField
  | .mk _ _ f => f

/-- `Field`: resolved table type, assigned tag, subfield table (structs). -/
inductive Field where
  | mk (table_type : TableType) (tag : Nat) (subfields : List (String × Field))

def Field.table_type : Field → TableType
  | .mk t _ _ => t

def Field.tag : Field → Nat
  | .mk _ g _ => g

def Field.subfields : Field → List (String × Field)
  | .mk _ _ s => s

/-- `FieldDescriptorProto`: the fields `map_field` sets (others are `None`). -/
structure ProtoField where
  name : String
  number : Int
  ftype : Int
  type_name : Option String

/-- `DescriptorProto`: name, field list, nested types. -/
inductive Desc where
  | mk (name : String) (field : List ProtoField) (nested_type : List Desc)

/-- The two `warn!` calls of `map_field`, in emission order. -/
inductive Warn where
  | unknown_type (name : String)
  | unspecified_type (name : String)

/-- `field_descriptor_proto::Type` codes (prost-types) for the non-struct,
non-unspecified arms of the `grpc_type` match; `.struct` maps to `Message`. -/
def grpcTypeOf : TableType → Int
  | .int64 => 3
  | .double => 1
  | .bool => 8
  | .bytes => 12
  | .struct => 11
  | .unspecified => 0
  | _ => 9

/-- `HashMap::get` / assoc-list lookup by key. -/
def lookupF {α : Type} : List (String × α) → String → Option α
  | [], _ => none
  | (k, v) :: rest, key => if k = key then some v else lookupF rest key

/-- The `for raw_field in raw_fields` loop of `map_field`: accumulates
nested types, proto fields, the field table and the warnings, threading the
tag counter. `rec` is the recursive `map_field` call used by the Struct arm. -/
def mapLoop
    (rec : String → List RawField → Option (Desc × List (String × Field) × List Warn)) :
    List RawField → Nat →
      Option (List Desc × List ProtoField × List (String × Field) × List Warn)
  | [], _ => some ([], [], [], [])
  | rf :: rest, tag =>
    match tableTypeFromI32 rf.rtype with
    | none => mapLoop rec rest tag
    | some table_type =>
      match (match table_type with
        | .struct =>
          match rec ("struct_" ++ rf.name) rf.fields with
          | none => none
          | some (d, sf, ws) => some (some ([d], sf, some ("struct_" ++ rf.name), ws))
        | .unspecified => some none
        | _ => some (some ([], [], none, []))) with
      | none => none
      | some none =>
        match mapLoop rec rest tag with
        | none => none
        | some (ns, ps, fs, ws) =>
          some (ns, ps, fs, .unknown_type rf.name :: .unspecified_type rf.name :: ws)
      | some (some (newNested, subfields, type_name, wsInner)) =>
        match mapLoop rec rest (tag + 1) with
        | none => none
        | some (ns, ps, fs, ws) =>
          some (newNested ++ ns,
                { name := rf.name, number := (tag : Int), ftype := grpcTypeOf table_type,
                  type_name := type_name } :: ps,
                (rf.name, Field.mk table_type tag subfields) :: fs,
                .unknown_type rf.name :: wsInner ++ ws)

/-- `map_field`: descriptor, field table and warning log for a schema. -/
def mapFieldF : Nat → String → List RawField → Option (Desc × List (String × Field) × List Warn)
  | 0, _, _ => none
  | fuel + 1, schema_name, raw_fields =>
    match mapLoop (mapFieldF fuel) raw_fields 1 with
    | none => none
    | some (ns, ps, fs, ws) => some (Desc.mk schema_name ps ns, fs, ws)

/-- LEB128 varint of a `u64`, little-endian base-128 with continuation bit.
Ten bytes of fuel cover every value below `2^70`. -/
def varintF : Nat → Nat → List Nat
  | 0, _ => []
  | fuel + 1, n => if n < 128 then [n] else (n % 128 + 128) :: varintF fuel (n / 128)

def varint (n : Nat) : List Nat := varintF 10 n

/-- `prost::encoding::encode_key`: varint of `tag << 3 | wire_type`. -/
def encodeKey (tag wire : Nat) : List Nat := varint (tag * 8 + wire)

/-- Eight little-endian bytes of a 64-bit word. -/
def le64 (n : Nat) : List Nat :=
  [n % 256, n / 2 ^ 8 % 256, n / 2 ^ 16 % 256, n / 2 ^ 24 % 256,
   n / 2 ^ 32 % 256, n / 2 ^ 40 % 256, n / 2 ^ 48 % 256, n / 2 ^ 56 % 256]

/-- UTF-8 bytes of one code point. -/
def charUtf8 (c : Nat) : List Nat :=
  if c < 128 then [c]
  else if c < 2048 then [192 + c / 64, 128 + c % 64]
  else if c < 65536 then [224 + c / 4096, 128 + c / 64 % 64, 128 + c % 64]
  else [240 + c / 262144, 128 + c / 4096 % 64, 128 + c / 64 % 64, 128 + c % 64]

/-- The UTF-8 bytes of a string (Rust `str::as_bytes` / `String::len`). -/
def strUtf8 (s : String) : List Nat := (s.data.map Char.toNat).flatMap charUtf8

/-- The tremor `Value`, restricted to the shapes the sink's accessors read:
an f64 is carried as its 64-bit pattern, since only its bits are emitted. -/
inductive GValue where
  | vf64 (bits : Nat)
  | vi64 (n : Int)
  | vbool (b : Bool)
  | vstr (s : String)
  | vbytes (b : List Nat)
  | vobj (kvs : List (String × GValue))

/-- The Struct arm's `for (k, v) in val.as_object()` loop: each subfield is
looked up with `.unwrap()` (`none` = panic on an unknown subfield key) and
encoded into the scratch buffer in iteration order. -/
def encObj (enc : Field → GValue → Option (List Nat))
    (subs : List (String × Field)) : List (String × GValue) → Option (List Nat)
  | [] => some []
  | (k, v) :: rest =>
    match lookupF subs k with
    | none => none
    | some sf =>
      match enc sf v, encObj enc subs rest with
      | some b, some bs => some (b ++ bs)
      | _, _ => none

/-- `encode_field`: bytes appended to `result` for one (value, field) pair.
`none` models the `.unwrap()` panics on a type mismatch. The Json arm
re-serialises the dynamic value with `simd_json::to_string`; that
serialisation is outside the byte-level model, so Json fields are out of
the encoded domain here. The Interval arm is an empty body and the
Unspecified arm only warns: both emit no bytes. -/
def encodeFieldF : Nat → Field → GValue → Option (List Nat)
  | 0, _, _ => none
  | fuel + 1, field, val =>
    match field.table_type with
    | .double =>
      match val with
      | .vf64 bits => some (encodeKey field.tag 1 ++ le64 (bits % 2 ^ 64))
      | _ => none
    | .int64 =>
      match val with
      | .vi64 n => some (encodeKey field.tag 0 ++ varint ((n % (2 ^ 64 : Int)).toNat))
      | _ => none
    | .bool =>
      match val with
      | .vbool b => some (encodeKey field.tag 0 ++ [if b then 1 else 0])
      | _ => none
    | .string | .date | .time | .datetime | .timestamp | .numeric | .bignumeric | .geography =>
      match val with
      | .vstr s => some (encodeKey field.tag 2 ++ varint (strUtf8 s).length ++ strUtf8 s)
      | _ => none
    | .struct =>
      match val with
      | .vobj kvs =>
        match encObj (encodeFieldF fuel) field.subfields kvs with
        | none => none
        | some buf => some (encodeKey field.tag 2 ++ varint buf.length ++ buf)
      | _ => none
    | .bytes =>
      match val with
      | .vbytes b => some (encodeKey field.tag 2 ++ varint b.length ++ b)
      | _ => none
    | .json => none
    | .interval => some []
    | .unspecified => some []

/-- The `for (key, val) in obj` loop of `JsonToProtobufMapping::map`: keys
found in the field table are encoded into `result` in iteration order, keys
absent from it are passed over. -/
def gbqMapLoop (fuel : Nat) (fields : List (String × Field)) :
    List (String × GValue) → Option (List Nat)
  | [] => some []
  | (key, val) :: rest =>
    match lookupF fields key with
    | none => gbqMapLoop fuel fields rest
    | some field =>
      match encodeFieldF fuel field val, gbqMapLoop fuel fields rest with
      | some b, some bs => some (b ++ bs)
      | _, _ => none

/-- `JsonToProtobufMapping::map`: a non-object value leaves `result` empty. -/
def gbqMap (fuel : Nat) (fields : List (String × Field)) (value : GValue) : Option (List Nat) :=
  match value with
  | .vobj obj => gbqMapLoop fuel fields obj
  | _ => some []

/-- The bytes one record entry contributes: nothing when its key is not in
the field table, otherwise its `encode_field` output. -/
def encKV (fuel : Nat) (fields : List (String × Field)) (kv : String × GValue) : List Nat :=
  match lookupF fields kv.1 with
  | none => []
  | some field => (encodeFieldF fuel field kv.2).getD []

/-- One record entry encodes without a panic: vacuous for unknown keys. -/
def encOkKV (fuel : Nat) (fields : List (String × Field)) (kv : String × GValue) : Bool :=
  match lookupF fields kv.1 with
  | none => true
  | some field => (encodeFieldF fuel field kv.2).isSome

theorem length_flatten_eq_sum (l : List (List Nat)) :
    l.flatten.length = (l.map List.length).sum := by
  induction l with
  | nil => rfl
  | cons a r ih => simp [List.flatten_cons, List.length_append, ih]

/-- **C8.** The claim states the intended behaviour — an unknown type code is
warned about and skipped, recognised fields get consecutive tags `1..N`
without a warning — but the source inverts the warning: on the concrete
schema `[a: code 9999, b: INT64, c: STRING, u: UNSPECIFIED]`, `map_field`
skips the truly unknown field `a` silently (no warning, no tag, no entry),
emits the "unknown type" warning precisely for the recognised fields `b`,
`c` and `u`, and still assigns the surviving fields consecutive tags 1, 2
in declaration order. -/
theorem c8_map_field_warning_inverted :
    mapFieldF 2 "table"
      [RawField.mk "a" 9999 [], RawField.mk "b" 2 [],
       RawField.mk "c" 1 [], RawField.mk "u" 0 []] =
    some (Desc.mk "table"
            [{ name := "b", number := 1, ftype := 3, type_name := none },
             { name := "c", number := 2, ftype := 9, type_name := none }] [],
          [("b", Field.mk .int64 1 []), ("c", Field.mk .string 2 [])],
          [.unknown_type "b", .unknown_type "c",
           .unknown_type "u", .unspecified_type "u"]) := rfl

/-- **C9.** For every input record and field table such that every known
key's value encodes without a panic, `map`'s output is exactly the
concatenation, in record order, of the encodings of the (key, value) pairs
whose key is in the field table; its length is the sum of the encoded
field lengths; and a key absent from the field table contributes no bytes
and causes no error. (`map` takes the record by shared reference, so the
embedding is a pure function of it.) -/
theorem c9_map_known_fields_concat (fuel : Nat) (fields : List (String × Field))
    (obj : List (String × GValue))
    (h : ∀ kv ∈ obj, encOkKV fuel fields kv = true) :
    gbqMap fuel fields (.vobj obj) = some ((obj.map (encKV fuel fields)).flatten)
    ∧ (∀ out, gbqMap fuel fields (.vobj obj) = some out →
        out.length = ((obj.map (encKV fuel fields)).map List.length).sum)
    ∧ (∀ kv ∈ obj, lookupF fields kv.1 = none → encKV fuel fields kv = []) := by
  have hmain : ∀ l : List (String × GValue), (∀ kv ∈ l, encOkKV fuel fields kv = true) →
      gbqMapLoop fuel fields l = some ((l.map (encKV fuel fields)).flatten) := by
    intro l
    induction l with
    | nil => intro _; rfl
    | cons kv rest ih =>
      intro hl
      rcases kv with ⟨key, val⟩
      have hkv := hl (key, val) (by simp)
      have hrest := ih (fun x hx => hl x (by simp [hx]))
      rw [gbqMapLoop]
      cases hlk : lookupF fields key with
      | none =>
        have hself : encKV fuel fields (key, val) = [] := by simp [encKV, hlk]
        rw [hrest]
        simp only [List.map_cons, List.flatten_cons, hself, List.nil_append]
      | some field =>
        simp only [encOkKV] at hkv
        rw [show lookupF fields ((key, val).1) = some field from hlk] at hkv
        dsimp only at hkv ⊢
        cases henc : encodeFieldF fuel field val with
        | none => rw [henc] at hkv; simp at hkv
        | some b =>
          have hself : encKV fuel fields (key, val) = b := by simp [encKV, hlk, henc]
          rw [hrest]
          dsimp only
          simp only [List.map_cons, List.flatten_cons, hself]
  have h1 : gbqMap fuel fields (GValue.vobj obj) = gbqMapLoop fuel fields obj := rfl
  refine ⟨?_, ?_, ?_⟩
  · rw [h1]
    exact hmain obj h
  · intro out hout
    rw [h1, hmain obj h] at hout
    injection hout with hout
    rw [← hout]
    exact length_flatten_eq_sum _
  · intro kv hkv hnone
    simp [encKV, hnone]

def exGbqFields : List (String × Field) :=
  [("a", .mk .int64 1 []), ("s", .mk .string 2 []),
   ("st", .mk .struct 3 [("x", .mk .bool 1 [])])]

def exGbqObj : List (String × GValue) :=
  [("a", .vi64 300), ("zz", .vbool true),
   ("st", .vobj [("x", .vbool true)]), ("s", .vstr "hi")]

theorem c9_map_known_fields_concat_witness :
    gbqMap 3 exGbqFields (.vobj exGbqObj)
      = some ((exGbqObj.map (encKV 3 exGbqFields)).flatten) :=
  (c9_map_known_fields_concat 3 exGbqFields exGbqObj (by decide)).1
